import Mathlib

/-!
# Verification of the process-scheduling simulation engine

This file is a shallow embedding, in Lean 4, of the scheduling engine of
`app.py` (class `ProcessSchedulerGUI`): the `Process` record, the five
simulation loops `simulate_fcfs`, `simulate_sjf`, `simulate_srtf`,
`simulate_round_robin`, `simulate_priority` (the last one covering both the
non-preemptive and the preemptive priority policy), and the metrics part of
`show_results`.

Modelling conventions:

* The Python code mutates shared `Process` objects held both in
  `self.processes` and in the ready queue.  The embedding keeps the single
  list `procs : List Process` as the store and lets the ready queue, the
  completed list and `current_process` hold *indices* into that list, so an
  in-place mutation of a process is a `List.set` on the store.  Python's
  object identity test `process != current_process` becomes an index test.
* Python's `list.sort(key=...)` is a stable sort; `sortQueue` below is a
  stable insertion sort by the same key, which computes the same list.
* `while` loops run on explicit fuel (`simLoop`); every simulation loop
  checks exactly the Python loop condition before each iteration, so
  `simLoop step cond n s0` is the state after at most `n` iterations and,
  once the condition fails, the final state of the run.
* The GUI-only statements (`status_var.set`, `time.sleep`, plot updates,
  the `simulation_running` cancellation flag) have no effect on the
  simulation data and are not modelled.
* Ghost instrumentation, not present in the Python records but derived
  directly from the control flow, is added for observability:
  `startWrites` / `completionWrites` count the assignments to
  `start_time` / `completion_time`, `idleCount` counts the `current_time += 1`
  idle advances taken when the ready queue is empty, and `preemptions`
  records the `(time, pid)` at which Round Robin re-enqueues an unfinished
  process.
-/

set_option maxHeartbeats 1000000

/-- The four lifecycle states of a process (`Process.state` in `app.py`). -/
inductive PState where
  | NEW
  | READY
  | RUNNING
  | TERMINATED
  deriving DecidableEq, Repr, Inhabited

/-- The `Process` PCB of `app.py` (constructor `Process.__init__` plus the
fields filled in by `generate_processes`), with the ghost write counters
`startWrites` and `completionWrites`. -/
structure Process where
  process_id : Nat
  arrival_time : Nat
  burst_time : Nat
  remaining_time : Nat
  priority : Nat
  start_time : Option Nat
  completion_time : Option Nat
  waiting_time : Int
  turnaround_time : Int
  response_time : Option Int
  state : PState
  startWrites : Nat
  completionWrites : Nat
  deriving DecidableEq, Repr

/-- A fresh process as built by `generate_processes`: `remaining_time`
initialised to the burst time, timing fields unset, state `NEW`. -/
def mkProcess (pid arr burst prio : Nat) : Process :=
  { process_id := pid, arrival_time := arr, burst_time := burst,
    remaining_time := burst, priority := prio, start_time := none,
    completion_time := none, waiting_time := 0, turnaround_time := 0,
    response_time := none, state := PState.NEW, startWrites := 0,
    completionWrites := 0 }

instance : Inhabited Process := ⟨mkProcess 0 0 0 0⟩

/-- The mutable simulation state shared by all policies: the process store,
the ready queue (indices into `procs`), the clock, the admission index, the
completion list, the recorded metrics series (`time_points`,
`ready_queue_data`, `gantt_data`) and `current_process`; `idleCount` and
`preemptions` are ghost observability counters. -/
structure SimState where
  procs : List Process
  readyQueue : List Nat
  currentTime : Nat
  processIndex : Nat
  completed : List Nat
  timePoints : List Nat
  readyQueueData : List Nat
  ganttData : List (Nat × Nat × Nat)
  currentProcess : Option Nat
  idleCount : Nat
  preemptions : List (Nat × Nat)
  deriving DecidableEq, Repr

/-- The state at the start of a run (`reset_data` plus the process list
produced by `generate_processes`, already sorted by arrival time). -/
def initState (ps : List Process) : SimState :=
  { procs := ps, readyQueue := [], currentTime := 0, processIndex := 0,
    completed := [], timePoints := [], readyQueueData := [], ganttData := [],
    currentProcess := none, idleCount := 0, preemptions := [] }

/-- Store lookup: the process at index `i` (Python: the object reference). -/
def pget (s : SimState) (i : Nat) : Process := s.procs.getD i default

/-- Length of the maximal prefix of `l` whose processes have arrived by
time `t`: the number of iterations of the Python admission loop
`while process_index < len(...) and processes[process_index].arrival_time <= current_time`. -/
def countArrived (l : List Process) (t : Nat) : Nat :=
  match l with
  | [] => 0
  | p :: rest => if p.arrival_time ≤ t then countArrived rest t + 1 else 0

/-- Set `state = "READY"` on every index of `l` (the admission loop's
per-process side effect). -/
def markReady (ps : List Process) : List Nat → List Process
  | [] => ps
  | i :: is => markReady (ps.set i { ps.getD i default with state := PState.READY }) is

/-- How many processes the admission loop admits from state `s`. -/
def admitCount (s : SimState) : Nat :=
  countArrived (s.procs.drop s.processIndex) s.currentTime

/-- The admission loop: mark every not-yet-admitted process whose
`arrival_time ≤ current_time` as READY, append it to the ready queue and
advance `process_index`. -/
def admitPhase (s : SimState) : SimState :=
  { s with procs := markReady s.procs (List.range' s.processIndex (admitCount s)),
           processIndex := s.processIndex + admitCount s,
           readyQueue := s.readyQueue ++ List.range' s.processIndex (admitCount s) }

/-- The per-iteration metric recording: `time_points.append(current_time)`;
`ready_queue_data.append(len(ready_queue))`. -/
def recordPhase (s : SimState) : SimState :=
  { s with timePoints := s.timePoints ++ [s.currentTime],
           readyQueueData := s.readyQueueData ++ [s.readyQueue.length] }

/-- The CPU-idle branch: `current_time += 1` (ghost: count it). -/
def idleAdvance (s : SimState) : SimState :=
  { s with currentTime := s.currentTime + 1, idleCount := s.idleCount + 1 }

/-- Stable insertion of index `i` into an index list ordered by key `g`:
`i` goes in front of the first entry whose key is not smaller than `g i`. -/
def insertQ (g : Nat → Nat) (i : Nat) : List Nat → List Nat
  | [] => [i]
  | j :: js => if g j < g i then j :: insertQ g i js else i :: j :: js

/-- Stable sort of the ready queue by key `g`, the embedding of Python's
(stable) `ready_queue.sort(key=...)`: entries with equal keys keep their
queue order. -/
def sortQueue (g : Nat → Nat) : List Nat → List Nat
  | [] => []
  | i :: is => insertQ g i (sortQueue g is)

/-- The first-selection bookkeeping, guarded exactly like the Python
`if process.start_time is None:` block; the ghost counter `startWrites`
is bumped whenever the assignment is executed. -/
def startP (p : Process) (t : Nat) : Process :=
  if p.start_time = none then
    { p with start_time := some t,
             response_time := some ((t : Int) - (p.arrival_time : Int)),
             startWrites := p.startWrites + 1 }
  else p

/-- The completion bookkeeping shared by every policy: state TERMINATED,
`completion_time = t2`, turnaround and waiting recomputed; the ghost
counter `completionWrites` is bumped on the assignment. -/
def finishP (p : Process) (t2 : Nat) : Process :=
  { p with state := PState.TERMINATED,
           completion_time := some t2,
           turnaround_time := (t2 : Int) - (p.arrival_time : Int),
           waiting_time := ((t2 : Int) - (p.arrival_time : Int)) - (p.burst_time : Int),
           completionWrites := p.completionWrites + 1 }

/-- The non-preemptive execution body shared verbatim by FCFS, SJF and
non-preemptive priority: run the selected process `i` for its full burst
time, record one Gantt slice, and complete it.  (The Gantt slice uses the
process's `process_id` and `burst_time`, which the first-selection
bookkeeping `startP` does not touch.) -/
def nonPreExec (s : SimState) (i : Nat) (rest : List Nat) : SimState :=
  { s with procs := s.procs.set i
             (finishP (startP { pget s i with state := PState.RUNNING } s.currentTime)
                      (s.currentTime + (pget s i).burst_time)),
           readyQueue := rest,
           currentTime := s.currentTime + (pget s i).burst_time,
           ganttData := s.ganttData ++
             [(s.currentTime, (pget s i).process_id, (pget s i).burst_time)],
           completed := s.completed ++ [i] }

/-- The one-unit execution body shared by SRTF and preemptive priority:
record a duration-1 Gantt slice for `i`, decrement its remaining time,
advance the clock; on reaching zero complete it and clear
`current_process`, otherwise keep it as `current_process`. -/
def unitExec (s : SimState) (i : Nat) (rest : List Nat) : SimState :=
  if (pget s i).remaining_time - 1 = 0 then
    { s with procs := s.procs.set i
               (finishP { pget s i with remaining_time := (pget s i).remaining_time - 1 }
                        (s.currentTime + 1)),
             readyQueue := rest, currentTime := s.currentTime + 1,
             ganttData := s.ganttData ++ [(s.currentTime, (pget s i).process_id, 1)],
             completed := s.completed ++ [i], currentProcess := none }
  else
    { s with procs := s.procs.set i { pget s i with remaining_time := (pget s i).remaining_time - 1 },
             readyQueue := rest, currentTime := s.currentTime + 1,
             ganttData := s.ganttData ++ [(s.currentTime, (pget s i).process_id, 1)],
             currentProcess := some i }

/-- First selection of `i` (set RUNNING, fix `start_time`/`response_time`
if unset, make it the current process) followed by a one-unit execution:
the selected branch of preemptive priority, and of SRTF when the winner
differs from the current process. -/
def runUnit (s : SimState) (i : Nat) (rest : List Nat) : SimState :=
  unitExec { s with procs := s.procs.set i (startP { pget s i with state := PState.RUNNING } s.currentTime),
                    currentProcess := some i } i rest

/-- The FCFS selection and execution on the post-admission state. -/
def fcfsSelect (s : SimState) : SimState :=
  if s.readyQueue = [] then idleAdvance s
  else nonPreExec s (s.readyQueue.headD 0) s.readyQueue.tail

/-- FCFS step: one iteration of the `while` body of `simulate_fcfs`. -/
def fcfsStep (s0 : SimState) : SimState := fcfsSelect (recordPhase (admitPhase s0))

/-- The SJF selection and execution on the post-admission state: as FCFS
but the ready queue is (stably) sorted by `burst_time` before the pop. -/
def sjfSelect (s : SimState) : SimState :=
  if s.readyQueue = [] then idleAdvance s
  else
    nonPreExec s ((sortQueue (fun j => (pget s j).burst_time) s.readyQueue).headD 0)
               ((sortQueue (fun j => (pget s j).burst_time) s.readyQueue).tail)

/-- SJF step: one iteration of the `while` body of `simulate_sjf`. -/
def sjfStep (s0 : SimState) : SimState := sjfSelect (recordPhase (admitPhase s0))

/-- SRTF's re-queueing of the current process before selection
(`if current_process and current_process.remaining_time > 0`). -/
def srtfReappend (s : SimState) : SimState :=
  match s.currentProcess with
  | some c =>
      if 0 < (pget s c).remaining_time then
        { s with procs := s.procs.set c { pget s c with state := PState.READY },
                 readyQueue := s.readyQueue ++ [c] }
      else s
  | none => s

/-- The SRTF selection and execution on the state after admission and
re-queueing: sort by `remaining_time`, pop the head; if it is a different
process than the current one, perform the switch (old current set READY,
winner set RUNNING with first-selection bookkeeping), then execute one
unit. -/
def srtfSelect (s : SimState) : SimState :=
  if s.readyQueue = [] then { idleAdvance s with currentProcess := none }
  else
    let q := sortQueue (fun j => (pget s j).remaining_time) s.readyQueue
    if s.currentProcess = some (q.headD 0) then unitExec s (q.headD 0) q.tail
    else
      match s.currentProcess with
      | some c =>
          runUnit { s with procs := s.procs.set c { pget s c with state := PState.READY } }
            (q.headD 0) q.tail
      | none => runUnit s (q.headD 0) q.tail

/-- SRTF step: one iteration of the `while` body of `simulate_srtf`. -/
def srtfStep (s0 : SimState) : SimState :=
  srtfSelect (recordPhase (srtfReappend (admitPhase s0)))

/-- The Round Robin slice execution and write-back, before the mid-slice
admission: first-selection bookkeeping, state RUNNING, one Gantt slice of
`min(quantum, remaining_time)`, remaining time decremented, clock advanced
by the slice length. -/
def rrExec (quantum : Nat) (s : SimState) (i : Nat) (rest : List Nat) : SimState :=
  { s with procs := s.procs.set i
             { startP (pget s i) s.currentTime with
               state := PState.RUNNING,
               remaining_time := (pget s i).remaining_time - min quantum (pget s i).remaining_time },
           readyQueue := rest,
           currentTime := s.currentTime + min quantum (pget s i).remaining_time,
           ganttData := s.ganttData ++
             [(s.currentTime, (pget s i).process_id, min quantum (pget s i).remaining_time)] }

/-- The Round Robin selection and execution on the post-admission state:
pop the queue head, run it for `min(quantum, remaining_time)`, admit the
processes that arrived during the slice, then either complete the process
or re-enqueue it at the tail (ghost: record the preemption). -/
def rrSelect (quantum : Nat) (s : SimState) : SimState :=
  if s.readyQueue = [] then idleAdvance s
  else
    let i := s.readyQueue.headD 0
    let s2 := admitPhase (rrExec quantum s i s.readyQueue.tail)
    if (pget s2 i).remaining_time = 0 then
      { s2 with procs := s2.procs.set i (finishP (pget s2 i) s2.currentTime),
                completed := s2.completed ++ [i] }
    else
      { s2 with procs := s2.procs.set i { pget s2 i with state := PState.READY },
                readyQueue := s2.readyQueue ++ [i],
                preemptions := s2.preemptions ++ [(s2.currentTime, (pget s2 i).process_id)] }

/-- Round Robin step: one iteration of the `while` body of
`simulate_round_robin`. -/
def rrStep (quantum : Nat) (s0 : SimState) : SimState :=
  rrSelect quantum (recordPhase (admitPhase s0))

/-- Preemptive priority's unconditional re-queueing of the current process
(`if preemptive and current_process: ready_queue.append(current_process)`;
note: unlike SRTF there is no `remaining_time` guard and no state update). -/
def prioReappend (s : SimState) : SimState :=
  match s.currentProcess with
  | some c => { s with readyQueue := s.readyQueue ++ [c] }
  | none => s

/-- The priority selection and execution on the state after admission (and,
in preemptive mode, re-queueing): sort the ready queue by `priority`, pop
the head; preemptive mode executes one unit and keeps/clears
`current_process`, non-preemptive mode runs to completion. -/
def prioSelect (preemptive : Bool) (s : SimState) : SimState :=
  if s.readyQueue = [] then
    if preemptive then { idleAdvance s with currentProcess := none } else idleAdvance s
  else
    if preemptive then
      runUnit s ((sortQueue (fun j => (pget s j).priority) s.readyQueue).headD 0)
              ((sortQueue (fun j => (pget s j).priority) s.readyQueue).tail)
    else
      nonPreExec s ((sortQueue (fun j => (pget s j).priority) s.readyQueue).headD 0)
                 ((sortQueue (fun j => (pget s j).priority) s.readyQueue).tail)

/-- Priority step (parameter `preemptive` as in `simulate_priority`): one
iteration of the `while` body of `simulate_priority`. -/
def priorityStep (preemptive : Bool) (s0 : SimState) : SimState :=
  prioSelect preemptive (recordPhase (if preemptive then prioReappend (admitPhase s0) else admitPhase s0))

/-- Fuel-bounded `while` driver: run `step` while `cond` holds, at most `n`
times.  Once the loop condition fails the state is final. -/
def simLoop (step : SimState → SimState) (cond : SimState → Bool) : Nat → SimState → SimState
  | 0, s => s
  | n + 1, s => if cond s then simLoop step cond n (step s) else s

/-- Loop condition of FCFS, SJF and Round Robin:
`len(completed_processes) < len(processes)`. -/
def moreToRun (s : SimState) : Bool := decide (s.completed.length < s.procs.length)

/-- Loop condition of SRTF:
`len(completed_processes) < len(processes) or current_process`. -/
def srtfCond (s : SimState) : Bool := moreToRun s || s.currentProcess.isSome

/-- Loop condition of `simulate_priority`:
`len(completed_processes) < len(processes) or (preemptive and current_process)`. -/
def prioCond (preemptive : Bool) (s : SimState) : Bool :=
  moreToRun s || (preemptive && s.currentProcess.isSome)

/-- `simulate_fcfs`, fuel-bounded. -/
def simulate_fcfs (fuel : Nat) (s : SimState) : SimState :=
  simLoop fcfsStep moreToRun fuel s

/-- `simulate_sjf`, fuel-bounded. -/
def simulate_sjf (fuel : Nat) (s : SimState) : SimState :=
  simLoop sjfStep moreToRun fuel s

/-- `simulate_srtf`, fuel-bounded. -/
def simulate_srtf (fuel : Nat) (s : SimState) : SimState :=
  simLoop srtfStep srtfCond fuel s

/-- `simulate_round_robin`, fuel-bounded. -/
def simulate_round_robin (quantum fuel : Nat) (s : SimState) : SimState :=
  simLoop (rrStep quantum) moreToRun fuel s

/-- `simulate_priority`, fuel-bounded. -/
def simulate_priority (preemptive : Bool) (fuel : Nat) (s : SimState) : SimState :=
  simLoop (priorityStep preemptive) (prioCond preemptive) fuel s

/-- The six selectable policies of `run_simulation`. -/
inductive Policy where
  | fcfs
  | sjf
  | srtf
  | rr
  | priority
  | priority_preemptive
  deriving DecidableEq, Repr

/-- The policies whose execution decrements `remaining_time` (unit or
quantum slices); the non-preemptive policies never touch it. -/
def Policy.preemptiveRem : Policy → Bool
  | .srtf => true
  | .rr => true
  | .priority_preemptive => true
  | _ => false

/-- The `run_simulation` dispatch: run the selected algorithm on a fresh
state built from the (arrival-sorted) process list. -/
def run_simulation (pol : Policy) (quantum fuel : Nat) (ps : List Process) : SimState :=
  match pol with
  | .fcfs => simulate_fcfs fuel (initState ps)
  | .sjf => simulate_sjf fuel (initState ps)
  | .srtf => simulate_srtf fuel (initState ps)
  | .rr => simulate_round_robin quantum fuel (initState ps)
  | .priority => simulate_priority false fuel (initState ps)
  | .priority_preemptive => simulate_priority true fuel (initState ps)

/-- The completed processes, in completion order, as `show_results` sees
them (`self.completed_processes` holds the mutated records). -/
def completedProcs (s : SimState) : List Process :=
  s.completed.map (fun i => s.procs.getD i default)

/-- Total duration of the recorded Gantt slices. -/
def sliceDurSum (g : List (Nat × Nat × Nat)) : Nat :=
  (g.map (fun sl => sl.2.2)).sum

/-- The Gantt slices belonging to the process stored at index `i`. -/
def slicesOf (s : SimState) (i : Nat) : List (Nat × Nat × Nat) :=
  s.ganttData.filter (fun sl => sl.2.1 == (pget s i).process_id)

/-- Maximum of a list of naturals (Python `max`, with 0 for the empty
list, which `show_results` never passes). -/
def listMax : List Nat → Nat
  | [] => 0
  | x :: xs => max x (listMax xs)

/-- `statistics.mean` over rationals (the empty-list case, on which Python
raises, is never reached through the guarded caller). -/
def meanQ (xs : List ℚ) : ℚ := xs.sum / (xs.length : ℚ)

/-- The aggregate metrics computed by `show_results`. -/
structure Metrics where
  throughput : Nat
  avg_waiting_time : ℚ
  avg_turnaround_time : ℚ
  avg_response_time : ℚ
  total_time : Nat
  cpu_utilization : ℚ
  context_switches : Nat
  deriving DecidableEq, Repr

/-- The metric part of `show_results`: `none` models the early
`"No processes completed."` return, otherwise the computed metrics
(CPU utilization guarded by `total_time > 0` and capped at 100). -/
def show_results (completed : List Process) (ganttLen : Nat) : Option Metrics :=
  if completed.isEmpty then none
  else
    let total_time := listMax (completed.map (fun p => p.completion_time.getD 0))
    let total_burst := (completed.map (fun p => p.burst_time)).sum
    let cpu0 : ℚ := if 0 < total_time then ((total_burst : ℚ) / (total_time : ℚ)) * 100 else 0
    some { throughput := completed.length,
           avg_waiting_time := meanQ (completed.map (fun p => (p.waiting_time : ℚ))),
           avg_turnaround_time := meanQ (completed.map (fun p => (p.turnaround_time : ℚ))),
           avg_response_time := meanQ ((completed.filterMap (fun p => p.response_time)).map (fun z => (z : ℚ))),
           total_time := total_time,
           cpu_utilization := min cpu0 100,
           context_switches := ganttLen }

/-- A valid engine input: distinct process ids, arrival-sorted (as
`generate_processes` guarantees via its stable sort), positive burst
times, and every record fresh. -/
def validInput (ps : List Process) : Prop :=
  (ps.map (fun p => p.process_id)).Nodup ∧
  List.Pairwise (fun a b => a.arrival_time ≤ b.arrival_time) ps ∧
  ∀ p ∈ ps, 0 < p.burst_time ∧ p.remaining_time = p.burst_time ∧
    p.start_time = none ∧ p.completion_time = none ∧ p.response_time = none ∧
    p.state = PState.NEW ∧ p.startWrites = 0 ∧ p.completionWrites = 0

instance : DecidablePred validInput := fun ps => by
  unfold validInput
  infer_instance

/-- Leftmost element of minimal key in an index list: the element a stable
sort by `g` brings to the front (used to characterise the tie-break the
sorted-queue selections implement). -/
def firstMin (g : Nat → Nat) : List Nat → Option Nat
  | [] => none
  | i :: is =>
    match firstMin g is with
    | none => some i
    | some j => if g i ≤ g j then some i else some j

/-- The number of admitted (arrived), not-yet-terminated processes of a
state: what a ready-queue-length sample should count when the ready queue
holds every arrived, unfinished process (the running one included). -/
def readyCount (s : SimState) : Nat :=
  ((List.range s.procs.length).filter
    (fun j => decide (j < s.processIndex ∧ (pget s j).state ≠ PState.TERMINATED))).length

/-- A one-process input (id 1, arrival 0, burst 5). -/
def psC1 : List Process := [mkProcess 1 0 5 1]

/-- Three processes with a burst-time tie between the two later arrivals
(id 2 arrives before id 1; both have burst 4). -/
def psC2 : List Process := [mkProcess 3 0 3 1, mkProcess 2 1 4 1, mkProcess 1 2 4 1]

/-- Two processes that reach an exact remaining-time tie under SRTF at
time 1 (id 1: arrival 0, burst 3; id 2: arrival 1, burst 2). -/
def psC3 : List Process := [mkProcess 1 0 3 1, mkProcess 2 1 2 1]

/-- The spec's SJF demo set [(1,0,8),(2,1,4),(3,2,9),(4,3,5)]. -/
def psC8 : List Process :=
  [mkProcess 1 0 8 1, mkProcess 2 1 4 1, mkProcess 3 2 9 1, mkProcess 4 3 5 1]

/-- The spec's Round Robin demo set [(1,0,10),(2,1,4),(3,2,5)]. -/
def psC9 : List Process :=
  [mkProcess 1 0 10 1, mkProcess 2 1 4 1, mkProcess 3 2 5 1]

/-! ## List-level helper lemmas -/

theorem getD_set_self {α : Type} :
    ∀ (l : List α) (i : Nat) (a d : α), i < l.length → (l.set i a).getD i d = a := by
  intro l
  induction l with
  | nil => intro i a d h; simp at h
  | cons x xs ih =>
    intro i a d h
    cases i with
    | zero => simp
    | succ n =>
      simp only [List.set_cons_succ, List.getD_cons_succ]
      exact ih n a d (by simpa using h)

theorem getD_set_ne {α : Type} :
    ∀ (l : List α) (i j : Nat) (a d : α), j ≠ i → (l.set i a).getD j d = l.getD j d := by
  intro l
  induction l with
  | nil => intro i j a d _; simp
  | cons x xs ih =>
    intro i j a d h
    cases i with
    | zero =>
      cases j with
      | zero => exact absurd rfl h
      | succ m => simp
    | succ n =>
      cases j with
      | zero => simp
      | succ m =>
        simp only [List.set_cons_succ, List.getD_cons_succ]
        exact ih n m a d (by omega)

theorem getD_drop {α : Type} [Inhabited α] :
    ∀ (l : List α) (n m : Nat), (l.drop n).getD m default = l.getD (n + m) default := by
  intro l
  induction l with
  | nil => intro n m; simp
  | cons x xs ih =>
    intro n m
    cases n with
    | zero => simp
    | succ k =>
      simp only [List.drop_succ_cons]
      have : k + 1 + m = (k + m) + 1 := by omega
      rw [this, List.getD_cons_succ, ih k m]

theorem countArrived_le_length (l : List Process) (t : Nat) : countArrived l t ≤ l.length := by
  induction l with
  | nil => simp [countArrived]
  | cons p rest ih =>
    by_cases h : p.arrival_time ≤ t
    · simp only [countArrived, if_pos h, List.length_cons]; omega
    · simp only [countArrived, if_neg h]; omega

theorem countArrived_arrived (l : List Process) (t : Nat) :
    ∀ m, m < countArrived l t → (l.getD m default).arrival_time ≤ t := by
  induction l with
  | nil => simp [countArrived]
  | cons p rest ih =>
    intro m hm
    by_cases h : p.arrival_time ≤ t
    · cases m with
      | zero => simpa using h
      | succ k =>
        simp only [List.getD_cons_succ]
        refine ih k ?_
        simp only [countArrived, if_pos h] at hm
        omega
    · simp [countArrived, if_neg h] at hm

theorem countArrived_stop (l : List Process) (t : Nat)
    (h : countArrived l t < l.length) :
    t < (l.getD (countArrived l t) default).arrival_time := by
  induction l with
  | nil => simp at h
  | cons p rest ih =>
    by_cases hp : p.arrival_time ≤ t
    · simp only [countArrived, if_pos hp] at h ⊢
      simp only [List.getD_cons_succ]
      exact ih (by simpa using h)
    · simp only [countArrived, if_neg hp, List.getD_cons_zero]
      omega

theorem markReady_length :
    ∀ (is : List Nat) (ps : List Process), (markReady ps is).length = ps.length := by
  intro is
  induction is with
  | nil => intro ps; rfl
  | cons i js ih =>
    intro ps
    simp only [markReady]
    rw [ih, List.length_set]

theorem getD_markReady_notMem :
    ∀ (is : List Nat) (ps : List Process) (j : Nat), j ∉ is →
      (markReady ps is).getD j default = ps.getD j default := by
  intro is
  induction is with
  | nil => intro ps j _; rfl
  | cons i js ih =>
    intro ps j hj
    simp only [List.mem_cons, not_or] at hj
    simp only [markReady]
    rw [ih _ _ hj.2, getD_set_ne _ _ _ _ _ (by exact hj.1)]

theorem getD_markReady_mem :
    ∀ (is : List Nat) (ps : List Process) (j : Nat), is.Nodup → j ∈ is → j < ps.length →
      (markReady ps is).getD j default = { ps.getD j default with state := PState.READY } := by
  intro is
  induction is with
  | nil => intro ps j _ hj _; simp at hj
  | cons i js ih =>
    intro ps j hnd hj hlen
    simp only [List.nodup_cons] at hnd
    rcases List.mem_cons.mp hj with h | h
    · subst h
      simp only [markReady]
      rw [getD_markReady_notMem _ _ _ hnd.1, getD_set_self _ _ _ _ hlen]
    · simp only [markReady]
      rw [ih _ _ hnd.2 h (by rwa [List.length_set]),
          getD_set_ne _ _ _ _ _ (by rintro rfl; exact hnd.1 h)]

/-! ### `admitPhase` effect lemmas -/

theorem admitCount_add_le (s : SimState) (h : s.processIndex ≤ s.procs.length) :
    s.processIndex + admitCount s ≤ s.procs.length := by
  have := countArrived_le_length (s.procs.drop s.processIndex) s.currentTime
  rw [List.length_drop] at this
  unfold admitCount
  omega

theorem admitPhase_procs_length (s : SimState) :
    (admitPhase s).procs.length = s.procs.length := by
  simp [admitPhase, markReady_length]

theorem admitPhase_readyQueue (s : SimState) :
    (admitPhase s).readyQueue = s.readyQueue ++ List.range' s.processIndex (admitCount s) := rfl

theorem admitPhase_processIndex (s : SimState) :
    (admitPhase s).processIndex = s.processIndex + admitCount s := rfl

theorem admitPhase_currentTime (s : SimState) : (admitPhase s).currentTime = s.currentTime := rfl

theorem admitPhase_completed (s : SimState) : (admitPhase s).completed = s.completed := rfl

theorem admitPhase_ganttData (s : SimState) : (admitPhase s).ganttData = s.ganttData := rfl

theorem admitPhase_currentProcess (s : SimState) :
    (admitPhase s).currentProcess = s.currentProcess := rfl

theorem admitPhase_idleCount (s : SimState) : (admitPhase s).idleCount = s.idleCount := rfl

theorem admitPhase_preemptions (s : SimState) : (admitPhase s).preemptions = s.preemptions := rfl

theorem admitPhase_readyQueueData (s : SimState) :
    (admitPhase s).readyQueueData = s.readyQueueData := rfl

theorem admitPhase_pget_out (s : SimState) (j : Nat)
    (h : j < s.processIndex ∨ s.processIndex + admitCount s ≤ j) :
    pget (admitPhase s) j = pget s j := by
  unfold pget admitPhase
  simp only
  rw [getD_markReady_notMem]
  intro hmem
  rw [List.mem_range'_1] at hmem
  omega

theorem admitPhase_pget_admitted (s : SimState) (j : Nat)
    (h1 : s.processIndex ≤ j) (h2 : j < s.processIndex + admitCount s)
    (hlen : j < s.procs.length) :
    pget (admitPhase s) j = { pget s j with state := PState.READY } := by
  unfold pget admitPhase
  simp only
  rw [getD_markReady_mem]
  · exact List.nodup_range' _ _
  · rw [List.mem_range'_1]; omega
  · exact hlen

theorem admitPhase_admitted_arrival (s : SimState) (j : Nat)
    (h1 : s.processIndex ≤ j) (h2 : j < s.processIndex + admitCount s) :
    (pget s j).arrival_time ≤ s.currentTime := by
  have := countArrived_arrived (s.procs.drop s.processIndex) s.currentTime (j - s.processIndex)
    (by unfold admitCount at h2; omega)
  rw [getD_drop] at this
  have hj : s.processIndex + (j - s.processIndex) = j := by omega
  rw [hj] at this
  exact this

theorem admitPhase_stop (s : SimState)
    (h : s.processIndex + admitCount s < s.procs.length) :
    s.currentTime < (pget s (s.processIndex + admitCount s)).arrival_time := by
  have hlt : countArrived (s.procs.drop s.processIndex) s.currentTime <
      (s.procs.drop s.processIndex).length := by
    rw [List.length_drop]; unfold admitCount at h; omega
  have := countArrived_stop (s.procs.drop s.processIndex) s.currentTime hlt
  rw [getD_drop] at this
  exact this

/-! ### `sortQueue` lemmas -/

theorem insertQ_perm (g : Nat → Nat) (i : Nat) :
    ∀ l : List Nat, List.Perm (insertQ g i l) (i :: l) := by
  intro l
  induction l with
  | nil => simp [insertQ]
  | cons j js ih =>
    by_cases h : g j < g i
    · simp only [insertQ, if_pos h]
      exact (ih.cons j).trans (List.Perm.swap i j js)
    · simp [insertQ, if_neg h]

theorem sortQueue_perm (g : Nat → Nat) :
    ∀ l : List Nat, List.Perm (sortQueue g l) l := by
  intro l
  induction l with
  | nil => simp [sortQueue]
  | cons i js ih =>
    exact (insertQ_perm g i (sortQueue g js)).trans (ih.cons i)

theorem mem_sortQueue (g : Nat → Nat) (l : List Nat) (j : Nat) :
    j ∈ sortQueue g l ↔ j ∈ l := (sortQueue_perm g l).mem_iff

theorem sortQueue_nodup (g : Nat → Nat) (l : List Nat) (h : l.Nodup) :
    (sortQueue g l).Nodup := ((sortQueue_perm g l).symm.nodup h)

theorem sortQueue_eq_nil_iff (g : Nat → Nat) (l : List Nat) :
    sortQueue g l = [] ↔ l = [] := by
  constructor
  · intro h
    have := (sortQueue_perm g l).length_eq
    rw [h] at this
    exact List.length_eq_zero.mp this.symm
  · rintro rfl; rfl

theorem head?_insertQ (g : Nat → Nat) (i : Nat) (l : List Nat) :
    (insertQ g i l).head? =
      match l.head? with
      | none => some i
      | some j => if g j < g i then some j else some i := by
  cases l with
  | nil => rfl
  | cons j js =>
    by_cases h : g j < g i
    · simp [insertQ, if_pos h]
    · simp [insertQ, if_neg h]

theorem sortQueue_head?_firstMin (g : Nat → Nat) :
    ∀ l : List Nat, (sortQueue g l).head? = firstMin g l := by
  intro l
  induction l with
  | nil => rfl
  | cons i js ih =>
    simp only [sortQueue, firstMin, head?_insertQ, ih]
    cases hf : firstMin g js with
    | none => rfl
    | some j =>
      dsimp only
      by_cases h : g i ≤ g j
      · rw [if_neg (by omega), if_pos h]
      · rw [if_pos (by omega), if_neg h]

theorem firstMin_isSome (g : Nat → Nat) (l : List Nat) (h : l ≠ []) :
    ∃ i, firstMin g l = some i := by
  cases l with
  | nil => exact absurd rfl h
  | cons x xs =>
    simp only [firstMin]
    cases firstMin g xs with
    | none => exact ⟨x, rfl⟩
    | some j =>
      dsimp only
      by_cases hle : g x ≤ g j
      · exact ⟨x, by rw [if_pos hle]⟩
      · exact ⟨j, by rw [if_neg hle]⟩

theorem firstMin_spec (g : Nat → Nat) :
    ∀ (l : List Nat) (i : Nat), firstMin g l = some i →
      ∃ pre suf, l = pre ++ i :: suf ∧ (∀ j ∈ pre, g i < g j) ∧ (∀ j ∈ suf, g i ≤ g j) := by
  intro l
  induction l with
  | nil => intro i h; simp [firstMin] at h
  | cons x xs ih =>
    intro i h
    simp only [firstMin] at h
    cases hf : firstMin g xs with
    | none =>
      rw [hf] at h
      dsimp only at h
      cases h
      have hxs : xs = [] := by
        cases xs with
        | nil => rfl
        | cons y ys =>
          exfalso
          obtain ⟨j, hj⟩ := firstMin_isSome g (y :: ys) (by simp)
          rw [hj] at hf
          cases hf
      subst hxs
      exact ⟨[], [], rfl, by simp, by simp⟩
    | some j =>
      rw [hf] at h
      dsimp only at h
      obtain ⟨pre, suf, heq, hpre, hsuf⟩ := ih j hf
      by_cases hle : g x ≤ g j
      · rw [if_pos hle] at h
        cases h
        refine ⟨[], xs, rfl, by simp, ?_⟩
        intro k hk
        rw [heq] at hk
        rcases List.mem_append.mp hk with hk | hk
        · exact le_trans hle (le_of_lt (hpre k hk))
        · rcases List.mem_cons.mp hk with hk | hk
          · subst hk; exact hle
          · exact le_trans hle (hsuf k hk)
      · rw [if_neg hle] at h
        cases h
        refine ⟨x :: pre, suf, by rw [heq, List.cons_append], ?_, hsuf⟩
        intro k hk
        rcases List.mem_cons.mp hk with hk | hk
        · subst hk; omega
        · exact hpre k hk

theorem firstMin_mem (g : Nat → Nat) (l : List Nat) (i : Nat) (h : firstMin g l = some i) :
    i ∈ l := by
  obtain ⟨pre, suf, heq, _, _⟩ := firstMin_spec g l i h
  rw [heq]
  simp

theorem firstMin_last (g : Nat → Nat) :
    ∀ (l : List Nat) (c : Nat), c ∉ l →
      (firstMin g (l ++ [c]) = some c ↔ ∀ j ∈ l, g c < g j) := by
  intro l
  induction l with
  | nil => intro c _; simp [firstMin]
  | cons x xs ih =>
    intro c hc
    simp only [List.mem_cons, not_or] at hc
    obtain ⟨hcx, hcxs⟩ := hc
    simp only [List.cons_append, firstMin, List.append_eq]
    obtain ⟨j, hj⟩ := firstMin_isSome g (xs ++ [c]) (by simp)
    rw [hj]
    dsimp only
    constructor
    · intro h
      by_cases hle : g x ≤ g j
      · rw [if_pos hle] at h
        cases h
        exact absurd rfl hcx
      · rw [if_neg hle] at h
        cases h
        have := (ih c hcxs).mp hj
        intro k hk
        rcases List.mem_cons.mp hk with hk | hk
        · subst hk; omega
        · exact this k hk
    · intro h
      have hxc : g c < g x := h x (by simp)
      have hjc : firstMin g (xs ++ [c]) = some c := by
        refine (ih c hcxs).mpr ?_
        intro k hk
        exact h k (List.mem_cons_of_mem _ hk)
      rw [hj] at hjc
      cases hjc
      rw [if_neg (by omega)]

/-! ### `listMax` lemmas -/

theorem le_listMax_of_mem : ∀ (l : List Nat) (x : Nat), x ∈ l → x ≤ listMax l := by
  intro l
  induction l with
  | nil => intro x h; simp at h
  | cons y ys ih =>
    intro x h
    rcases List.mem_cons.mp h with h | h
    · subst h; simp [listMax]
    · have := ih x h
      simp only [listMax]
      omega

theorem listMax_le : ∀ (l : List Nat) (T : Nat), (∀ x ∈ l, x ≤ T) → listMax l ≤ T := by
  intro l
  induction l with
  | nil => intro T _; simp [listMax]
  | cons y ys ih =>
    intro T h
    have h1 := h y (by simp)
    have h2 := ih T (fun x hx => h x (List.mem_cons_of_mem _ hx))
    simp only [listMax]
    omega

theorem listMax_eq (l : List Nat) (T : Nat) (hmem : T ∈ l) (hub : ∀ x ∈ l, x ≤ T) :
    listMax l = T :=
  le_antisymm (listMax_le l T hub) (le_listMax_of_mem l T hmem)

/-! ### Counting helpers -/

theorem mem_of_nodup_length_ge (l : List Nat) (n : Nat) (hnd : l.Nodup)
    (hlt : ∀ x ∈ l, x < n) (hlen : n ≤ l.length) : ∀ i, i < n → i ∈ l := by
  intro i hi
  have hsub : l.toFinset ⊆ Finset.range n := by
    intro x hx
    rw [List.mem_toFinset] at hx
    rw [Finset.mem_range]
    exact hlt x hx
  have hcard : (Finset.range n).card ≤ l.toFinset.card := by
    rw [Finset.card_range, List.toFinset_card_of_nodup hnd]
    exact hlen
  have heq : l.toFinset = Finset.range n := Finset.eq_of_subset_of_card_le hsub hcard
  have : i ∈ l.toFinset := by rw [heq, Finset.mem_range]; exact hi
  rwa [List.mem_toFinset] at this

theorem length_eq_filter_range (l : List Nat) (n : Nat) (p : Nat → Prop) [DecidablePred p]
    (hnd : l.Nodup) (hmem : ∀ j, j ∈ l ↔ (j < n ∧ p j)) :
    l.length = ((List.range n).filter (fun j => decide (p j))).length := by
  have hperm : List.Perm l ((List.range n).filter (fun j => decide (p j))) := by
    rw [List.perm_ext_iff_of_nodup hnd (List.Nodup.filter _ (List.nodup_range n))]
    intro a
    rw [hmem a, List.mem_filter, List.mem_range]
    simp
  exact hperm.length_eq

/-! ### Field lemmas for the per-process record updates -/

@[simp] theorem startP_process_id (p : Process) (t : Nat) : (startP p t).process_id = p.process_id := by
  unfold startP; split <;> rfl

@[simp] theorem startP_arrival (p : Process) (t : Nat) : (startP p t).arrival_time = p.arrival_time := by
  unfold startP; split <;> rfl

@[simp] theorem startP_burst (p : Process) (t : Nat) : (startP p t).burst_time = p.burst_time := by
  unfold startP; split <;> rfl

@[simp] theorem startP_rem (p : Process) (t : Nat) : (startP p t).remaining_time = p.remaining_time := by
  unfold startP; split <;> rfl

@[simp] theorem startP_priority (p : Process) (t : Nat) : (startP p t).priority = p.priority := by
  unfold startP; split <;> rfl

@[simp] theorem startP_state (p : Process) (t : Nat) : (startP p t).state = p.state := by
  unfold startP; split <;> rfl

@[simp] theorem startP_completion (p : Process) (t : Nat) : (startP p t).completion_time = p.completion_time := by
  unfold startP; split <;> rfl

@[simp] theorem startP_waiting (p : Process) (t : Nat) : (startP p t).waiting_time = p.waiting_time := by
  unfold startP; split <;> rfl

@[simp] theorem startP_turnaround (p : Process) (t : Nat) : (startP p t).turnaround_time = p.turnaround_time := by
  unfold startP; split <;> rfl

@[simp] theorem startP_completionWrites (p : Process) (t : Nat) : (startP p t).completionWrites = p.completionWrites := by
  unfold startP; split <;> rfl

theorem startP_of_none (p : Process) (t : Nat) (h : p.start_time = none) :
    startP p t = { p with start_time := some t,
                          response_time := some ((t : Int) - (p.arrival_time : Int)),
                          startWrites := p.startWrites + 1 } := by
  unfold startP; rw [if_pos h]

theorem startP_of_some (p : Process) (t : Nat) (h : p.start_time ≠ none) : startP p t = p := by
  unfold startP; rw [if_neg h]

@[simp] theorem finishP_process_id (p : Process) (t2 : Nat) : (finishP p t2).process_id = p.process_id := rfl

@[simp] theorem finishP_arrival (p : Process) (t2 : Nat) : (finishP p t2).arrival_time = p.arrival_time := rfl

@[simp] theorem finishP_burst (p : Process) (t2 : Nat) : (finishP p t2).burst_time = p.burst_time := rfl

@[simp] theorem finishP_rem (p : Process) (t2 : Nat) : (finishP p t2).remaining_time = p.remaining_time := rfl

@[simp] theorem finishP_priority (p : Process) (t2 : Nat) : (finishP p t2).priority = p.priority := rfl

@[simp] theorem finishP_state (p : Process) (t2 : Nat) : (finishP p t2).state = PState.TERMINATED := rfl

@[simp] theorem finishP_completion (p : Process) (t2 : Nat) : (finishP p t2).completion_time = some t2 := rfl

@[simp] theorem finishP_start (p : Process) (t2 : Nat) : (finishP p t2).start_time = p.start_time := rfl

@[simp] theorem finishP_response (p : Process) (t2 : Nat) : (finishP p t2).response_time = p.response_time := rfl

@[simp] theorem finishP_startWrites (p : Process) (t2 : Nat) : (finishP p t2).startWrites = p.startWrites := rfl

@[simp] theorem finishP_completionWrites (p : Process) (t2 : Nat) :
    (finishP p t2).completionWrites = p.completionWrites + 1 := rfl

/-! ### `slicesOf` helpers -/

theorem slicesOf_eq (s s' : SimState) (i : Nat)
    (hg : s'.ganttData = s.ganttData)
    (hpid : (pget s' i).process_id = (pget s i).process_id) :
    slicesOf s' i = slicesOf s i := by
  unfold slicesOf
  rw [hg, hpid]

theorem slicesOf_append_ne (s s' : SimState) (i : Nat) (t pid d : Nat)
    (hg : s'.ganttData = s.ganttData ++ [(t, pid, d)])
    (hpid : (pget s' i).process_id = (pget s i).process_id)
    (hne : pid ≠ (pget s i).process_id) :
    slicesOf s' i = slicesOf s i := by
  unfold slicesOf
  rw [hg, hpid, List.filter_append]
  simp [hne]

theorem slicesOf_append_eq (s s' : SimState) (i : Nat) (t d : Nat)
    (hg : s'.ganttData = s.ganttData ++ [(t, (pget s i).process_id, d)])
    (hpid : (pget s' i).process_id = (pget s i).process_id) :
    slicesOf s' i = slicesOf s i ++ [(t, (pget s i).process_id, d)] := by
  unfold slicesOf
  rw [hg, hpid, List.filter_append]
  simp

/-! ## The simulation invariant -/

/-- The loop-top invariant shared by all five simulation loops.  `ps0` is
the input process list, `pm` tells whether the policy decrements
`remaining_time` (SRTF / RR / preemptive priority) or leaves it untouched
(FCFS / SJF / non-preemptive priority). -/
structure SimInv (ps0 : List Process) (pm : Bool) (s : SimState) : Prop where
  hlen : s.procs.length = ps0.length
  hid : ∀ i, (pget s i).process_id = (ps0.getD i default).process_id
  harr : ∀ i, (pget s i).arrival_time = (ps0.getD i default).arrival_time
  hburst : ∀ i, (pget s i).burst_time = (ps0.getD i default).burst_time
  hidx : s.processIndex ≤ s.procs.length
  hidxArr : ∀ k, k < s.processIndex → (pget s k).arrival_time ≤ s.currentTime
  hstate : ∀ k, s.processIndex ≤ k → k < s.procs.length → (pget s k).state = PState.NEW
  hqmem : ∀ i, i ∈ s.readyQueue ↔
      (i < s.processIndex ∧ (pget s i).state ≠ PState.TERMINATED ∧ s.currentProcess ≠ some i)
  hqnd : s.readyQueue.Nodup
  hcmem : ∀ i, i ∈ s.completed ↔ (i < s.procs.length ∧ (pget s i).state = PState.TERMINATED)
  hcnd : s.completed.Nodup
  hdone : ∀ i ∈ s.completed, ∃ t, (pget s i).completion_time = some t ∧ t ≤ s.currentTime ∧
      (pget s i).completionWrites = 1
  hnotdone : ∀ i, i < s.procs.length → i ∉ s.completed →
      (pget s i).completion_time = none ∧ (pget s i).completionWrites = 0
  hrem : ∀ i, i < s.procs.length →
      if pm then
        ((pget s i).state = PState.TERMINATED → (pget s i).remaining_time = 0) ∧
        ((pget s i).state ≠ PState.TERMINATED → 0 < (pget s i).remaining_time)
      else (pget s i).remaining_time = (pget s i).burst_time
  hcur : ∀ c, s.currentProcess = some c →
      c < s.processIndex ∧ 0 < (pget s c).remaining_time ∧
      (pget s c).state ≠ PState.TERMINATED ∧ (pget s c).start_time ≠ none
  hclock : sliceDurSum s.ganttData + s.idleCount = s.currentTime
  hlast : 0 < s.procs.length → s.procs.length ≤ s.completed.length →
      ∃ i, i ∈ s.completed ∧ (pget s i).completion_time = some s.currentTime
  hstart : ∀ i, i < s.procs.length →
      ((pget s i).start_time = none ∧ (pget s i).startWrites = 0 ∧
       (pget s i).response_time = none ∧ slicesOf s i = [])
      ∨ (∃ t, (pget s i).start_time = some t ∧ (pget s i).startWrites = 1 ∧
         (pget s i).response_time = some ((t : Int) - ((pget s i).arrival_time : Int)) ∧
         ∃ d rest, slicesOf s i = (t, (pget s i).process_id, d) :: rest)

theorem pid_inj (ps0 : List Process) (hv : validInput ps0) (s : SimState)
    (hlen : s.procs.length = ps0.length)
    (hid : ∀ i, (pget s i).process_id = (ps0.getD i default).process_id) :
    ∀ i j, i < s.procs.length → j < s.procs.length → i ≠ j →
      (pget s i).process_id ≠ (pget s j).process_id := by
  intro i j hi hj hne heq
  rw [hid i, hid j] at heq
  have hi0 : i < ps0.length := by omega
  have hj0 : j < ps0.length := by omega
  have hmi : i < (ps0.map (fun p => p.process_id)).length := by simpa using hi0
  have hmj : j < (ps0.map (fun p => p.process_id)).length := by simpa using hj0
  have heq2 : (ps0.map (fun p => p.process_id))[i] = (ps0.map (fun p => p.process_id))[j] := by
    rw [List.getElem_map, List.getElem_map]
    rw [← List.getD_eq_getElem ps0 default hi0, ← List.getD_eq_getElem ps0 default hj0]
    exact heq
  exact hne (hv.1.getElem_inj_iff.mp heq2)

/-- The invariant holds on the initial state of a valid input. -/
theorem SimInv_init (ps0 : List Process) (pm : Bool) (hv : validInput ps0) :
    SimInv ps0 pm (initState ps0) := by
  obtain ⟨hnd, hsorted, hfresh⟩ := hv
  have hget : ∀ i, i < ps0.length → (pget (initState ps0) i) = ps0.getD i default := fun i _ => rfl
  have hfreshD : ∀ i, i < ps0.length →
      0 < (ps0.getD i default).burst_time ∧
      (ps0.getD i default).remaining_time = (ps0.getD i default).burst_time ∧
      (ps0.getD i default).start_time = none ∧
      (ps0.getD i default).completion_time = none ∧
      (ps0.getD i default).response_time = none ∧
      (ps0.getD i default).state = PState.NEW ∧
      (ps0.getD i default).startWrites = 0 ∧
      (ps0.getD i default).completionWrites = 0 := by
    intro i hi
    refine hfresh _ ?_
    rw [List.getD_eq_getElem ps0 default hi]
    exact List.getElem_mem hi
  have hpg : ∀ i, pget (initState ps0) i = ps0.getD i default := fun i => rfl
  refine ⟨rfl, fun i => rfl, fun i => rfl, fun i => rfl, by simp [initState],
    ?_, ?_, ?_, ?_, ?_, ?_, ?_, ?_, ?_, ?_, ?_, ?_, ?_⟩
  · intro k hk; simp [initState] at hk
  · intro k _ hk
    rw [hpg k]
    exact (hfreshD k hk).2.2.2.2.2.1
  · intro i; simp [initState]
  · simp [initState]
  · intro i
    rw [show (initState ps0).completed = [] from rfl]
    simp only [List.not_mem_nil, false_iff, not_and]
    intro hi hterm
    rw [show (initState ps0).procs.length = ps0.length from rfl] at hi
    rw [hpg i, (hfreshD i hi).2.2.2.2.2.1] at hterm
    cases hterm
  · simp [initState]
  · intro i hi; simp [initState] at hi
  · intro i hi _
    rw [hpg i]
    exact ⟨(hfreshD i hi).2.2.2.1, (hfreshD i hi).2.2.2.2.2.2.2⟩
  · intro i hi
    rw [show (initState ps0).procs.length = ps0.length from rfl] at hi
    cases pm with
    | false =>
      rw [if_neg (by simp), hpg i]
      exact (hfreshD i hi).2.1
    | true =>
      rw [if_pos rfl, hpg i]
      constructor
      · intro hterm
        rw [(hfreshD i hi).2.2.2.2.2.1] at hterm
        cases hterm
      · intro _
        have h1 := (hfreshD i hi).1
        have h2 := (hfreshD i hi).2.1
        omega
  · intro c hc; simp [initState] at hc
  · simp [initState, sliceDurSum]
  · intro hpos hle
    rw [show (initState ps0).procs.length = ps0.length from rfl] at hpos hle
    rw [show (initState ps0).completed = [] from rfl, List.length_nil] at hle
    omega
  · intro i hi
    left
    rw [hpg i]
    refine ⟨(hfreshD i hi).2.2.1, (hfreshD i hi).2.2.2.2.2.2.1,
      (hfreshD i hi).2.2.2.2.1, ?_⟩
    simp [slicesOf, initState]

theorem SimInv_recordPhase (ps0 : List Process) (pm : Bool) (s : SimState)
    (inv : SimInv ps0 pm s) : SimInv ps0 pm (recordPhase s) :=
  ⟨inv.hlen, inv.hid, inv.harr, inv.hburst, inv.hidx, inv.hidxArr, inv.hstate,
   inv.hqmem, inv.hqnd, inv.hcmem, inv.hcnd, inv.hdone, inv.hnotdone, inv.hrem,
   inv.hcur, inv.hclock, inv.hlast, inv.hstart⟩

theorem admitPhase_pget_cases (s : SimState) (j : Nat) :
    pget (admitPhase s) j = pget s j ∨
    pget (admitPhase s) j = { pget s j with state := PState.READY } := by
  by_cases h1 : s.processIndex ≤ j ∧ j < s.processIndex + admitCount s
  · by_cases h2 : j < s.procs.length
    · exact Or.inr (admitPhase_pget_admitted s j h1.1 h1.2 h2)
    · left
      unfold pget
      rw [List.getD_eq_default _ _ (by rw [admitPhase_procs_length]; omega),
          List.getD_eq_default _ _ (by omega)]
  · exact Or.inl (admitPhase_pget_out s j (by omega))

theorem admitPhase_pget_id (s : SimState) (j : Nat) :
    (pget (admitPhase s) j).process_id = (pget s j).process_id := by
  rcases admitPhase_pget_cases s j with h | h <;> rw [h]

theorem admitPhase_pget_arrival (s : SimState) (j : Nat) :
    (pget (admitPhase s) j).arrival_time = (pget s j).arrival_time := by
  rcases admitPhase_pget_cases s j with h | h <;> rw [h]

theorem admitPhase_pget_burst (s : SimState) (j : Nat) :
    (pget (admitPhase s) j).burst_time = (pget s j).burst_time := by
  rcases admitPhase_pget_cases s j with h | h <;> rw [h]

theorem admitPhase_pget_rem (s : SimState) (j : Nat) :
    (pget (admitPhase s) j).remaining_time = (pget s j).remaining_time := by
  rcases admitPhase_pget_cases s j with h | h <;> rw [h]

theorem admitPhase_pget_prio (s : SimState) (j : Nat) :
    (pget (admitPhase s) j).priority = (pget s j).priority := by
  rcases admitPhase_pget_cases s j with h | h <;> rw [h]

theorem admitPhase_pget_start (s : SimState) (j : Nat) :
    (pget (admitPhase s) j).start_time = (pget s j).start_time := by
  rcases admitPhase_pget_cases s j with h | h <;> rw [h]

theorem admitPhase_pget_completion (s : SimState) (j : Nat) :
    (pget (admitPhase s) j).completion_time = (pget s j).completion_time := by
  rcases admitPhase_pget_cases s j with h | h <;> rw [h]

theorem admitPhase_pget_resp (s : SimState) (j : Nat) :
    (pget (admitPhase s) j).response_time = (pget s j).response_time := by
  rcases admitPhase_pget_cases s j with h | h <;> rw [h]

theorem admitPhase_pget_startWrites (s : SimState) (j : Nat) :
    (pget (admitPhase s) j).startWrites = (pget s j).startWrites := by
  rcases admitPhase_pget_cases s j with h | h <;> rw [h]

theorem admitPhase_pget_completionWrites (s : SimState) (j : Nat) :
    (pget (admitPhase s) j).completionWrites = (pget s j).completionWrites := by
  rcases admitPhase_pget_cases s j with h | h <;> rw [h]

theorem SimInv_admitPhase (ps0 : List Process) (pm : Bool) (s : SimState)
    (inv : SimInv ps0 pm s) : SimInv ps0 pm (admitPhase s) := by
  have hL := admitPhase_procs_length s
  have hK := admitCount_add_le s inv.hidx
  refine ⟨?_, ?_, ?_, ?_, ?_, ?_, ?_, ?_, ?_, ?_, ?_, ?_, ?_, ?_, ?_, ?_, ?_, ?_⟩
  · rw [hL]; exact inv.hlen
  · intro i; rw [admitPhase_pget_id]; exact inv.hid i
  · intro i; rw [admitPhase_pget_arrival]; exact inv.harr i
  · intro i; rw [admitPhase_pget_burst]; exact inv.hburst i
  · rw [hL, admitPhase_processIndex]; exact hK
  · intro k hk
    rw [admitPhase_pget_arrival, admitPhase_currentTime]
    rw [admitPhase_processIndex] at hk
    by_cases h : k < s.processIndex
    · exact inv.hidxArr k h
    · exact admitPhase_admitted_arrival s k (by omega) (by omega)
  · intro k h1 h2
    rw [admitPhase_processIndex] at h1
    rw [hL] at h2
    rw [admitPhase_pget_out s k (Or.inr h1)]
    exact inv.hstate k (by omega) h2
  · intro i
    rw [admitPhase_readyQueue, admitPhase_processIndex, admitPhase_currentProcess]
    rw [List.mem_append, List.mem_range'_1]
    constructor
    · rintro (hq | hr)
      · obtain ⟨h1, h2, h3⟩ := (inv.hqmem i).mp hq
        refine ⟨by omega, ?_, h3⟩
        rw [admitPhase_pget_out s i (Or.inl h1)]
        exact h2
      · have hi_len : i < s.procs.length := by omega
        refine ⟨by omega, ?_, ?_⟩
        · rw [admitPhase_pget_admitted s i hr.1 hr.2 hi_len]
          simp
        · intro hc
          obtain ⟨hc1, _, _, _⟩ := inv.hcur i hc
          omega
    · rintro ⟨h1, h2, h3⟩
      by_cases h : i < s.processIndex
      · left
        refine (inv.hqmem i).mpr ⟨h, ?_, h3⟩
        rw [admitPhase_pget_out s i (Or.inl h)] at h2
        exact h2
      · right; omega
  · rw [admitPhase_readyQueue]
    rw [List.nodup_append]
    refine ⟨inv.hqnd, List.nodup_range' _ _, ?_⟩
    intro a ha ha2
    rw [List.mem_range'_1] at ha2
    have := ((inv.hqmem a).mp ha).1
    omega
  · intro i
    rw [admitPhase_completed, hL]
    rw [inv.hcmem i]
    constructor
    · rintro ⟨h1, h2⟩
      refine ⟨h1, ?_⟩
      have hout : i < s.processIndex ∨ s.processIndex + admitCount s ≤ i := by
        by_contra hcon
        push_neg at hcon
        have hNEW := inv.hstate i (by omega) h1
        rw [hNEW] at h2
        cases h2
      rw [admitPhase_pget_out s i hout]
      exact h2
    · rintro ⟨h1, h2⟩
      refine ⟨h1, ?_⟩
      rcases admitPhase_pget_cases s i with h | h
      · rw [h] at h2; exact h2
      · rw [h] at h2
        dsimp only at h2
        cases h2
  · rw [admitPhase_completed]; exact inv.hcnd
  · intro i hi
    rw [admitPhase_completed] at hi
    obtain ⟨t, h1, h2, h3⟩ := inv.hdone i hi
    refine ⟨t, ?_, ?_, ?_⟩
    · rw [admitPhase_pget_completion]; exact h1
    · rw [admitPhase_currentTime]; exact h2
    · rw [admitPhase_pget_completionWrites]; exact h3
  · intro i h1 h2
    rw [hL] at h1
    rw [admitPhase_completed] at h2
    rw [admitPhase_pget_completion, admitPhase_pget_completionWrites]
    exact inv.hnotdone i h1 h2
  · intro i hi
    rw [hL] at hi
    have hold := inv.hrem i hi
    cases pm with
    | false =>
      rw [if_neg (by simp)] at hold ⊢
      rw [admitPhase_pget_rem, admitPhase_pget_burst]
      exact hold
    | true =>
      rw [if_pos rfl] at hold ⊢
      rw [admitPhase_pget_rem]
      by_cases hr : s.processIndex ≤ i ∧ i < s.processIndex + admitCount s
      · rw [admitPhase_pget_admitted s i hr.1 hr.2 hi]
        dsimp only
        have hNEW := inv.hstate i hr.1 hi
        constructor
        · intro hterm; cases hterm
        · intro _
          exact hold.2 (by rw [hNEW]; simp)
      · rw [admitPhase_pget_out s i (by omega)]
        exact hold
  · intro c hc
    rw [admitPhase_currentProcess] at hc
    obtain ⟨h1, h2, h3, h4⟩ := inv.hcur c hc
    rw [admitPhase_processIndex]
    rw [admitPhase_pget_out s c (Or.inl h1)]
    exact ⟨by omega, h2, h3, h4⟩
  · rw [admitPhase_ganttData, admitPhase_idleCount, admitPhase_currentTime]
    exact inv.hclock
  · intro hpos hle
    rw [hL] at hpos
    rw [admitPhase_completed] at hle ⊢
    rw [hL] at hle
    obtain ⟨i, hi1, hi2⟩ := inv.hlast hpos hle
    refine ⟨i, hi1, ?_⟩
    rw [admitPhase_pget_completion, admitPhase_currentTime]
    exact hi2
  · intro i hi
    rw [hL] at hi
    have hsl : slicesOf (admitPhase s) i = slicesOf s i :=
      slicesOf_eq s (admitPhase s) i (admitPhase_ganttData s) (admitPhase_pget_id s i)
    rw [admitPhase_pget_start, admitPhase_pget_startWrites, admitPhase_pget_resp,
        admitPhase_pget_arrival, admitPhase_pget_id, hsl]
    exact inv.hstart i hi

/-! ## Exec-branch preservation -/

theorem length_lt_of_not_mem (l : List Nat) (n j : Nat) (hnd : l.Nodup)
    (hlt : ∀ x ∈ l, x < n) (hj : j < n) (hjn : j ∉ l) : l.length < n := by
  have hsub : l.toFinset ⊆ Finset.range n := by
    intro x hx
    rw [List.mem_toFinset] at hx
    rw [Finset.mem_range]
    exact hlt x hx
  have hss : l.toFinset ⊂ Finset.range n := by
    rw [Finset.ssubset_iff_of_subset hsub]
    exact ⟨j, by rw [Finset.mem_range]; exact hj, by rw [List.mem_toFinset]; exact hjn⟩
  have := Finset.card_lt_card hss
  rwa [List.toFinset_card_of_nodup hnd, Finset.card_range] at this

theorem perm_cons_facts (l : List Nat) (i : Nat) (rest : List Nat)
    (hperm : List.Perm l (i :: rest)) (hnd : l.Nodup) :
    i ∈ l ∧ i ∉ rest ∧ rest.Nodup ∧ (∀ j, j ∈ rest ↔ (j ∈ l ∧ j ≠ i)) := by
  have hnd2 : (i :: rest).Nodup := hperm.nodup hnd
  have hir : i ∉ rest := (List.nodup_cons.mp hnd2).1
  have hrnd : rest.Nodup := (List.nodup_cons.mp hnd2).2
  refine ⟨hperm.mem_iff.mpr (by simp), hir, hrnd, ?_⟩
  intro j
  constructor
  · intro hj
    refine ⟨hperm.mem_iff.mpr (by simp [hj]), ?_⟩
    rintro rfl
    exact hir hj
  · rintro ⟨hj, hne⟩
    rcases List.mem_cons.mp (hperm.mem_iff.mp hj) with h | h
    · exact absurd h hne
    · exact h

/-- The invariant at the selection point of the preemptive unit-stepped
policies (SRTF / preemptive priority), *after* the current process has been
re-appended to the ready queue: the ready-queue characterisation no longer
excludes the current process, and `currentProcess` is unconstrained. -/
structure PreExec (ps0 : List Process) (s : SimState) : Prop where
  hlen : s.procs.length = ps0.length
  hid : ∀ i, (pget s i).process_id = (ps0.getD i default).process_id
  harr : ∀ i, (pget s i).arrival_time = (ps0.getD i default).arrival_time
  hburst : ∀ i, (pget s i).burst_time = (ps0.getD i default).burst_time
  hidx : s.processIndex ≤ s.procs.length
  hidxArr : ∀ k, k < s.processIndex → (pget s k).arrival_time ≤ s.currentTime
  hstate : ∀ k, s.processIndex ≤ k → k < s.procs.length → (pget s k).state = PState.NEW
  hqmemF : ∀ i, i ∈ s.readyQueue ↔
      (i < s.processIndex ∧ (pget s i).state ≠ PState.TERMINATED)
  hqnd : s.readyQueue.Nodup
  hcmem : ∀ i, i ∈ s.completed ↔ (i < s.procs.length ∧ (pget s i).state = PState.TERMINATED)
  hcnd : s.completed.Nodup
  hdone : ∀ i ∈ s.completed, ∃ t, (pget s i).completion_time = some t ∧ t ≤ s.currentTime ∧
      (pget s i).completionWrites = 1
  hnotdone : ∀ i, i < s.procs.length → i ∉ s.completed →
      (pget s i).completion_time = none ∧ (pget s i).completionWrites = 0
  hremT : ∀ i, i < s.procs.length →
      ((pget s i).state = PState.TERMINATED → (pget s i).remaining_time = 0) ∧
      ((pget s i).state ≠ PState.TERMINATED → 0 < (pget s i).remaining_time)
  hclock : sliceDurSum s.ganttData + s.idleCount = s.currentTime
  hlast : 0 < s.procs.length → s.procs.length ≤ s.completed.length →
      ∃ i, i ∈ s.completed ∧ (pget s i).completion_time = some s.currentTime
  hstart : ∀ i, i < s.procs.length →
      ((pget s i).start_time = none ∧ (pget s i).startWrites = 0 ∧
       (pget s i).response_time = none ∧ slicesOf s i = [])
      ∨ (∃ t, (pget s i).start_time = some t ∧ (pget s i).startWrites = 1 ∧
         (pget s i).response_time = some ((t : Int) - ((pget s i).arrival_time : Int)) ∧
         ∃ d rest, slicesOf s i = (t, (pget s i).process_id, d) :: rest)

/-- With no current process, the loop-top invariant directly yields the
selection-point invariant. -/
theorem PreExec_of_none (ps0 : List Process) (s : SimState)
    (inv : SimInv ps0 true s) (hcur0 : s.currentProcess = none) : PreExec ps0 s := by
  refine ⟨inv.hlen, inv.hid, inv.harr, inv.hburst, inv.hidx, inv.hidxArr, inv.hstate,
    ?_, inv.hqnd, inv.hcmem, inv.hcnd, inv.hdone, inv.hnotdone, ?_,
    inv.hclock, inv.hlast, inv.hstart⟩
  · intro i
    have := inv.hqmem i
    rw [hcur0] at this
    rw [this]
    constructor
    · rintro ⟨h1, h2, _⟩; exact ⟨h1, h2⟩
    · rintro ⟨h1, h2⟩; exact ⟨h1, h2, by simp⟩
  · intro i hi
    have := inv.hrem i hi
    rw [if_pos rfl] at this
    exact this

theorem SimInv_idleAdvance (ps0 : List Process) (pm : Bool) (s : SimState)
    (inv : SimInv ps0 pm s) (hmore : s.completed.length < s.procs.length) :
    SimInv ps0 pm (idleAdvance s) := by
  refine ⟨inv.hlen, inv.hid, inv.harr, inv.hburst, inv.hidx, ?_, inv.hstate,
    inv.hqmem, inv.hqnd, inv.hcmem, inv.hcnd, ?_, inv.hnotdone, inv.hrem,
    inv.hcur, ?_, ?_, inv.hstart⟩
  · intro k hk
    have := inv.hidxArr k hk
    show (pget s k).arrival_time ≤ s.currentTime + 1
    omega
  · intro i hi
    obtain ⟨t, h1, h2, h3⟩ := inv.hdone i hi
    exact ⟨t, h1, by show t ≤ s.currentTime + 1; omega, h3⟩
  · show sliceDurSum s.ganttData + (s.idleCount + 1) = s.currentTime + 1
    have := inv.hclock
    omega
  · intro _ hle
    exfalso
    have h2 : s.procs.length ≤ s.completed.length := hle
    omega

theorem SimInv_idleNone (ps0 : List Process) (pm : Bool) (s : SimState)
    (inv : SimInv ps0 pm s) (hmore : s.completed.length < s.procs.length)
    (hcur0 : s.currentProcess = none) :
    SimInv ps0 pm { idleAdvance s with currentProcess := none } := by
  have base := SimInv_idleAdvance ps0 pm s inv hmore
  refine ⟨base.hlen, base.hid, base.harr, base.hburst, base.hidx, base.hidxArr,
    base.hstate, ?_, base.hqnd, base.hcmem, base.hcnd, base.hdone, base.hnotdone,
    base.hrem, ?_, base.hclock, base.hlast, base.hstart⟩
  · intro i
    have := base.hqmem i
    rw [show (idleAdvance s).currentProcess = none from hcur0] at this
    exact this
  · intro c hc
    exact Option.noConfusion hc

theorem srtfReappend_of_some (s : SimState) (c : Nat) (hc : s.currentProcess = some c)
    (hrem : 0 < (pget s c).remaining_time) :
    srtfReappend s = { s with procs := s.procs.set c { pget s c with state := PState.READY },
                              readyQueue := s.readyQueue ++ [c] } := by
  unfold srtfReappend
  rw [hc]
  dsimp only
  rw [if_pos hrem]

theorem prioReappend_of_some (s : SimState) (c : Nat) (hc : s.currentProcess = some c) :
    prioReappend s = { s with readyQueue := s.readyQueue ++ [c] } := by
  unfold prioReappend
  rw [hc]

theorem srtfReappend_of_none (s : SimState) (hc : s.currentProcess = none) :
    srtfReappend s = s := by
  unfold srtfReappend
  rw [hc]

theorem prioReappend_of_none (s : SimState) (hc : s.currentProcess = none) :
    prioReappend s = s := by
  unfold prioReappend
  rw [hc]

/-- After re-appending the current process `c` (with or without the SRTF
state write), the selection-point invariant holds. -/
theorem PreExec_reappend_aux (ps0 : List Process) (s : SimState)
    (inv : SimInv ps0 true s) (c : Nat) (hc : s.currentProcess = some c)
    (s' : SimState)
    (hprocs : s'.procs = s.procs.set c { pget s c with state := PState.READY } ∨ s'.procs = s.procs)
    (hq : s'.readyQueue = s.readyQueue ++ [c])
    (ht : s'.currentTime = s.currentTime)
    (hix : s'.processIndex = s.processIndex)
    (hcomp : s'.completed = s.completed)
    (hg : s'.ganttData = s.ganttData)
    (hidle : s'.idleCount = s.idleCount) :
    PreExec ps0 s' := by
  obtain ⟨hcidx, hcrem, hcterm, hcstart⟩ := inv.hcur c hc
  have hclen : c < s.procs.length := lt_of_lt_of_le hcidx inv.hidx
  have hlen' : s'.procs.length = s.procs.length := by
    rcases hprocs with h | h <;> rw [h]
    exact List.length_set _ _ _
  have hpne : ∀ j, j ≠ c → pget s' j = pget s j := by
    intro j hj
    rcases hprocs with h | h
    · unfold pget
      rw [h, getD_set_ne _ _ _ _ _ hj]
    · unfold pget
      rw [h]
  have hpcA : pget s' c = { pget s c with state := PState.READY } ∨ pget s' c = pget s c := by
    rcases hprocs with h | h
    · left
      unfold pget
      rw [h, getD_set_self _ _ _ _ hclen]
      rfl
    · right
      unfold pget
      rw [h]
  have hpc_id : (pget s' c).process_id = (pget s c).process_id := by
    rcases hpcA with h | h <;> rw [h]
  have hpc_arr : (pget s' c).arrival_time = (pget s c).arrival_time := by
    rcases hpcA with h | h <;> rw [h]
  have hpc_burst : (pget s' c).burst_time = (pget s c).burst_time := by
    rcases hpcA with h | h <;> rw [h]
  have hpc_rem : (pget s' c).remaining_time = (pget s c).remaining_time := by
    rcases hpcA with h | h <;> rw [h]
  have hpc_start : (pget s' c).start_time = (pget s c).start_time := by
    rcases hpcA with h | h <;> rw [h]
  have hpc_comp : (pget s' c).completion_time = (pget s c).completion_time := by
    rcases hpcA with h | h <;> rw [h]
  have hpc_resp : (pget s' c).response_time = (pget s c).response_time := by
    rcases hpcA with h | h <;> rw [h]
  have hpc_sw : (pget s' c).startWrites = (pget s c).startWrites := by
    rcases hpcA with h | h <;> rw [h]
  have hpc_cw : (pget s' c).completionWrites = (pget s c).completionWrites := by
    rcases hpcA with h | h <;> rw [h]
  have hpcs : (pget s' c).state ≠ PState.TERMINATED := by
    rcases hpcA with h | h <;> rw [h]
    · simp
    · exact hcterm
  have hstate_pres : ∀ j, j ≠ c → (pget s' j).state = (pget s j).state := by
    intro j hj
    rw [hpne j hj]
  have hcnotdone : c ∉ s.completed := by
    intro hmem
    exact hcterm ((inv.hcmem c).mp hmem).2
  refine ⟨?_, ?_, ?_, ?_, ?_, ?_, ?_, ?_, ?_, ?_, ?_, ?_, ?_, ?_, ?_, ?_, ?_⟩
  · rw [hlen']; exact inv.hlen
  · intro j
    by_cases hj : j = c
    · subst hj; rw [hpc_id]; exact inv.hid j
    · rw [hpne j hj]; exact inv.hid j
  · intro j
    by_cases hj : j = c
    · subst hj; rw [hpc_arr]; exact inv.harr j
    · rw [hpne j hj]; exact inv.harr j
  · intro j
    by_cases hj : j = c
    · subst hj; rw [hpc_burst]; exact inv.hburst j
    · rw [hpne j hj]; exact inv.hburst j
  · rw [hix, hlen']; exact inv.hidx
  · intro k hk
    rw [hix] at hk
    rw [ht]
    by_cases hj : k = c
    · subst hj; rw [hpc_arr]; exact inv.hidxArr k hk
    · rw [hpne k hj]; exact inv.hidxArr k hk
  · intro k h1 h2
    rw [hix] at h1
    rw [hlen'] at h2
    have hkc : k ≠ c := by omega
    rw [hpne k hkc]
    exact inv.hstate k h1 h2
  · intro i
    rw [hq, hix, List.mem_append, List.mem_singleton]
    constructor
    · rintro (hq2 | rfl)
      · obtain ⟨h1, h2, h3⟩ := (inv.hqmem i).mp hq2
        have hic : i ≠ c := by
          intro h
          subst h
          exact h3 hc
        rw [hstate_pres i hic]
        exact ⟨h1, h2⟩
      · exact ⟨hcidx, hpcs⟩
    · rintro ⟨h1, h2⟩
      by_cases hic : i = c
      · right; exact hic
      · left
        rw [hstate_pres i hic] at h2
        refine (inv.hqmem i).mpr ⟨h1, h2, ?_⟩
        rw [hc]
        intro hcon
        exact hic (Option.some.inj hcon).symm
  · rw [hq, List.nodup_append]
    refine ⟨inv.hqnd, List.nodup_singleton c, ?_⟩
    intro a ha ha2
    rw [List.mem_singleton] at ha2
    subst ha2
    exact ((inv.hqmem a).mp ha).2.2 hc
  · intro i
    rw [hcomp, hlen']
    rw [inv.hcmem i]
    by_cases hic : i = c
    · subst hic
      constructor
      · rintro ⟨h1, h2⟩; exact absurd h2 hcterm
      · rintro ⟨h1, h2⟩; exact absurd h2 hpcs
    · rw [hstate_pres i hic]
  · rw [hcomp]; exact inv.hcnd
  · intro i hi
    rw [hcomp] at hi
    have hic : i ≠ c := by rintro rfl; exact hcnotdone hi
    rw [hpne i hic, ht]
    exact inv.hdone i hi
  · intro i h1 h2
    rw [hlen'] at h1
    rw [hcomp] at h2
    by_cases hic : i = c
    · subst hic
      rw [hpc_comp, hpc_cw]
      exact inv.hnotdone i h1 h2
    · rw [hpne i hic]
      exact inv.hnotdone i h1 h2
  · intro i hi
    rw [hlen'] at hi
    have hold := inv.hrem i hi
    rw [if_pos rfl] at hold
    by_cases hic : i = c
    · subst hic
      rw [hpc_rem]
      constructor
      · intro hterm; exact absurd hterm hpcs
      · intro _; exact hcrem
    · rw [hpne i hic]
      exact hold
  · rw [hg, hidle, ht]; exact inv.hclock
  · intro hpos hle
    rw [hlen'] at hpos hle
    rw [hcomp] at hle ⊢
    obtain ⟨i, hi1, hi2⟩ := inv.hlast hpos hle
    have hic : i ≠ c := by rintro rfl; exact hcnotdone hi1
    refine ⟨i, hi1, ?_⟩
    rw [hpne i hic, ht]
    exact hi2
  · intro i hi
    rw [hlen'] at hi
    by_cases hic : i = c
    · subst hic
      have hsl : slicesOf s' i = slicesOf s i := slicesOf_eq s s' i hg hpc_id
      rw [hpc_start, hpc_sw, hpc_resp, hpc_arr, hpc_id, hsl]
      exact inv.hstart i hi
    · have hsl : slicesOf s' i = slicesOf s i := slicesOf_eq s s' i hg (by rw [hpne i hic])
      rw [hpne i hic, hsl]
      exact inv.hstart i hi

theorem PreExec_recordPhase (ps0 : List Process) (s : SimState)
    (pre : PreExec ps0 s) : PreExec ps0 (recordPhase s) :=
  ⟨pre.hlen, pre.hid, pre.harr, pre.hburst, pre.hidx, pre.hidxArr, pre.hstate,
   pre.hqmemF, pre.hqnd, pre.hcmem, pre.hcnd, pre.hdone, pre.hnotdone, pre.hremT,
   pre.hclock, pre.hlast, pre.hstart⟩

theorem SimInv_nonPreExec (ps0 : List Process) (hv : validInput ps0) (s : SimState)
    (inv : SimInv ps0 false s) (i : Nat) (rest : List Nat)
    (hperm : List.Perm s.readyQueue (i :: rest)) :
    SimInv ps0 false (nonPreExec s i rest) := by
  obtain ⟨hiq, hirest, hrnd, hrest⟩ := perm_cons_facts _ _ _ hperm inv.hqnd
  obtain ⟨hiidx, hiterm, hicur⟩ := (inv.hqmem i).mp hiq
  have hilen : i < s.procs.length := lt_of_lt_of_le hiidx inv.hidx
  have hinc : i ∉ s.completed := fun hmem => hiterm ((inv.hcmem i).mp hmem).2
  have hpid := pid_inj ps0 hv s inv.hlen inv.hid
  have hq' : (nonPreExec s i rest).readyQueue = rest := rfl
  have ht' : (nonPreExec s i rest).currentTime = s.currentTime + (pget s i).burst_time := rfl
  have hcomp' : (nonPreExec s i rest).completed = s.completed ++ [i] := rfl
  have hg' : (nonPreExec s i rest).ganttData =
      s.ganttData ++ [(s.currentTime, (pget s i).process_id, (pget s i).burst_time)] := rfl
  have hix' : (nonPreExec s i rest).processIndex = s.processIndex := rfl
  have hcur2 : (nonPreExec s i rest).currentProcess = s.currentProcess := rfl
  have hidle' : (nonPreExec s i rest).idleCount = s.idleCount := rfl
  have hlen' : (nonPreExec s i rest).procs.length = s.procs.length := by
    unfold nonPreExec
    dsimp only
    exact List.length_set _ _ _
  have hpgi : pget (nonPreExec s i rest) i =
      finishP (startP { pget s i with state := PState.RUNNING } s.currentTime)
              (s.currentTime + (pget s i).burst_time) := by
    unfold pget nonPreExec
    dsimp only
    exact getD_set_self _ _ _ _ hilen
  have hpne : ∀ j, j ≠ i → pget (nonPreExec s i rest) j = pget s j := by
    intro j hj
    unfold pget nonPreExec
    dsimp only
    exact getD_set_ne _ _ _ _ _ hj
  have hni_id : (pget (nonPreExec s i rest) i).process_id = (pget s i).process_id := by
    rw [hpgi]; simp
  have hni_arr : (pget (nonPreExec s i rest) i).arrival_time = (pget s i).arrival_time := by
    rw [hpgi]; simp
  have hni_burst : (pget (nonPreExec s i rest) i).burst_time = (pget s i).burst_time := by
    rw [hpgi]; simp
  have hni_rem : (pget (nonPreExec s i rest) i).remaining_time = (pget s i).remaining_time := by
    rw [hpgi]; simp
  have hni_state : (pget (nonPreExec s i rest) i).state = PState.TERMINATED := by
    rw [hpgi]; simp
  have hni_comp : (pget (nonPreExec s i rest) i).completion_time =
      some (s.currentTime + (pget s i).burst_time) := by
    rw [hpgi]; simp
  have hni_cw : (pget (nonPreExec s i rest) i).completionWrites =
      (pget s i).completionWrites + 1 := by
    rw [hpgi]; simp
  refine ⟨?_, ?_, ?_, ?_, ?_, ?_, ?_, ?_, ?_, ?_, ?_, ?_, ?_, ?_, ?_, ?_, ?_, ?_⟩
  · rw [hlen']; exact inv.hlen
  · intro j
    by_cases hj : j = i
    · subst hj; rw [hni_id]; exact inv.hid j
    · rw [hpne j hj]; exact inv.hid j
  · intro j
    by_cases hj : j = i
    · subst hj; rw [hni_arr]; exact inv.harr j
    · rw [hpne j hj]; exact inv.harr j
  · intro j
    by_cases hj : j = i
    · subst hj; rw [hni_burst]; exact inv.hburst j
    · rw [hpne j hj]; exact inv.hburst j
  · rw [hix', hlen']; exact inv.hidx
  · intro k hk
    rw [hix'] at hk
    rw [ht']
    have hb := inv.hidxArr k hk
    by_cases hj : k = i
    · subst hj; rw [hni_arr]; omega
    · rw [hpne k hj]; omega
  · intro k h1 h2
    rw [hix'] at h1
    rw [hlen'] at h2
    have hk : k ≠ i := by omega
    rw [hpne k hk]
    exact inv.hstate k h1 h2
  · intro j
    rw [hq', hix', hcur2]
    rw [hrest j]
    constructor
    · rintro ⟨hj, hne⟩
      obtain ⟨h1, h2, h3⟩ := (inv.hqmem j).mp hj
      rw [hpne j hne]
      exact ⟨h1, h2, h3⟩
    · rintro ⟨h1, h2, h3⟩
      by_cases hj : j = i
      · subst hj
        rw [hni_state] at h2
        exact absurd rfl h2
      · rw [hpne j hj] at h2
        exact ⟨(inv.hqmem j).mpr ⟨h1, h2, h3⟩, hj⟩
  · rw [hq']; exact hrnd
  · intro j
    rw [hcomp', hlen', List.mem_append, List.mem_singleton]
    constructor
    · rintro (hj | rfl)
      · have := (inv.hcmem j).mp hj
        have hji : j ≠ i := by rintro rfl; exact hinc hj
        rw [hpne j hji]
        exact this
      · exact ⟨hilen, hni_state⟩
    · rintro ⟨h1, h2⟩
      by_cases hj : j = i
      · right; exact hj
      · left
        rw [hpne j hj] at h2
        exact (inv.hcmem j).mpr ⟨h1, h2⟩
  · rw [hcomp']
    rw [List.nodup_append]
    exact ⟨inv.hcnd, List.nodup_singleton i, by
      intro a ha ha2
      rw [List.mem_singleton] at ha2
      subst ha2
      exact hinc ha⟩
  · intro j hj
    rw [hcomp', List.mem_append, List.mem_singleton] at hj
    rw [ht']
    rcases hj with hj | rfl
    · have hji : j ≠ i := by rintro rfl; exact hinc hj
      rw [hpne j hji]
      obtain ⟨t, h1, h2, h3⟩ := inv.hdone j hj
      exact ⟨t, h1, by omega, h3⟩
    · rw [hni_comp, hni_cw, (inv.hnotdone j hilen hinc).2]
      exact ⟨_, rfl, le_refl _, rfl⟩
  · intro j h1 h2
    rw [hlen'] at h1
    rw [hcomp', List.mem_append, List.mem_singleton] at h2
    push_neg at h2
    rw [hpne j h2.2]
    exact inv.hnotdone j h1 h2.1
  · intro j hj
    rw [hlen'] at hj
    have hold := inv.hrem j hj
    rw [if_neg (by simp)] at hold ⊢
    by_cases hji : j = i
    · subst hji
      rw [hni_rem, hni_burst]
      exact hold
    · rw [hpne j hji]
      exact hold
  · intro c hc
    rw [hcur2] at hc
    obtain ⟨h1, h2, h3, h4⟩ := inv.hcur c hc
    have hci : c ≠ i := by
      rintro rfl
      exact hicur hc
    rw [hix', hpne c hci]
    exact ⟨h1, h2, h3, h4⟩
  · rw [hg', ht', hidle']
    unfold sliceDurSum
    rw [List.map_append, List.sum_append]
    have := inv.hclock
    unfold sliceDurSum at this
    simp only [List.map_cons, List.map_nil, List.sum_cons, List.sum_nil]
    omega
  · intro _ _
    refine ⟨i, ?_, ?_⟩
    · rw [hcomp', List.mem_append, List.mem_singleton]
      right; rfl
    · rw [hni_comp, ht']
  · intro j hj
    rw [hlen'] at hj
    by_cases hji : j = i
    · subst hji
      have hsl : slicesOf (nonPreExec s j rest) j =
          slicesOf s j ++ [(s.currentTime, (pget s j).process_id, (pget s j).burst_time)] :=
        slicesOf_append_eq s _ j _ _ hg' hni_id
      rcases inv.hstart j hj with ⟨hs1, hs2, hs3, hs4⟩ | ⟨t0, hs1, hs2, hs3, d, r, hs4⟩
      · right
        have hsp := startP_of_none { pget s j with state := PState.RUNNING } s.currentTime hs1
        refine ⟨s.currentTime, ?_, ?_, ?_, (pget s j).burst_time, [], ?_⟩
        · rw [hpgi, hsp]
          rfl
        · rw [hpgi, hsp]
          show (pget s j).startWrites + 1 = 1
          rw [hs2]
        · rw [hpgi, hsp]
          rfl
        · rw [hsl, hs4, hni_id]
          rfl
      · right
        have hsp := startP_of_some { pget s j with state := PState.RUNNING } s.currentTime
          (by show (pget s j).start_time ≠ none; rw [hs1]; simp)
        refine ⟨t0, ?_, ?_, ?_, d,
          r ++ [(s.currentTime, (pget s j).process_id, (pget s j).burst_time)], ?_⟩
        · rw [hpgi, hsp]
          show (pget s j).start_time = some t0
          exact hs1
        · rw [hpgi, hsp]
          show (pget s j).startWrites = 1
          exact hs2
        · rw [hpgi, hsp]
          show (pget s j).response_time = some ((t0 : Int) - ((pget s j).arrival_time : Int))
          exact hs3
        · rw [hsl, hs4, hni_id, List.cons_append]
    · have hslc : slicesOf (nonPreExec s i rest) j = slicesOf s j := by
        refine slicesOf_append_ne s _ j _ _ _ hg' (by rw [hpne j hji]) ?_
        exact hpid i j hilen hj (by omega)
      rw [hpne j hji, hslc]
      exact inv.hstart j hj

/-- The state of affairs right before `unitExec` runs process `i`: the
selection-point invariant with the start-time bookkeeping of `i` already
performed (either this very instant, with no slice yet, or earlier, with
its first slice recorded). -/
structure ExecReady (ps0 : List Process) (s : SimState) (i : Nat) : Prop where
  hlen : s.procs.length = ps0.length
  hid : ∀ j, (pget s j).process_id = (ps0.getD j default).process_id
  harr : ∀ j, (pget s j).arrival_time = (ps0.getD j default).arrival_time
  hburst : ∀ j, (pget s j).burst_time = (ps0.getD j default).burst_time
  hidx : s.processIndex ≤ s.procs.length
  hidxArr : ∀ k, k < s.processIndex → (pget s k).arrival_time ≤ s.currentTime
  hstate : ∀ k, s.processIndex ≤ k → k < s.procs.length → (pget s k).state = PState.NEW
  hqmemF : ∀ j, j ∈ s.readyQueue ↔
      (j < s.processIndex ∧ (pget s j).state ≠ PState.TERMINATED)
  hqnd : s.readyQueue.Nodup
  hcmem : ∀ j, j ∈ s.completed ↔ (j < s.procs.length ∧ (pget s j).state = PState.TERMINATED)
  hcnd : s.completed.Nodup
  hdone : ∀ j ∈ s.completed, ∃ t, (pget s j).completion_time = some t ∧ t ≤ s.currentTime ∧
      (pget s j).completionWrites = 1
  hnotdone : ∀ j, j < s.procs.length → j ∉ s.completed →
      (pget s j).completion_time = none ∧ (pget s j).completionWrites = 0
  hremT : ∀ j, j < s.procs.length →
      ((pget s j).state = PState.TERMINATED → (pget s j).remaining_time = 0) ∧
      ((pget s j).state ≠ PState.TERMINATED → 0 < (pget s j).remaining_time)
  hclock : sliceDurSum s.ganttData + s.idleCount = s.currentTime
  hlast : 0 < s.procs.length → s.procs.length ≤ s.completed.length →
      ∃ j, j ∈ s.completed ∧ (pget s j).completion_time = some s.currentTime
  hstartO : ∀ j, j < s.procs.length → j ≠ i →
      ((pget s j).start_time = none ∧ (pget s j).startWrites = 0 ∧
       (pget s j).response_time = none ∧ slicesOf s j = [])
      ∨ (∃ t, (pget s j).start_time = some t ∧ (pget s j).startWrites = 1 ∧
         (pget s j).response_time = some ((t : Int) - ((pget s j).arrival_time : Int)) ∧
         ∃ d rest, slicesOf s j = (t, (pget s j).process_id, d) :: rest)
  hstartI : ∃ t0, (pget s i).start_time = some t0 ∧ (pget s i).startWrites = 1 ∧
      (pget s i).response_time = some ((t0 : Int) - ((pget s i).arrival_time : Int)) ∧
      (slicesOf s i = [] ∧ t0 = s.currentTime ∨
       ∃ d r, slicesOf s i = (t0, (pget s i).process_id, d) :: r)
  hstI : (pget s i).state ≠ PState.TERMINATED
  hremI : 0 < (pget s i).remaining_time
  hiidx : i < s.processIndex

theorem SimInv_unitExecER (ps0 : List Process) (hv : validInput ps0) (s : SimState) (i : Nat)
    (er : ExecReady ps0 s i) (rest : List Nat)
    (hperm : List.Perm s.readyQueue (i :: rest)) :
    SimInv ps0 true (unitExec s i rest) := by
  obtain ⟨hiq, hirest, hrnd, hrest⟩ := perm_cons_facts _ _ _ hperm er.hqnd
  have hilen : i < s.procs.length := lt_of_lt_of_le er.hiidx er.hidx
  have hinc : i ∉ s.completed := fun hmem => er.hstI ((er.hcmem i).mp hmem).2
  have hpid := pid_inj ps0 hv s er.hlen er.hid
  have hmore : s.completed.length < s.procs.length := by
    refine length_lt_of_not_mem s.completed s.procs.length i er.hcnd ?_ hilen hinc
    intro x hx
    exact ((er.hcmem x).mp hx).1
  obtain ⟨t0, hsI1, hsI2, hsI3, hsI4⟩ := er.hstartI
  unfold unitExec
  by_cases h0 : (pget s i).remaining_time - 1 = 0
  · rw [if_pos h0]
    have hpgi : pget { s with
        procs := s.procs.set i
          (finishP { pget s i with remaining_time := (pget s i).remaining_time - 1 }
                   (s.currentTime + 1)),
        readyQueue := rest, currentTime := s.currentTime + 1,
        ganttData := s.ganttData ++ [(s.currentTime, (pget s i).process_id, 1)],
        completed := s.completed ++ [i], currentProcess := none } i =
        finishP { pget s i with remaining_time := (pget s i).remaining_time - 1 }
                 (s.currentTime + 1) := by
      unfold pget
      dsimp only
      exact getD_set_self _ _ _ _ hilen
    have hpne : ∀ j, j ≠ i → pget { s with
        procs := s.procs.set i
          (finishP { pget s i with remaining_time := (pget s i).remaining_time - 1 }
                   (s.currentTime + 1)),
        readyQueue := rest, currentTime := s.currentTime + 1,
        ganttData := s.ganttData ++ [(s.currentTime, (pget s i).process_id, 1)],
        completed := s.completed ++ [i], currentProcess := none } j = pget s j := by
      intro j hj
      unfold pget
      dsimp only
      exact getD_set_ne _ _ _ _ _ hj
    have hslI : slicesOf { s with
        procs := s.procs.set i
          (finishP { pget s i with remaining_time := (pget s i).remaining_time - 1 }
                   (s.currentTime + 1)),
        readyQueue := rest, currentTime := s.currentTime + 1,
        ganttData := s.ganttData ++ [(s.currentTime, (pget s i).process_id, 1)],
        completed := s.completed ++ [i], currentProcess := none } i =
        slicesOf s i ++ [(s.currentTime, (pget s i).process_id, 1)] := by
      refine slicesOf_append_eq s _ i s.currentTime 1 rfl ?_
      rw [hpgi]
      simp only [finishP_process_id]
    have hslO : ∀ j, j < s.procs.length → j ≠ i → slicesOf { s with
        procs := s.procs.set i
          (finishP { pget s i with remaining_time := (pget s i).remaining_time - 1 }
                   (s.currentTime + 1)),
        readyQueue := rest, currentTime := s.currentTime + 1,
        ganttData := s.ganttData ++ [(s.currentTime, (pget s i).process_id, 1)],
        completed := s.completed ++ [i], currentProcess := none } j = slicesOf s j := by
      intro j hjl hji
      refine slicesOf_append_ne s _ j s.currentTime ((pget s i).process_id) 1 rfl (by rw [hpne j hji]) ?_
      exact hpid i j hilen hjl hji.symm
    refine ⟨?_, ?_, ?_, ?_, ?_, ?_, ?_, ?_, ?_, ?_, ?_, ?_, ?_, ?_, ?_, ?_, ?_, ?_⟩
    · dsimp only
      rw [List.length_set]
      exact er.hlen
    · intro j
      by_cases hj : j = i
      · subst hj; rw [hpgi]; simp only [finishP_process_id]; exact er.hid j
      · rw [hpne j hj]; exact er.hid j
    · intro j
      by_cases hj : j = i
      · subst hj; rw [hpgi]; simp only [finishP_arrival]; exact er.harr j
      · rw [hpne j hj]; exact er.harr j
    · intro j
      by_cases hj : j = i
      · subst hj; rw [hpgi]; simp only [finishP_burst]; exact er.hburst j
      · rw [hpne j hj]; exact er.hburst j
    · dsimp only
      rw [List.length_set]
      exact er.hidx
    · intro k hk
      dsimp only at hk ⊢
      by_cases hj : k = i
      · subst hj
        rw [hpgi]
        simp only [finishP_arrival]
        have := er.hidxArr k hk
        omega
      · rw [hpne k hj]
        have := er.hidxArr k hk
        omega
    · intro k h1 h2
      dsimp only at h1 h2
      rw [List.length_set] at h2
      have hii := er.hiidx
      have hk : k ≠ i := by omega
      rw [hpne k hk]
      exact er.hstate k h1 h2
    · intro j
      dsimp only
      rw [hrest j]
      constructor
      · rintro ⟨hj, hne⟩
        obtain ⟨h1, h2⟩ := (er.hqmemF j).mp hj
        rw [hpne j hne]
        exact ⟨h1, h2, by simp⟩
      · rintro ⟨h1, h2, _⟩
        by_cases hj : j = i
        · subst hj
          rw [hpgi] at h2
          simp only [finishP_state] at h2
          exact absurd rfl h2
        · rw [hpne j hj] at h2
          exact ⟨(er.hqmemF j).mpr ⟨h1, h2⟩, hj⟩
    · exact hrnd
    · intro j
      dsimp only
      rw [List.length_set, List.mem_append, List.mem_singleton]
      constructor
      · rintro (hj | rfl)
        · have := (er.hcmem j).mp hj
          have hji : j ≠ i := by rintro rfl; exact hinc hj
          rw [hpne j hji]
          exact this
        · rw [hpgi]
          simp only [finishP_state]
          exact ⟨hilen, trivial⟩
      · rintro ⟨h1, h2⟩
        by_cases hj : j = i
        · right; exact hj
        · left
          rw [hpne j hj] at h2
          exact (er.hcmem j).mpr ⟨h1, h2⟩
    · dsimp only
      rw [List.nodup_append]
      exact ⟨er.hcnd, List.nodup_singleton i, by
        intro a ha ha2
        rw [List.mem_singleton] at ha2
        subst ha2
        exact hinc ha⟩
    · intro j hj
      dsimp only at hj ⊢
      rw [List.mem_append, List.mem_singleton] at hj
      rcases hj with hj | rfl
      · have hji : j ≠ i := by rintro rfl; exact hinc hj
        rw [hpne j hji]
        obtain ⟨t, h1, h2, h3⟩ := er.hdone j hj
        exact ⟨t, h1, by omega, h3⟩
      · rw [hpgi]
        simp only [finishP_completion, finishP_completionWrites]
        refine ⟨s.currentTime + 1, rfl, le_refl _, ?_⟩
        rw [show ({ pget s j with remaining_time := (pget s j).remaining_time - 1 } : Process).completionWrites = (pget s j).completionWrites from rfl]
        rw [(er.hnotdone j hilen hinc).2]
    · intro j h1 h2
      dsimp only at h1 h2
      rw [List.length_set] at h1
      rw [List.mem_append, List.mem_singleton] at h2
      push_neg at h2
      rw [hpne j h2.2]
      exact er.hnotdone j h1 h2.1
    · intro j hj
      dsimp only at hj ⊢
      rw [List.length_set] at hj
      rw [if_pos rfl]
      by_cases hji : j = i
      · subst hji
        rw [hpgi]
        simp only [finishP_state, finishP_rem]
        constructor
        · intro _
          exact h0
        · intro hne
          exact absurd rfl hne
      · rw [hpne j hji]
        exact er.hremT j hj
    · intro c hc
      exact Option.noConfusion hc
    · dsimp only
      unfold sliceDurSum
      rw [List.map_append, List.sum_append]
      have := er.hclock
      unfold sliceDurSum at this
      simp only [List.map_cons, List.map_nil, List.sum_cons, List.sum_nil]
      omega
    · intro _ _
      refine ⟨i, ?_, ?_⟩
      · dsimp only
        rw [List.mem_append, List.mem_singleton]
        right; rfl
      · rw [hpgi]
        simp only [finishP_completion]
    · intro j hj
      dsimp only at hj ⊢
      rw [List.length_set] at hj
      by_cases hji : j = i
      · subst hji
        right
        have hsl := hslI
        refine ⟨t0, ?_, ?_, ?_, ?_⟩
        · rw [hpgi]
          simp only [finishP_start]
          exact hsI1
        · rw [hpgi]
          simp only [finishP_startWrites]
          exact hsI2
        · rw [hpgi]
          simp only [finishP_response, finishP_arrival]
          exact hsI3
        · rcases hsI4 with ⟨hemp, ht0⟩ | ⟨d, r, hsome⟩
          · refine ⟨1, [], ?_⟩
            rw [hsl, hemp, ht0, hpgi]
            simp only [finishP_process_id]
            rfl
          · refine ⟨d, r ++ [(s.currentTime, (pget s j).process_id, 1)], ?_⟩
            rw [hsl, hsome, hpgi]
            simp only [finishP_process_id, List.cons_append]
      · rw [hpne j hji, hslO j hj hji]
        exact er.hstartO j hj hji
  · rw [if_neg h0]
    have hpgi : pget { s with
        procs := s.procs.set i { pget s i with remaining_time := (pget s i).remaining_time - 1 },
        readyQueue := rest, currentTime := s.currentTime + 1,
        ganttData := s.ganttData ++ [(s.currentTime, (pget s i).process_id, 1)],
        currentProcess := some i } i =
        { pget s i with remaining_time := (pget s i).remaining_time - 1 } := by
      unfold pget
      dsimp only
      exact getD_set_self _ _ _ _ hilen
    have hpne : ∀ j, j ≠ i → pget { s with
        procs := s.procs.set i { pget s i with remaining_time := (pget s i).remaining_time - 1 },
        readyQueue := rest, currentTime := s.currentTime + 1,
        ganttData := s.ganttData ++ [(s.currentTime, (pget s i).process_id, 1)],
        currentProcess := some i } j = pget s j := by
      intro j hj
      unfold pget
      dsimp only
      exact getD_set_ne _ _ _ _ _ hj
    have hslI : slicesOf { s with
        procs := s.procs.set i { pget s i with remaining_time := (pget s i).remaining_time - 1 },
        readyQueue := rest, currentTime := s.currentTime + 1,
        ganttData := s.ganttData ++ [(s.currentTime, (pget s i).process_id, 1)],
        currentProcess := some i } i =
        slicesOf s i ++ [(s.currentTime, (pget s i).process_id, 1)] := by
      refine slicesOf_append_eq s _ i s.currentTime 1 rfl ?_
      rw [hpgi]
    have hslO : ∀ j, j < s.procs.length → j ≠ i → slicesOf { s with
        procs := s.procs.set i { pget s i with remaining_time := (pget s i).remaining_time - 1 },
        readyQueue := rest, currentTime := s.currentTime + 1,
        ganttData := s.ganttData ++ [(s.currentTime, (pget s i).process_id, 1)],
        currentProcess := some i } j = slicesOf s j := by
      intro j hjl hji
      refine slicesOf_append_ne s _ j s.currentTime ((pget s i).process_id) 1 rfl (by rw [hpne j hji]) ?_
      exact hpid i j hilen hjl hji.symm
    refine ⟨?_, ?_, ?_, ?_, ?_, ?_, ?_, ?_, ?_, ?_, ?_, ?_, ?_, ?_, ?_, ?_, ?_, ?_⟩
    · dsimp only
      rw [List.length_set]
      exact er.hlen
    · intro j
      by_cases hj : j = i
      · subst hj; rw [hpgi]; exact er.hid j
      · rw [hpne j hj]; exact er.hid j
    · intro j
      by_cases hj : j = i
      · subst hj; rw [hpgi]; exact er.harr j
      · rw [hpne j hj]; exact er.harr j
    · intro j
      by_cases hj : j = i
      · subst hj; rw [hpgi]; exact er.hburst j
      · rw [hpne j hj]; exact er.hburst j
    · dsimp only
      rw [List.length_set]
      exact er.hidx
    · intro k hk
      dsimp only at hk ⊢
      by_cases hj : k = i
      · subst hj
        rw [hpgi]
        have := er.hidxArr k hk
        show (pget s k).arrival_time ≤ s.currentTime + 1
        omega
      · rw [hpne k hj]
        have := er.hidxArr k hk
        omega
    · intro k h1 h2
      dsimp only at h1 h2
      rw [List.length_set] at h2
      have hii := er.hiidx
      have hk : k ≠ i := by omega
      rw [hpne k hk]
      exact er.hstate k h1 h2
    · intro j
      dsimp only
      rw [hrest j]
      constructor
      · rintro ⟨hj, hne⟩
        obtain ⟨h1, h2⟩ := (er.hqmemF j).mp hj
        rw [hpne j hne]
        refine ⟨h1, h2, ?_⟩
        intro hcon
        exact hne (Option.some.inj hcon).symm
      · rintro ⟨h1, h2, h3⟩
        have hj : j ≠ i := by
          rintro rfl
          exact h3 rfl
        rw [hpne j hj] at h2
        exact ⟨(er.hqmemF j).mpr ⟨h1, h2⟩, hj⟩
    · exact hrnd
    · intro j
      dsimp only
      rw [List.length_set]
      constructor
      · intro hj
        have := (er.hcmem j).mp hj
        have hji : j ≠ i := by rintro rfl; exact hinc hj
        rw [hpne j hji]
        exact this
      · rintro ⟨h1, h2⟩
        by_cases hj : j = i
        · subst hj
          rw [hpgi] at h2
          rw [show ({ pget s j with remaining_time := (pget s j).remaining_time - 1 } : Process).state = (pget s j).state from rfl] at h2
          exact absurd h2 er.hstI
        · rw [hpne j hj] at h2
          exact (er.hcmem j).mpr ⟨h1, h2⟩
    · exact er.hcnd
    · intro j hj
      dsimp only at hj ⊢
      have hji : j ≠ i := by rintro rfl; exact hinc hj
      rw [hpne j hji]
      obtain ⟨t, h1, h2, h3⟩ := er.hdone j hj
      exact ⟨t, h1, by omega, h3⟩
    · intro j h1 h2
      dsimp only at h1 h2
      rw [List.length_set] at h1
      by_cases hj : j = i
      · subst hj
        rw [hpgi]
        rw [show ({ pget s j with remaining_time := (pget s j).remaining_time - 1 } : Process).completion_time = (pget s j).completion_time from rfl]
        rw [show ({ pget s j with remaining_time := (pget s j).remaining_time - 1 } : Process).completionWrites = (pget s j).completionWrites from rfl]
        exact er.hnotdone j h1 hinc
      · rw [hpne j hj]
        exact er.hnotdone j h1 h2
    · intro j hj
      dsimp only at hj ⊢
      rw [List.length_set] at hj
      rw [if_pos rfl]
      by_cases hji : j = i
      · subst hji
        rw [hpgi]
        rw [show ({ pget s j with remaining_time := (pget s j).remaining_time - 1 } : Process).state = (pget s j).state from rfl]
        rw [show ({ pget s j with remaining_time := (pget s j).remaining_time - 1 } : Process).remaining_time = (pget s j).remaining_time - 1 from rfl]
        constructor
        · intro hterm
          exact absurd hterm er.hstI
        · intro _
          omega
      · rw [hpne j hji]
        exact er.hremT j hj
    · intro c hc
      dsimp only at hc
      have hci : c = i := (Option.some.inj hc).symm
      subst hci
      dsimp only
      rw [hpgi]
      rw [show ({ pget s c with remaining_time := (pget s c).remaining_time - 1 } : Process).state = (pget s c).state from rfl]
      rw [show ({ pget s c with remaining_time := (pget s c).remaining_time - 1 } : Process).start_time = (pget s c).start_time from rfl]
      refine ⟨er.hiidx, ?_, er.hstI, ?_⟩
      · show 0 < (pget s c).remaining_time - 1
        omega
      · rw [hsI1]
        simp
    · dsimp only
      unfold sliceDurSum
      rw [List.map_append, List.sum_append]
      have := er.hclock
      unfold sliceDurSum at this
      simp only [List.map_cons, List.map_nil, List.sum_cons, List.sum_nil]
      omega
    · intro hpos hle
      dsimp only at hpos hle
      rw [List.length_set] at hpos hle
      exfalso
      omega
    · intro j hj
      dsimp only at hj ⊢
      rw [List.length_set] at hj
      by_cases hji : j = i
      · subst hji
        right
        have hsl := hslI
        refine ⟨t0, ?_, ?_, ?_, ?_⟩
        · rw [hpgi]
          rw [show ({ pget s j with remaining_time := (pget s j).remaining_time - 1 } : Process).start_time = (pget s j).start_time from rfl]
          exact hsI1
        · rw [hpgi]
          rw [show ({ pget s j with remaining_time := (pget s j).remaining_time - 1 } : Process).startWrites = (pget s j).startWrites from rfl]
          exact hsI2
        · rw [hpgi]
          rw [show ({ pget s j with remaining_time := (pget s j).remaining_time - 1 } : Process).response_time = (pget s j).response_time from rfl]
          rw [show ({ pget s j with remaining_time := (pget s j).remaining_time - 1 } : Process).arrival_time = (pget s j).arrival_time from rfl]
          exact hsI3
        · rcases hsI4 with ⟨hemp, ht0⟩ | ⟨d, r, hsome⟩
          · refine ⟨1, [], ?_⟩
            rw [hsl, hemp, ht0, hpgi]
            rfl
          · refine ⟨d, r ++ [(s.currentTime, (pget s j).process_id, 1)], ?_⟩
            rw [hsl, hsome, hpgi, List.cons_append]
      · rw [hpne j hji, hslO j hj hji]
        exact er.hstartO j hj hji

theorem ExecReady_same (ps0 : List Process) (s : SimState) (i : Nat)
    (pre : PreExec ps0 s) (hiidx : i < s.processIndex)
    (histate : (pget s i).state ≠ PState.TERMINATED)
    (hstartne : (pget s i).start_time ≠ none) :
    ExecReady ps0 s i := by
  have hilen : i < s.procs.length := lt_of_lt_of_le hiidx pre.hidx
  refine ⟨pre.hlen, pre.hid, pre.harr, pre.hburst, pre.hidx, pre.hidxArr, pre.hstate,
    pre.hqmemF, pre.hqnd, pre.hcmem, pre.hcnd, pre.hdone, pre.hnotdone, pre.hremT,
    pre.hclock, pre.hlast, ?_, ?_, histate, (pre.hremT i hilen).2 histate, hiidx⟩
  · intro j hj _
    exact pre.hstart j hj
  · rcases pre.hstart i hilen with ⟨hs1, _, _, _⟩ | ⟨t, hs1, hs2, hs3, d, r, hs4⟩
    · exact absurd hs1 hstartne
    · exact ⟨t, hs1, hs2, hs3, Or.inr ⟨d, r, hs4⟩⟩

theorem ExecReady_prep (ps0 : List Process) (s : SimState) (i : Nat)
    (pre : PreExec ps0 s) (hiidx : i < s.processIndex)
    (histate : (pget s i).state ≠ PState.TERMINATED) :
    ExecReady ps0
      { s with procs := s.procs.set i (startP { pget s i with state := PState.RUNNING } s.currentTime),
               currentProcess := some i } i := by
  have hilen : i < s.procs.length := lt_of_lt_of_le hiidx pre.hidx
  have hinc : i ∉ s.completed := fun hmem => histate ((pre.hcmem i).mp hmem).2
  have hpgi : pget { s with
      procs := s.procs.set i (startP { pget s i with state := PState.RUNNING } s.currentTime),
      currentProcess := some i } i =
      startP { pget s i with state := PState.RUNNING } s.currentTime := by
    unfold pget
    dsimp only
    exact getD_set_self _ _ _ _ hilen
  have hpne : ∀ j, j ≠ i → pget { s with
      procs := s.procs.set i (startP { pget s i with state := PState.RUNNING } s.currentTime),
      currentProcess := some i } j = pget s j := by
    intro j hj
    unfold pget
    dsimp only
    exact getD_set_ne _ _ _ _ _ hj
  have hslI : slicesOf { s with
      procs := s.procs.set i (startP { pget s i with state := PState.RUNNING } s.currentTime),
      currentProcess := some i } i = slicesOf s i := by
    refine slicesOf_eq s _ i rfl ?_
    rw [hpgi]
    simp
  have hslO : ∀ j, j ≠ i → slicesOf { s with
      procs := s.procs.set i (startP { pget s i with state := PState.RUNNING } s.currentTime),
      currentProcess := some i } j = slicesOf s j := by
    intro j hj
    exact slicesOf_eq s _ j rfl (by rw [hpne j hj])
  refine ⟨?_, ?_, ?_, ?_, ?_, ?_, ?_, ?_, ?_, ?_, ?_, ?_, ?_, ?_, ?_, ?_, ?_, ?_, ?_, ?_, ?_⟩
  · dsimp only
    rw [List.length_set]
    exact pre.hlen
  · intro j
    by_cases hj : j = i
    · subst hj; rw [hpgi]; simp only [startP_process_id]; exact pre.hid j
    · rw [hpne j hj]; exact pre.hid j
  · intro j
    by_cases hj : j = i
    · subst hj; rw [hpgi]; simp only [startP_arrival]; exact pre.harr j
    · rw [hpne j hj]; exact pre.harr j
  · intro j
    by_cases hj : j = i
    · subst hj; rw [hpgi]; simp only [startP_burst]; exact pre.hburst j
    · rw [hpne j hj]; exact pre.hburst j
  · dsimp only
    rw [List.length_set]
    exact pre.hidx
  · intro k hk
    dsimp only at hk ⊢
    by_cases hj : k = i
    · subst hj
      rw [hpgi]
      simp only [startP_arrival]
      exact pre.hidxArr k hk
    · rw [hpne k hj]
      exact pre.hidxArr k hk
  · intro k h1 h2
    dsimp only at h1 h2
    rw [List.length_set] at h2
    have hk : k ≠ i := by omega
    rw [hpne k hk]
    exact pre.hstate k h1 h2
  · intro j
    dsimp only
    rw [pre.hqmemF j]
    by_cases hj : j = i
    · subst hj
      rw [hpgi]
      simp only [startP_state]
      constructor
      · rintro ⟨h1, _⟩
        exact ⟨h1, by simp⟩
      · rintro ⟨h1, _⟩
        exact ⟨h1, histate⟩
    · rw [hpne j hj]
  · exact pre.hqnd
  · intro j
    dsimp only
    rw [List.length_set]
    by_cases hj : j = i
    · subst hj
      rw [hpgi]
      simp only [startP_state]
      constructor
      · intro hmem
        exact absurd ((pre.hcmem j).mp hmem).2 histate
      · rintro ⟨_, h2⟩
        exact absurd h2 (by simp)
    · rw [hpne j hj]
      exact pre.hcmem j
  · exact pre.hcnd
  · intro j hj
    dsimp only
    have hji : j ≠ i := by rintro rfl; exact hinc hj
    rw [hpne j hji]
    exact pre.hdone j hj
  · intro j h1 h2
    dsimp only at h1 h2 ⊢
    rw [List.length_set] at h1
    by_cases hj : j = i
    · subst hj
      rw [hpgi]
      simp only [startP_completion, startP_completionWrites]
      exact pre.hnotdone j h1 hinc
    · rw [hpne j hj]
      exact pre.hnotdone j h1 h2
  · intro j hj
    dsimp only at hj ⊢
    rw [List.length_set] at hj
    by_cases hji : j = i
    · subst hji
      rw [hpgi]
      simp only [startP_state, startP_rem]
      constructor
      · intro hterm
        exact absurd hterm (by simp)
      · intro _
        exact (pre.hremT j hj).2 histate
    · rw [hpne j hji]
      exact pre.hremT j hj
  · dsimp only
    exact pre.hclock
  · intro hpos hle
    dsimp only at hpos hle ⊢
    rw [List.length_set] at hpos hle
    obtain ⟨j, hj1, hj2⟩ := pre.hlast hpos hle
    have hji : j ≠ i := by rintro rfl; exact hinc hj1
    refine ⟨j, hj1, ?_⟩
    rw [hpne j hji]
    exact hj2
  · intro j hj hji
    dsimp only at hj ⊢
    rw [List.length_set] at hj
    rw [hpne j hji, hslO j hji]
    exact pre.hstart j hj
  · rcases pre.hstart i hilen with ⟨hs1, hs2, hs3, hs4⟩ | ⟨t, hs1, hs2, hs3, d, r, hs4⟩
    · have hsp := startP_of_none { pget s i with state := PState.RUNNING } s.currentTime hs1
      refine ⟨s.currentTime, ?_, ?_, ?_, Or.inl ⟨?_, ?_⟩⟩
      · rw [hpgi, hsp]
      · rw [hpgi, hsp]
        show (pget s i).startWrites + 1 = 1
        rw [hs2]
      · rw [hpgi, hsp]
      · rw [hslI]
        exact hs4
      · rfl
    · have hsp := startP_of_some { pget s i with state := PState.RUNNING } s.currentTime
        (by show (pget s i).start_time ≠ none; rw [hs1]; simp)
      refine ⟨t, ?_, ?_, ?_, Or.inr ⟨d, r, ?_⟩⟩
      · rw [hpgi, hsp]
        exact hs1
      · rw [hpgi, hsp]
        exact hs2
      · rw [hpgi, hsp]
        show (pget s i).response_time = some ((t : Int) - ((pget s i).arrival_time : Int))
        exact hs3
      · rw [hslI, hpgi, hsp]
        show slicesOf s i = (t, (pget s i).process_id, d) :: r
        exact hs4
  · rw [hpgi]
    simp only [startP_state]
    simp
  · rw [hpgi]
    simp only [startP_rem]
    exact (pre.hremT i hilen).2 histate
  · dsimp only
    exact hiidx

theorem SimInv_runUnit (ps0 : List Process) (hv : validInput ps0) (s : SimState)
    (pre : PreExec ps0 s) (i : Nat) (rest : List Nat)
    (hperm : List.Perm s.readyQueue (i :: rest))
    (hiidx : i < s.processIndex)
    (histate : (pget s i).state ≠ PState.TERMINATED) :
    SimInv ps0 true (runUnit s i rest) := by
  unfold runUnit
  exact SimInv_unitExecER ps0 hv _ i (ExecReady_prep ps0 s i pre hiidx histate) rest hperm

theorem SimInv_of_PreExec_none (ps0 : List Process) (s : SimState)
    (pre : PreExec ps0 s) (hcur0 : s.currentProcess = none) :
    SimInv ps0 true s := by
  refine ⟨pre.hlen, pre.hid, pre.harr, pre.hburst, pre.hidx, pre.hidxArr, pre.hstate,
    ?_, pre.hqnd, pre.hcmem, pre.hcnd, pre.hdone, pre.hnotdone, ?_, ?_,
    pre.hclock, pre.hlast, pre.hstart⟩
  · intro i
    rw [pre.hqmemF i, hcur0]
    simp
  · intro i hi
    rw [if_pos rfl]
    exact pre.hremT i hi
  · intro c hc
    rw [hcur0] at hc
    exact Option.noConfusion hc

theorem pget_set_other (s : SimState) (c : Nat) (p : Process) (j : Nat) (hj : j ≠ c) :
    pget { s with procs := s.procs.set c p } j = pget s j := by
  unfold pget
  dsimp only
  exact getD_set_ne _ _ _ _ _ hj

theorem pget_set_at (s : SimState) (c : Nat) (p : Process) (hc : c < s.procs.length) :
    pget { s with procs := s.procs.set c p } c = p := by
  unfold pget
  dsimp only
  exact getD_set_self _ _ _ _ hc

theorem PreExec_setREADY (ps0 : List Process) (s : SimState) (c : Nat)
    (pre : PreExec ps0 s) (hcidx : c < s.processIndex)
    (hcterm : (pget s c).state ≠ PState.TERMINATED) :
    PreExec ps0 { s with procs := s.procs.set c { pget s c with state := PState.READY } } := by
  have hclen : c < s.procs.length := lt_of_lt_of_le hcidx pre.hidx
  have hcnotdone : c ∉ s.completed := fun hmem => hcterm ((pre.hcmem c).mp hmem).2
  have hpgi := pget_set_at s c { pget s c with state := PState.READY } hclen
  have hpne := fun j hj => pget_set_other s c { pget s c with state := PState.READY } j hj
  refine ⟨?_, ?_, ?_, ?_, ?_, ?_, ?_, ?_, ?_, ?_, ?_, ?_, ?_, ?_, ?_, ?_, ?_⟩
  · dsimp only
    rw [List.length_set]
    exact pre.hlen
  · intro j
    by_cases hj : j = c
    · subst hj; rw [hpgi]; exact pre.hid j
    · rw [hpne j hj]; exact pre.hid j
  · intro j
    by_cases hj : j = c
    · subst hj; rw [hpgi]; exact pre.harr j
    · rw [hpne j hj]; exact pre.harr j
  · intro j
    by_cases hj : j = c
    · subst hj; rw [hpgi]; exact pre.hburst j
    · rw [hpne j hj]; exact pre.hburst j
  · dsimp only
    rw [List.length_set]
    exact pre.hidx
  · intro k hk
    dsimp only at hk ⊢
    by_cases hj : k = c
    · subst hj; rw [hpgi]; exact pre.hidxArr k hk
    · rw [hpne k hj]; exact pre.hidxArr k hk
  · intro k h1 h2
    dsimp only at h1 h2
    rw [List.length_set] at h2
    have hk : k ≠ c := by omega
    rw [hpne k hk]
    exact pre.hstate k h1 h2
  · intro j
    dsimp only
    rw [pre.hqmemF j]
    by_cases hj : j = c
    · subst hj
      rw [hpgi]
      constructor
      · rintro ⟨h1, _⟩
        exact ⟨h1, by simp⟩
      · rintro ⟨h1, _⟩
        exact ⟨h1, hcterm⟩
    · rw [hpne j hj]
  · exact pre.hqnd
  · intro j
    dsimp only
    rw [List.length_set]
    by_cases hj : j = c
    · subst hj
      rw [hpgi]
      constructor
      · intro hmem
        exact absurd ((pre.hcmem j).mp hmem).2 hcterm
      · rintro ⟨_, h2⟩
        exact absurd h2 (by simp)
    · rw [hpne j hj]
      exact pre.hcmem j
  · exact pre.hcnd
  · intro j hj
    dsimp only
    have hji : j ≠ c := by rintro rfl; exact hcnotdone hj
    rw [hpne j hji]
    exact pre.hdone j hj
  · intro j h1 h2
    dsimp only at h1 h2 ⊢
    rw [List.length_set] at h1
    by_cases hj : j = c
    · subst hj
      rw [hpgi]
      exact pre.hnotdone j h1 h2
    · rw [hpne j hj]
      exact pre.hnotdone j h1 h2
  · intro j hj
    dsimp only at hj ⊢
    rw [List.length_set] at hj
    by_cases hji : j = c
    · subst hji
      rw [hpgi]
      constructor
      · intro hterm
        exact absurd hterm (by simp)
      · intro _
        exact (pre.hremT j hj).2 hcterm
    · rw [hpne j hji]
      exact pre.hremT j hj
  · dsimp only
    exact pre.hclock
  · intro hpos hle
    dsimp only at hpos hle ⊢
    rw [List.length_set] at hpos hle
    obtain ⟨j, hj1, hj2⟩ := pre.hlast hpos hle
    have hji : j ≠ c := by rintro rfl; exact hcnotdone hj1
    exact ⟨j, hj1, by rw [hpne j hji]; exact hj2⟩
  · intro j hj
    dsimp only at hj ⊢
    rw [List.length_set] at hj
    by_cases hji : j = c
    · subst hji
      have hsl : slicesOf { s with
          procs := s.procs.set j { pget s j with state := PState.READY } } j = slicesOf s j := by
        refine slicesOf_eq s _ j rfl ?_
        rw [hpgi]
      rw [hpgi, hsl]
      exact pre.hstart j hj
    · have hsl : slicesOf { s with
          procs := s.procs.set c { pget s c with state := PState.READY } } j = slicesOf s j := by
        refine slicesOf_eq s _ j rfl ?_
        rw [hpne j hji]
      rw [hpne j hji, hsl]
      exact pre.hstart j hj

/-- The invariant between the Round Robin slice write-back (plus mid-slice
admission) and the final complete-or-re-enqueue decision: the executed
process `i` has been popped from the queue and not yet re-inserted. -/
structure RRMid (ps0 : List Process) (u : SimState) (i : Nat) : Prop where
  hlen : u.procs.length = ps0.length
  hid : ∀ j, (pget u j).process_id = (ps0.getD j default).process_id
  harr : ∀ j, (pget u j).arrival_time = (ps0.getD j default).arrival_time
  hburst : ∀ j, (pget u j).burst_time = (ps0.getD j default).burst_time
  hidx : u.processIndex ≤ u.procs.length
  hidxArr : ∀ k, k < u.processIndex → (pget u k).arrival_time ≤ u.currentTime
  hstate : ∀ k, u.processIndex ≤ k → k < u.procs.length → (pget u k).state = PState.NEW
  hqmemX : ∀ j, j ∈ u.readyQueue ↔
      (j < u.processIndex ∧ (pget u j).state ≠ PState.TERMINATED ∧
       u.currentProcess ≠ some j ∧ j ≠ i)
  hqnd : u.readyQueue.Nodup
  hcmem : ∀ j, j ∈ u.completed ↔ (j < u.procs.length ∧ (pget u j).state = PState.TERMINATED)
  hcnd : u.completed.Nodup
  hdone : ∀ j ∈ u.completed, ∃ t, (pget u j).completion_time = some t ∧ t ≤ u.currentTime ∧
      (pget u j).completionWrites = 1
  hnotdone : ∀ j, j < u.procs.length → j ∉ u.completed →
      (pget u j).completion_time = none ∧ (pget u j).completionWrites = 0
  hremX : ∀ j, j < u.procs.length → j ≠ i →
      ((pget u j).state = PState.TERMINATED → (pget u j).remaining_time = 0) ∧
      ((pget u j).state ≠ PState.TERMINATED → 0 < (pget u j).remaining_time)
  hcur : ∀ c, u.currentProcess = some c →
      c < u.processIndex ∧ 0 < (pget u c).remaining_time ∧
      (pget u c).state ≠ PState.TERMINATED ∧ (pget u c).start_time ≠ none ∧ c ≠ i
  hclock : sliceDurSum u.ganttData + u.idleCount = u.currentTime
  hstartO : ∀ j, j < u.procs.length → j ≠ i →
      ((pget u j).start_time = none ∧ (pget u j).startWrites = 0 ∧
       (pget u j).response_time = none ∧ slicesOf u j = [])
      ∨ (∃ t, (pget u j).start_time = some t ∧ (pget u j).startWrites = 1 ∧
         (pget u j).response_time = some ((t : Int) - ((pget u j).arrival_time : Int)) ∧
         ∃ d rest, slicesOf u j = (t, (pget u j).process_id, d) :: rest)
  hstartI : ∃ t0, (pget u i).start_time = some t0 ∧ (pget u i).startWrites = 1 ∧
      (pget u i).response_time = some ((t0 : Int) - ((pget u i).arrival_time : Int)) ∧
      ∃ d r, slicesOf u i = (t0, (pget u i).process_id, d) :: r
  hstI : (pget u i).state ≠ PState.TERMINATED
  hiidx : i < u.processIndex
  hinc : i ∉ u.completed

theorem SimInv_rrFinish (ps0 : List Process) (hv : validInput ps0) (u : SimState) (i : Nat)
    (m : RRMid ps0 u i) (hrem0 : (pget u i).remaining_time = 0) :
    SimInv ps0 true
      { u with procs := u.procs.set i (finishP (pget u i) u.currentTime),
               completed := u.completed ++ [i] } := by
  have hilen : i < u.procs.length := lt_of_lt_of_le m.hiidx m.hidx
  have hpid := pid_inj ps0 hv u m.hlen m.hid
  have hpgi := pget_set_at { u with completed := u.completed ++ [i] } i
      (finishP (pget u i) u.currentTime) hilen
  have hpgi2 : pget { u with
      procs := u.procs.set i (finishP (pget u i) u.currentTime),
      completed := u.completed ++ [i] } i = finishP (pget u i) u.currentTime := by
    unfold pget
    dsimp only
    exact getD_set_self _ _ _ _ hilen
  have hpne : ∀ j, j ≠ i → pget { u with
      procs := u.procs.set i (finishP (pget u i) u.currentTime),
      completed := u.completed ++ [i] } j = pget u j := by
    intro j hj
    unfold pget
    dsimp only
    exact getD_set_ne _ _ _ _ _ hj
  obtain ⟨t0, hsI1, hsI2, hsI3, d0, r0, hsI4⟩ := m.hstartI
  refine ⟨?_, ?_, ?_, ?_, ?_, ?_, ?_, ?_, ?_, ?_, ?_, ?_, ?_, ?_, ?_, ?_, ?_, ?_⟩
  · dsimp only
    rw [List.length_set]
    exact m.hlen
  · intro j
    by_cases hj : j = i
    · subst hj; rw [hpgi2]; simp only [finishP_process_id]; exact m.hid j
    · rw [hpne j hj]; exact m.hid j
  · intro j
    by_cases hj : j = i
    · subst hj; rw [hpgi2]; simp only [finishP_arrival]; exact m.harr j
    · rw [hpne j hj]; exact m.harr j
  · intro j
    by_cases hj : j = i
    · subst hj; rw [hpgi2]; simp only [finishP_burst]; exact m.hburst j
    · rw [hpne j hj]; exact m.hburst j
  · dsimp only
    rw [List.length_set]
    exact m.hidx
  · intro k hk
    dsimp only at hk ⊢
    by_cases hj : k = i
    · subst hj; rw [hpgi2]; simp only [finishP_arrival]; exact m.hidxArr k hk
    · rw [hpne k hj]; exact m.hidxArr k hk
  · intro k h1 h2
    dsimp only at h1 h2
    rw [List.length_set] at h2
    have hii := m.hiidx
    have hk : k ≠ i := by omega
    rw [hpne k hk]
    exact m.hstate k h1 h2
  · intro j
    dsimp only
    rw [m.hqmemX j]
    by_cases hj : j = i
    · subst hj
      rw [hpgi2]
      simp only [finishP_state]
      constructor
      · rintro ⟨_, _, _, hne⟩
        exact absurd rfl hne
      · rintro ⟨_, hne, _⟩
        exact absurd rfl hne
    · rw [hpne j hj]
      constructor
      · rintro ⟨h1, h2, h3, _⟩
        exact ⟨h1, h2, h3⟩
      · rintro ⟨h1, h2, h3⟩
        exact ⟨h1, h2, h3, hj⟩
  · exact m.hqnd
  · intro j
    dsimp only
    rw [List.length_set, List.mem_append, List.mem_singleton]
    constructor
    · rintro (hj | rfl)
      · have hji : j ≠ i := by rintro rfl; exact m.hinc hj
        rw [hpne j hji]
        exact (m.hcmem j).mp hj
      · rw [hpgi2]
        simp only [finishP_state]
        exact ⟨hilen, trivial⟩
    · rintro ⟨h1, h2⟩
      by_cases hj : j = i
      · right; exact hj
      · left
        rw [hpne j hj] at h2
        exact (m.hcmem j).mpr ⟨h1, h2⟩
  · dsimp only
    rw [List.nodup_append]
    exact ⟨m.hcnd, List.nodup_singleton i, by
      intro a ha ha2
      rw [List.mem_singleton] at ha2
      subst ha2
      exact m.hinc ha⟩
  · intro j hj
    dsimp only at hj ⊢
    rw [List.mem_append, List.mem_singleton] at hj
    rcases hj with hj | rfl
    · have hji : j ≠ i := by rintro rfl; exact m.hinc hj
      rw [hpne j hji]
      exact m.hdone j hj
    · rw [hpgi2]
      simp only [finishP_completion, finishP_completionWrites]
      exact ⟨u.currentTime, rfl, le_refl _, by rw [(m.hnotdone j hilen m.hinc).2]⟩
  · intro j h1 h2
    dsimp only at h1 h2
    rw [List.length_set] at h1
    rw [List.mem_append, List.mem_singleton] at h2
    push_neg at h2
    rw [hpne j h2.2]
    exact m.hnotdone j h1 h2.1
  · intro j hj
    dsimp only at hj ⊢
    rw [List.length_set] at hj
    rw [if_pos rfl]
    by_cases hji : j = i
    · subst hji
      rw [hpgi2]
      simp only [finishP_state, finishP_rem]
      exact ⟨fun _ => hrem0, fun hne => absurd rfl hne⟩
    · rw [hpne j hji]
      exact m.hremX j hj hji
  · intro c hc
    dsimp only at hc
    obtain ⟨h1, h2, h3, h4, h5⟩ := m.hcur c hc
    rw [hpne c h5]
    exact ⟨h1, h2, h3, h4⟩
  · dsimp only
    exact m.hclock
  · intro _ _
    refine ⟨i, ?_, ?_⟩
    · dsimp only
      rw [List.mem_append, List.mem_singleton]
      right; rfl
    · rw [hpgi2]
      simp only [finishP_completion]
  · intro j hj
    dsimp only at hj ⊢
    rw [List.length_set] at hj
    by_cases hji : j = i
    · subst hji
      right
      have hsl : slicesOf { u with
          procs := u.procs.set j (finishP (pget u j) u.currentTime),
          completed := u.completed ++ [j] } j = slicesOf u j := by
        refine slicesOf_eq u _ j rfl ?_
        rw [hpgi2]
        simp only [finishP_process_id]
      rw [hpgi2, hsl]
      simp only [finishP_start, finishP_startWrites, finishP_response, finishP_arrival,
        finishP_process_id]
      exact ⟨t0, hsI1, hsI2, hsI3, d0, r0, hsI4⟩
    · have hsl : slicesOf { u with
          procs := u.procs.set i (finishP (pget u i) u.currentTime),
          completed := u.completed ++ [i] } j = slicesOf u j := by
        refine slicesOf_eq u _ j rfl ?_
        rw [hpne j hji]
      rw [hpne j hji, hsl]
      exact m.hstartO j hj hji

theorem SimInv_rrRequeue (ps0 : List Process) (hv : validInput ps0) (u : SimState) (i : Nat)
    (m : RRMid ps0 u i) (hremPos : 0 < (pget u i).remaining_time) :
    SimInv ps0 true
      { u with procs := u.procs.set i { pget u i with state := PState.READY },
               readyQueue := u.readyQueue ++ [i],
               preemptions := u.preemptions ++ [(u.currentTime, (pget u i).process_id)] } := by
  have hilen : i < u.procs.length := lt_of_lt_of_le m.hiidx m.hidx
  have hpgi2 : pget { u with
      procs := u.procs.set i { pget u i with state := PState.READY },
      readyQueue := u.readyQueue ++ [i],
      preemptions := u.preemptions ++ [(u.currentTime, (pget u i).process_id)] } i =
      { pget u i with state := PState.READY } := by
    unfold pget
    dsimp only
    exact getD_set_self _ _ _ _ hilen
  have hpne : ∀ j, j ≠ i → pget { u with
      procs := u.procs.set i { pget u i with state := PState.READY },
      readyQueue := u.readyQueue ++ [i],
      preemptions := u.preemptions ++ [(u.currentTime, (pget u i).process_id)] } j = pget u j := by
    intro j hj
    unfold pget
    dsimp only
    exact getD_set_ne _ _ _ _ _ hj
  have hmore : u.completed.length < u.procs.length := by
    refine length_lt_of_not_mem u.completed u.procs.length i m.hcnd ?_ hilen m.hinc
    intro x hx
    exact ((m.hcmem x).mp hx).1
  obtain ⟨t0, hsI1, hsI2, hsI3, d0, r0, hsI4⟩ := m.hstartI
  refine ⟨?_, ?_, ?_, ?_, ?_, ?_, ?_, ?_, ?_, ?_, ?_, ?_, ?_, ?_, ?_, ?_, ?_, ?_⟩
  · dsimp only
    rw [List.length_set]
    exact m.hlen
  · intro j
    by_cases hj : j = i
    · subst hj; rw [hpgi2]; exact m.hid j
    · rw [hpne j hj]; exact m.hid j
  · intro j
    by_cases hj : j = i
    · subst hj; rw [hpgi2]; exact m.harr j
    · rw [hpne j hj]; exact m.harr j
  · intro j
    by_cases hj : j = i
    · subst hj; rw [hpgi2]; exact m.hburst j
    · rw [hpne j hj]; exact m.hburst j
  · dsimp only
    rw [List.length_set]
    exact m.hidx
  · intro k hk
    dsimp only at hk ⊢
    by_cases hj : k = i
    · subst hj; rw [hpgi2]; exact m.hidxArr k hk
    · rw [hpne k hj]; exact m.hidxArr k hk
  · intro k h1 h2
    dsimp only at h1 h2
    rw [List.length_set] at h2
    have hii := m.hiidx
    have hk : k ≠ i := by omega
    rw [hpne k hk]
    exact m.hstate k h1 h2
  · intro j
    dsimp only
    rw [List.mem_append, List.mem_singleton]
    by_cases hj : j = i
    · subst hj
      rw [hpgi2]
      constructor
      · intro _
        refine ⟨m.hiidx, by simp, ?_⟩
        intro hc
        exact (m.hcur j hc).2.2.2.2 rfl
      · intro _
        right; rfl
    · rw [hpne j hj]
      rw [m.hqmemX j]
      constructor
      · rintro (⟨h1, h2, h3, _⟩ | h)
        · exact ⟨h1, h2, h3⟩
        · exact absurd h hj
      · rintro ⟨h1, h2, h3⟩
        left
        exact ⟨h1, h2, h3, hj⟩
  · dsimp only
    rw [List.nodup_append]
    refine ⟨m.hqnd, List.nodup_singleton i, ?_⟩
    intro a ha ha2
    rw [List.mem_singleton] at ha2
    subst ha2
    exact ((m.hqmemX a).mp ha).2.2.2 rfl
  · intro j
    dsimp only
    rw [List.length_set]
    by_cases hj : j = i
    · subst hj
      rw [hpgi2]
      constructor
      · intro hmem
        exact absurd ((m.hcmem j).mp hmem).2 m.hstI
      · rintro ⟨_, h2⟩
        exact absurd h2 (by simp)
    · rw [hpne j hj]
      exact m.hcmem j
  · exact m.hcnd
  · intro j hj
    dsimp only at hj ⊢
    have hji : j ≠ i := by rintro rfl; exact m.hinc hj
    rw [hpne j hji]
    exact m.hdone j hj
  · intro j h1 h2
    dsimp only at h1 h2 ⊢
    rw [List.length_set] at h1
    by_cases hj : j = i
    · subst hj
      rw [hpgi2]
      exact m.hnotdone j h1 m.hinc
    · rw [hpne j hj]
      exact m.hnotdone j h1 h2
  · intro j hj
    dsimp only at hj ⊢
    rw [List.length_set] at hj
    rw [if_pos rfl]
    by_cases hji : j = i
    · subst hji
      rw [hpgi2]
      exact ⟨fun hterm => absurd hterm (by simp), fun _ => hremPos⟩
    · rw [hpne j hji]
      exact m.hremX j hj hji
  · intro c hc
    dsimp only at hc
    obtain ⟨h1, h2, h3, h4, h5⟩ := m.hcur c hc
    rw [hpne c h5]
    exact ⟨h1, h2, h3, h4⟩
  · dsimp only
    exact m.hclock
  · intro hpos hle
    dsimp only at hpos hle
    rw [List.length_set] at hpos hle
    exfalso
    omega
  · intro j hj
    dsimp only at hj ⊢
    rw [List.length_set] at hj
    by_cases hji : j = i
    · subst hji
      right
      have hsl : slicesOf { u with
          procs := u.procs.set j { pget u j with state := PState.READY },
          readyQueue := u.readyQueue ++ [j],
          preemptions := u.preemptions ++ [(u.currentTime, (pget u j).process_id)] } j =
          slicesOf u j := by
        refine slicesOf_eq u _ j rfl ?_
        rw [hpgi2]
      rw [hpgi2, hsl]
      exact ⟨t0, hsI1, hsI2, hsI3, d0, r0, hsI4⟩
    · have hsl : slicesOf { u with
          procs := u.procs.set i { pget u i with state := PState.READY },
          readyQueue := u.readyQueue ++ [i],
          preemptions := u.preemptions ++ [(u.currentTime, (pget u i).process_id)] } j =
          slicesOf u j := by
        refine slicesOf_eq u _ j rfl ?_
        rw [hpne j hji]
      rw [hpne j hji, hsl]
      exact m.hstartO j hj hji

theorem RRMid_of (ps0 : List Process) (hv : validInput ps0) (quantum : Nat) (s : SimState)
    (inv : SimInv ps0 true s) (i : Nat) (rest : List Nat)
    (hcons : s.readyQueue = i :: rest) :
    RRMid ps0 (admitPhase (rrExec quantum s i rest)) i := by
  have hiq : i ∈ s.readyQueue := by rw [hcons]; simp
  obtain ⟨hiidx, histate, hicur⟩ := (inv.hqmem i).mp hiq
  have hilen : i < s.procs.length := lt_of_lt_of_le hiidx inv.hidx
  have hinc : i ∉ s.completed := fun hmem => histate ((inv.hcmem i).mp hmem).2
  have hremi : 0 < (pget s i).remaining_time := by
    have := inv.hrem i hilen
    rw [if_pos rfl] at this
    exact this.2 histate
  have hirest : i ∉ rest := by
    have := inv.hqnd
    rw [hcons] at this
    exact (List.nodup_cons.mp this).1
  have hrnd : rest.Nodup := by
    have := inv.hqnd
    rw [hcons] at this
    exact (List.nodup_cons.mp this).2
  have hpid := pid_inj ps0 hv s inv.hlen inv.hid
  have hpgEi : pget (rrExec quantum s i rest) i =
      { startP (pget s i) s.currentTime with
        state := PState.RUNNING,
        remaining_time := (pget s i).remaining_time - min quantum (pget s i).remaining_time } := by
    unfold rrExec
    exact pget_set_at _ _ _ hilen
  have hpgEne : ∀ j, j ≠ i → pget (rrExec quantum s i rest) j = pget s j := by
    intro j hj
    unfold rrExec
    exact pget_set_other _ _ _ _ hj
  have hE_len : (rrExec quantum s i rest).procs.length = s.procs.length := by
    unfold rrExec
    dsimp only
    exact List.length_set _ _ _
  have hE_idx : (rrExec quantum s i rest).processIndex = s.processIndex := rfl
  have hE_t : (rrExec quantum s i rest).currentTime =
      s.currentTime + min quantum (pget s i).remaining_time := rfl
  have hE_q : (rrExec quantum s i rest).readyQueue = rest := rfl
  have hE_comp : (rrExec quantum s i rest).completed = s.completed := rfl
  have hE_cur : (rrExec quantum s i rest).currentProcess = s.currentProcess := rfl
  have hE_g : (rrExec quantum s i rest).ganttData =
      s.ganttData ++ [(s.currentTime, (pget s i).process_id, min quantum (pget s i).remaining_time)] := rfl
  have hE_idle : (rrExec quantum s i rest).idleCount = s.idleCount := rfl
  have hU_len : (admitPhase (rrExec quantum s i rest)).procs.length = s.procs.length := by
    rw [admitPhase_procs_length, hE_len]
  have hU_idx : (admitPhase (rrExec quantum s i rest)).processIndex =
      s.processIndex + admitCount (rrExec quantum s i rest) := by
    rw [admitPhase_processIndex, hE_idx]
  have hU_q : (admitPhase (rrExec quantum s i rest)).readyQueue =
      rest ++ List.range' s.processIndex (admitCount (rrExec quantum s i rest)) := by
    rw [admitPhase_readyQueue, hE_q, hE_idx]
  have hU_t : (admitPhase (rrExec quantum s i rest)).currentTime =
      s.currentTime + min quantum (pget s i).remaining_time := by
    rw [admitPhase_currentTime, hE_t]
  have hU_comp : (admitPhase (rrExec quantum s i rest)).completed = s.completed := by
    rw [admitPhase_completed, hE_comp]
  have hU_cur : (admitPhase (rrExec quantum s i rest)).currentProcess = s.currentProcess := by
    rw [admitPhase_currentProcess, hE_cur]
  have hU_g : (admitPhase (rrExec quantum s i rest)).ganttData =
      s.ganttData ++ [(s.currentTime, (pget s i).process_id, min quantum (pget s i).remaining_time)] := by
    rw [admitPhase_ganttData, hE_g]
  have hU_idle : (admitPhase (rrExec quantum s i rest)).idleCount = s.idleCount := by
    rw [admitPhase_idleCount, hE_idle]
  have hEidxle : (rrExec quantum s i rest).processIndex ≤ (rrExec quantum s i rest).procs.length := by
    rw [hE_idx, hE_len]
    exact inv.hidx
  have hU_idxle : s.processIndex + admitCount (rrExec quantum s i rest) ≤ s.procs.length := by
    have := admitCount_add_le (rrExec quantum s i rest) hEidxle
    rw [hE_idx, hE_len] at this
    exact this
  have hUi : pget (admitPhase (rrExec quantum s i rest)) i =
      { startP (pget s i) s.currentTime with
        state := PState.RUNNING,
        remaining_time := (pget s i).remaining_time - min quantum (pget s i).remaining_time } := by
    rw [admitPhase_pget_out _ _ (Or.inl (by rw [hE_idx]; exact hiidx)), hpgEi]
  have hUout : ∀ j, j ≠ i → j < s.processIndex ∨
      s.processIndex + admitCount (rrExec quantum s i rest) ≤ j →
      pget (admitPhase (rrExec quantum s i rest)) j = pget s j := by
    intro j hj hr
    rw [admitPhase_pget_out _ _ (by rw [hE_idx]; exact hr), hpgEne j hj]
  have hUadm : ∀ j, s.processIndex ≤ j →
      j < s.processIndex + admitCount (rrExec quantum s i rest) →
      pget (admitPhase (rrExec quantum s i rest)) j = { pget s j with state := PState.READY } ∧
      (pget s j).arrival_time ≤ s.currentTime + min quantum (pget s i).remaining_time := by
    intro j h1 h2
    have hji : j ≠ i := by omega
    have hjlen : j < s.procs.length := by omega
    constructor
    · rw [admitPhase_pget_admitted _ _ (by rw [hE_idx]; exact h1) (by rw [hE_idx]; exact h2)
        (by rw [hE_len]; exact hjlen), hpgEne j hji]
    · have := admitPhase_admitted_arrival (rrExec quantum s i rest) j
        (by rw [hE_idx]; exact h1) (by rw [hE_idx]; exact h2)
      rw [hpgEne j hji, hE_t] at this
      exact this
  refine ⟨?_, ?_, ?_, ?_, ?_, ?_, ?_, ?_, ?_, ?_, ?_, ?_, ?_, ?_, ?_, ?_, ?_, ?_, ?_, ?_, ?_⟩
  · rw [hU_len]; exact inv.hlen
  · intro j
    rw [admitPhase_pget_id]
    by_cases hj : j = i
    · subst hj
      rw [hpgEi]
      simp only [startP_process_id]
      exact inv.hid j
    · rw [hpgEne j hj]
      exact inv.hid j
  · intro j
    rw [admitPhase_pget_arrival]
    by_cases hj : j = i
    · subst hj
      rw [hpgEi]
      simp only [startP_arrival]
      exact inv.harr j
    · rw [hpgEne j hj]
      exact inv.harr j
  · intro j
    rw [admitPhase_pget_burst]
    by_cases hj : j = i
    · subst hj
      rw [hpgEi]
      simp only [startP_burst]
      exact inv.hburst j
    · rw [hpgEne j hj]
      exact inv.hburst j
  · rw [hU_idx, hU_len]
    exact hU_idxle
  · intro k hk
    rw [hU_idx] at hk
    rw [hU_t]
    by_cases hki : k = i
    · subst hki
      rw [hUi]
      simp only [startP_arrival]
      have := inv.hidxArr k hiidx
      omega
    · by_cases hkidx : k < s.processIndex
      · rw [hUout k hki (Or.inl hkidx)]
        have := inv.hidxArr k hkidx
        omega
      · have hadm := hUadm k (by omega) hk
        rw [hadm.1]
        exact hadm.2
  · intro k h1 h2
    rw [hU_idx] at h1
    rw [hU_len] at h2
    have hki : k ≠ i := by omega
    rw [hUout k hki (Or.inr h1)]
    exact inv.hstate k (by omega) h2
  · intro j
    rw [hU_q, hU_idx, hU_cur, List.mem_append, List.mem_range'_1]
    constructor
    · rintro (hj | hj)
      · have hjq : j ∈ s.readyQueue := by rw [hcons]; exact List.mem_cons_of_mem _ hj
        obtain ⟨h1, h2, h3⟩ := (inv.hqmem j).mp hjq
        have hji : j ≠ i := by rintro rfl; exact hirest hj
        rw [hUout j hji (Or.inl h1)]
        exact ⟨by omega, h2, h3, hji⟩
      · have hji : j ≠ i := by omega
        refine ⟨by omega, ?_, ?_, hji⟩
        · rw [(hUadm j hj.1 hj.2).1]
          simp
        · intro hc
          obtain ⟨hc1, _, _, _⟩ := inv.hcur j hc
          omega
    · rintro ⟨h1, h2, h3, h4⟩
      by_cases hj : j < s.processIndex
      · left
        rw [hUout j h4 (Or.inl hj)] at h2
        have := (inv.hqmem j).mpr ⟨hj, h2, h3⟩
        rw [hcons] at this
        rcases List.mem_cons.mp this with h | h
        · exact absurd h h4
        · exact h
      · right; omega
  · rw [hU_q, List.nodup_append]
    refine ⟨hrnd, List.nodup_range' _ _, ?_⟩
    intro a ha ha2
    rw [List.mem_range'_1] at ha2
    have hjq : a ∈ s.readyQueue := by rw [hcons]; exact List.mem_cons_of_mem _ ha
    have := ((inv.hqmem a).mp hjq).1
    omega
  · intro j
    rw [hU_comp, hU_len]
    rw [inv.hcmem j]
    by_cases hj : j = i
    · subst hj
      rw [hUi]
      constructor
      · rintro ⟨h1, h2⟩
        exact absurd h2 histate
      · rintro ⟨h1, h2⟩
        rw [show ({ startP (pget s j) s.currentTime with
          state := PState.RUNNING,
          remaining_time := (pget s j).remaining_time - min quantum (pget s j).remaining_time } : Process).state = PState.RUNNING from rfl] at h2
        cases h2
    · by_cases hr : s.processIndex ≤ j ∧ j < s.processIndex + admitCount (rrExec quantum s i rest)
      · rw [(hUadm j hr.1 hr.2).1]
        have hNEW := inv.hstate j hr.1 (by omega)
        constructor
        · rintro ⟨h1, h2⟩
          rw [hNEW] at h2
          cases h2
        · rintro ⟨h1, h2⟩
          rw [show ({ pget s j with state := PState.READY } : Process).state = PState.READY from rfl] at h2
          cases h2
      · rw [hUout j hj (by omega)]
  · rw [hU_comp]
    exact inv.hcnd
  · intro j hj
    rw [hU_comp] at hj
    have hterm := ((inv.hcmem j).mp hj).2
    have hji : j ≠ i := by rintro rfl; exact histate hterm
    have hout : j < s.processIndex ∨
        s.processIndex + admitCount (rrExec quantum s i rest) ≤ j := by
      by_contra hcon
      push_neg at hcon
      have := inv.hstate j (by omega) ((inv.hcmem j).mp hj).1
      rw [this] at hterm
      cases hterm
    rw [hUout j hji hout, hU_t]
    obtain ⟨t, h1, h2, h3⟩ := inv.hdone j hj
    exact ⟨t, h1, by omega, h3⟩
  · intro j h1 h2
    rw [hU_len] at h1
    rw [hU_comp] at h2
    by_cases hj : j = i
    · subst hj
      rw [hUi]
      simp only [startP_completion, startP_completionWrites]
      exact inv.hnotdone j h1 h2
    · by_cases hr : s.processIndex ≤ j ∧ j < s.processIndex + admitCount (rrExec quantum s i rest)
      · rw [(hUadm j hr.1 hr.2).1]
        exact inv.hnotdone j h1 h2
      · rw [hUout j hj (by omega)]
        exact inv.hnotdone j h1 h2
  · intro j h1 hji
    rw [hU_len] at h1
    have hold := inv.hrem j h1
    rw [if_pos rfl] at hold
    by_cases hr : s.processIndex ≤ j ∧ j < s.processIndex + admitCount (rrExec quantum s i rest)
    · rw [(hUadm j hr.1 hr.2).1]
      have hNEW := inv.hstate j hr.1 h1
      constructor
      · intro h2
        rw [show ({ pget s j with state := PState.READY } : Process).state = PState.READY from rfl] at h2
        cases h2
      · intro _
        exact hold.2 (by rw [hNEW]; simp)
    · rw [hUout j hji (by omega)]
      exact hold
  · intro c hc
    rw [hU_cur] at hc
    obtain ⟨h1, h2, h3, h4⟩ := inv.hcur c hc
    have hci : c ≠ i := by rintro rfl; exact hicur hc
    rw [hU_idx, hUout c hci (Or.inl h1)]
    exact ⟨by omega, h2, h3, h4, hci⟩
  · rw [hU_g, hU_t, hU_idle]
    unfold sliceDurSum
    rw [List.map_append, List.sum_append]
    have := inv.hclock
    unfold sliceDurSum at this
    simp only [List.map_cons, List.map_nil, List.sum_cons, List.sum_nil]
    omega
  · intro j h1 hji
    rw [hU_len] at h1
    have hpidU : (pget (admitPhase (rrExec quantum s i rest)) j).process_id
        = (pget s j).process_id := by
      rw [admitPhase_pget_id, hpgEne j hji]
    have hsl : slicesOf (admitPhase (rrExec quantum s i rest)) j = slicesOf s j := by
      refine slicesOf_append_ne s _ j s.currentTime ((pget s i).process_id)
        (min quantum (pget s i).remaining_time) hU_g hpidU ?_
      exact hpid i j hilen h1 (fun h => hji h.symm)
    by_cases hr : s.processIndex ≤ j ∧ j < s.processIndex + admitCount (rrExec quantum s i rest)
    · rw [(hUadm j hr.1 hr.2).1, hsl]
      exact inv.hstart j h1
    · rw [hUout j hji (by omega), hsl]
      exact inv.hstart j h1
  · have hslI : slicesOf (admitPhase (rrExec quantum s i rest)) i =
        slicesOf s i ++ [(s.currentTime, (pget s i).process_id, min quantum (pget s i).remaining_time)] := by
      refine slicesOf_append_eq s _ i s.currentTime (min quantum (pget s i).remaining_time) hU_g ?_
      rw [hUi]
      simp only [startP_process_id]
    rcases inv.hstart i hilen with ⟨hs1, hs2, hs3, hs4⟩ | ⟨t, hs1, hs2, hs3, d, r, hs4⟩
    · have hsp := startP_of_none (pget s i) s.currentTime hs1
      refine ⟨s.currentTime, ?_, ?_, ?_, min quantum (pget s i).remaining_time, [], ?_⟩
      · rw [hUi, hsp]
      · rw [hUi, hsp]
        show (pget s i).startWrites + 1 = 1
        rw [hs2]
      · rw [hUi, hsp]
      · rw [hslI, hs4, hUi]
        simp only [startP_process_id]
        rfl
    · have hsp := startP_of_some (pget s i) s.currentTime (by rw [hs1]; simp)
      refine ⟨t, ?_, ?_, ?_, d,
        r ++ [(s.currentTime, (pget s i).process_id, min quantum (pget s i).remaining_time)], ?_⟩
      · rw [hUi, hsp]
        exact hs1
      · rw [hUi, hsp]
        exact hs2
      · rw [hUi, hsp]
        show (pget s i).response_time = some ((t : Int) - ((pget s i).arrival_time : Int))
        exact hs3
      · rw [hslI, hs4, hUi, hsp, List.cons_append]
  · rw [hUi]
    intro hcon
    rw [show ({ startP (pget s i) s.currentTime with
      state := PState.RUNNING,
      remaining_time := (pget s i).remaining_time - min quantum (pget s i).remaining_time } : Process).state = PState.RUNNING from rfl] at hcon
    cases hcon
  · rw [hU_idx]
    omega
  · rw [hU_comp]
    exact hinc

/-- One Round-Robin selection/execution phase preserves the invariant. -/
theorem SimInv_rrSelect (ps0 : List Process) (hv : validInput ps0) (quantum : Nat)
    (s : SimState) (inv : SimInv ps0 true s)
    (hmore : s.completed.length < s.procs.length) :
    SimInv ps0 true (rrSelect quantum s) := by
  cases hcl : s.readyQueue with
  | nil =>
    have hsel : rrSelect quantum s = idleAdvance s := by
      unfold rrSelect
      rw [if_pos hcl]
    rw [hsel]
    exact SimInv_idleAdvance ps0 true s inv hmore
  | cons i rest =>
    have m := RRMid_of ps0 hv quantum s inv i rest hcl
    have hsel : rrSelect quantum s =
        (if (pget (admitPhase (rrExec quantum s i rest)) i).remaining_time = 0 then
          { admitPhase (rrExec quantum s i rest) with
              procs := (admitPhase (rrExec quantum s i rest)).procs.set i
                (finishP (pget (admitPhase (rrExec quantum s i rest)) i)
                  (admitPhase (rrExec quantum s i rest)).currentTime),
              completed := (admitPhase (rrExec quantum s i rest)).completed ++ [i] }
        else
          { admitPhase (rrExec quantum s i rest) with
              procs := (admitPhase (rrExec quantum s i rest)).procs.set i
                { pget (admitPhase (rrExec quantum s i rest)) i with state := PState.READY },
              readyQueue := (admitPhase (rrExec quantum s i rest)).readyQueue ++ [i],
              preemptions := (admitPhase (rrExec quantum s i rest)).preemptions ++
                [((admitPhase (rrExec quantum s i rest)).currentTime,
                  (pget (admitPhase (rrExec quantum s i rest)) i).process_id)] }) := by
      unfold rrSelect
      rw [if_neg (by rw [hcl]; simp), hcl]
      rfl
    rw [hsel]
    by_cases hr0 : (pget (admitPhase (rrExec quantum s i rest)) i).remaining_time = 0
    · rw [if_pos hr0]
      exact SimInv_rrFinish ps0 hv _ i m hr0
    · rw [if_neg hr0]
      exact SimInv_rrRequeue ps0 hv _ i m (Nat.pos_of_ne_zero hr0)

/-- The FCFS selection/execution phase preserves the invariant. -/
theorem SimInv_fcfsSelect (ps0 : List Process) (hv : validInput ps0) (s : SimState)
    (inv : SimInv ps0 false s) (hmore : s.completed.length < s.procs.length) :
    SimInv ps0 false (fcfsSelect s) := by
  cases hcl : s.readyQueue with
  | nil =>
    have hsel : fcfsSelect s = idleAdvance s := by
      unfold fcfsSelect
      rw [if_pos hcl]
    rw [hsel]
    exact SimInv_idleAdvance ps0 false s inv hmore
  | cons i rest =>
    have hsel : fcfsSelect s = nonPreExec s i rest := by
      unfold fcfsSelect
      rw [if_neg (by rw [hcl]; simp), hcl]
      rfl
    rw [hsel]
    refine SimInv_nonPreExec ps0 hv s inv i rest ?_
    rw [hcl]

/-- The SJF selection/execution phase preserves the invariant. -/
theorem SimInv_sjfSelect (ps0 : List Process) (hv : validInput ps0) (s : SimState)
    (inv : SimInv ps0 false s) (hmore : s.completed.length < s.procs.length) :
    SimInv ps0 false (sjfSelect s) := by
  by_cases hne : s.readyQueue = []
  · have hsel : sjfSelect s = idleAdvance s := by
      unfold sjfSelect
      rw [if_pos hne]
    rw [hsel]
    exact SimInv_idleAdvance ps0 false s inv hmore
  · obtain ⟨i, rest, hq⟩ : ∃ i rest,
        sortQueue (fun j => (pget s j).burst_time) s.readyQueue = i :: rest := by
      cases hqq : sortQueue (fun j => (pget s j).burst_time) s.readyQueue with
      | nil => exact absurd ((sortQueue_eq_nil_iff _ _).mp hqq) hne
      | cons a l => exact ⟨a, l, rfl⟩
    have hsel : sjfSelect s = nonPreExec s i rest := by
      unfold sjfSelect
      rw [if_neg hne, hq]
      rfl
    rw [hsel]
    refine SimInv_nonPreExec ps0 hv s inv i rest ?_
    have hp := sortQueue_perm (fun j => (pget s j).burst_time) s.readyQueue
    rw [hq] at hp
    exact hp.symm

/-- The non-preemptive priority selection/execution phase preserves the
invariant. -/
theorem SimInv_prioSelectNP (ps0 : List Process) (hv : validInput ps0) (s : SimState)
    (inv : SimInv ps0 false s) (hmore : s.completed.length < s.procs.length) :
    SimInv ps0 false (prioSelect false s) := by
  by_cases hne : s.readyQueue = []
  · have hsel : prioSelect false s = idleAdvance s := by
      unfold prioSelect
      rw [if_pos hne]
      rfl
    rw [hsel]
    exact SimInv_idleAdvance ps0 false s inv hmore
  · obtain ⟨i, rest, hq⟩ : ∃ i rest,
        sortQueue (fun j => (pget s j).priority) s.readyQueue = i :: rest := by
      cases hqq : sortQueue (fun j => (pget s j).priority) s.readyQueue with
      | nil => exact absurd ((sortQueue_eq_nil_iff _ _).mp hqq) hne
      | cons a l => exact ⟨a, l, rfl⟩
    have hsel : prioSelect false s = nonPreExec s i rest := by
      unfold prioSelect
      rw [if_neg hne, hq]
      rfl
    rw [hsel]
    refine SimInv_nonPreExec ps0 hv s inv i rest ?_
    have hp := sortQueue_perm (fun j => (pget s j).priority) s.readyQueue
    rw [hq] at hp
    exact hp.symm

/-- One FCFS loop iteration preserves the invariant. -/
theorem SimInv_fcfsStep (ps0 : List Process) (hv : validInput ps0) (s0 : SimState)
    (inv : SimInv ps0 false s0) (hcond : moreToRun s0 = true) :
    SimInv ps0 false (fcfsStep s0) := by
  have inv3 : SimInv ps0 false (recordPhase (admitPhase s0)) :=
    SimInv_recordPhase ps0 false _ (SimInv_admitPhase ps0 false s0 inv)
  have h0 : s0.completed.length < s0.procs.length := by
    unfold moreToRun at hcond
    exact of_decide_eq_true hcond
  have hmore : (recordPhase (admitPhase s0)).completed.length <
      (recordPhase (admitPhase s0)).procs.length := by
    show (admitPhase s0).completed.length < (admitPhase s0).procs.length
    rw [admitPhase_completed, admitPhase_procs_length]
    exact h0
  exact SimInv_fcfsSelect ps0 hv _ inv3 hmore

/-- One SJF loop iteration preserves the invariant. -/
theorem SimInv_sjfStep (ps0 : List Process) (hv : validInput ps0) (s0 : SimState)
    (inv : SimInv ps0 false s0) (hcond : moreToRun s0 = true) :
    SimInv ps0 false (sjfStep s0) := by
  have inv3 : SimInv ps0 false (recordPhase (admitPhase s0)) :=
    SimInv_recordPhase ps0 false _ (SimInv_admitPhase ps0 false s0 inv)
  have h0 : s0.completed.length < s0.procs.length := by
    unfold moreToRun at hcond
    exact of_decide_eq_true hcond
  have hmore : (recordPhase (admitPhase s0)).completed.length <
      (recordPhase (admitPhase s0)).procs.length := by
    show (admitPhase s0).completed.length < (admitPhase s0).procs.length
    rw [admitPhase_completed, admitPhase_procs_length]
    exact h0
  exact SimInv_sjfSelect ps0 hv _ inv3 hmore

/-- One non-preemptive priority loop iteration preserves the invariant. -/
theorem SimInv_prioStepNP (ps0 : List Process) (hv : validInput ps0) (s0 : SimState)
    (inv : SimInv ps0 false s0) (hcond : prioCond false s0 = true) :
    SimInv ps0 false (priorityStep false s0) := by
  have inv3 : SimInv ps0 false (recordPhase (admitPhase s0)) :=
    SimInv_recordPhase ps0 false _ (SimInv_admitPhase ps0 false s0 inv)
  have h0 : s0.completed.length < s0.procs.length := by
    unfold prioCond at hcond
    simp only [Bool.false_and, Bool.or_false] at hcond
    unfold moreToRun at hcond
    exact of_decide_eq_true hcond
  have hmore : (recordPhase (admitPhase s0)).completed.length <
      (recordPhase (admitPhase s0)).procs.length := by
    show (admitPhase s0).completed.length < (admitPhase s0).procs.length
    rw [admitPhase_completed, admitPhase_procs_length]
    exact h0
  have hstep : priorityStep false s0 = prioSelect false (recordPhase (admitPhase s0)) := rfl
  rw [hstep]
  exact SimInv_prioSelectNP ps0 hv _ inv3 hmore

/-- One Round-Robin loop iteration preserves the invariant. -/
theorem SimInv_rrStep (ps0 : List Process) (hv : validInput ps0) (quantum : Nat) (s0 : SimState)
    (inv : SimInv ps0 true s0) (hcond : moreToRun s0 = true) :
    SimInv ps0 true (rrStep quantum s0) := by
  have inv3 : SimInv ps0 true (recordPhase (admitPhase s0)) :=
    SimInv_recordPhase ps0 true _ (SimInv_admitPhase ps0 true s0 inv)
  have h0 : s0.completed.length < s0.procs.length := by
    unfold moreToRun at hcond
    exact of_decide_eq_true hcond
  have hmore : (recordPhase (admitPhase s0)).completed.length <
      (recordPhase (admitPhase s0)).procs.length := by
    show (admitPhase s0).completed.length < (admitPhase s0).procs.length
    rw [admitPhase_completed, admitPhase_procs_length]
    exact h0
  exact SimInv_rrSelect ps0 hv quantum _ inv3 hmore

/-- SRTF selection/execution on a nonempty-queue selection-point state:
whatever the current process is, the invariant is re-established. -/
theorem SimInv_srtfSelectPre (ps0 : List Process) (hv : validInput ps0) (s : SimState)
    (pre : PreExec ps0 s)
    (hcurs : ∀ c, s.currentProcess = some c →
        c < s.processIndex ∧ (pget s c).state ≠ PState.TERMINATED ∧
        (pget s c).start_time ≠ none)
    (hne : s.readyQueue ≠ []) :
    SimInv ps0 true (srtfSelect s) := by
  obtain ⟨i, rest, hq⟩ : ∃ i rest,
      sortQueue (fun j => (pget s j).remaining_time) s.readyQueue = i :: rest := by
    cases hqq : sortQueue (fun j => (pget s j).remaining_time) s.readyQueue with
    | nil => exact absurd ((sortQueue_eq_nil_iff _ _).mp hqq) hne
    | cons a l => exact ⟨a, l, rfl⟩
  have hiq : i ∈ s.readyQueue := by
    refine (mem_sortQueue (fun j => (pget s j).remaining_time) _ i).mp ?_
    rw [hq]
    simp
  obtain ⟨hiidx, histate⟩ := (pre.hqmemF i).mp hiq
  have hperm : List.Perm s.readyQueue (i :: rest) := by
    have hp := sortQueue_perm (fun j => (pget s j).remaining_time) s.readyQueue
    rw [hq] at hp
    exact hp.symm
  by_cases hcur : s.currentProcess = some i
  · obtain ⟨_, _, hstartne⟩ := hcurs i hcur
    have hsel : srtfSelect s = unitExec s i rest := by
      unfold srtfSelect
      rw [if_neg hne]
      simp only [hq, List.headD_cons, List.tail_cons]
      rw [if_pos hcur]
    rw [hsel]
    exact SimInv_unitExecER ps0 hv s i
      (ExecReady_same ps0 s i pre hiidx histate hstartne) rest hperm
  · cases hc : s.currentProcess with
    | none =>
      have hsel : srtfSelect s = runUnit s i rest := by
        unfold srtfSelect
        rw [if_neg hne]
        simp only [hq, List.headD_cons, List.tail_cons]
        rw [hc]
        rw [if_neg (fun h => Option.noConfusion h)]
      rw [hsel]
      exact SimInv_runUnit ps0 hv s pre i rest hperm hiidx histate
    | some c =>
      obtain ⟨hcidx, hcterm, _⟩ := hcurs c hc
      have hci : c ≠ i := by rintro rfl; exact hcur hc
      have hsel : srtfSelect s =
          runUnit { s with procs := s.procs.set c { pget s c with state := PState.READY } }
            i rest := by
        unfold srtfSelect
        rw [if_neg hne]
        simp only [hq, List.headD_cons, List.tail_cons]
        rw [hc]
        rw [if_neg (fun h => hci (Option.some.inj h))]
      rw [hsel]
      refine SimInv_runUnit ps0 hv _
        (PreExec_setREADY ps0 s c pre hcidx hcterm) i rest ?_ ?_ ?_
      · exact hperm
      · exact hiidx
      · rw [pget_set_other s c _ i (fun h => hci h.symm)]
        exact histate

/-- One SRTF loop iteration preserves the invariant. -/
theorem SimInv_srtfStep (ps0 : List Process) (hv : validInput ps0) (s0 : SimState)
    (inv : SimInv ps0 true s0) (hcond : srtfCond s0 = true) :
    SimInv ps0 true (srtfStep s0) := by
  have inv1 : SimInv ps0 true (admitPhase s0) := SimInv_admitPhase ps0 true s0 inv
  cases hc0 : s0.currentProcess with
  | none =>
    have hc1 : (admitPhase s0).currentProcess = none := hc0
    have hre : srtfReappend (admitPhase s0) = admitPhase s0 := by
      unfold srtfReappend
      rw [hc1]
    have hstep : srtfStep s0 = srtfSelect (recordPhase (admitPhase s0)) := by
      unfold srtfStep
      rw [hre]
    rw [hstep]
    have pre3 : PreExec ps0 (recordPhase (admitPhase s0)) :=
      PreExec_recordPhase ps0 _ (PreExec_of_none ps0 _ inv1 hc1)
    by_cases hne : (recordPhase (admitPhase s0)).readyQueue = []
    · have hmore : s0.completed.length < s0.procs.length := by
        unfold srtfCond at hcond
        rw [hc0] at hcond
        simp only [Option.isSome_none, Bool.or_false] at hcond
        unfold moreToRun at hcond
        exact of_decide_eq_true hcond
      have hsel : srtfSelect (recordPhase (admitPhase s0)) =
          { idleAdvance (recordPhase (admitPhase s0)) with currentProcess := none } := by
        unfold srtfSelect
        rw [if_pos hne]
      rw [hsel]
      refine SimInv_idleNone ps0 true _ (SimInv_recordPhase ps0 true _ inv1) ?_ hc1
      show (admitPhase s0).completed.length < (admitPhase s0).procs.length
      rw [admitPhase_completed, admitPhase_procs_length]
      exact hmore
    · refine SimInv_srtfSelectPre ps0 hv _ pre3 ?_ hne
      intro c' hc'
      have hcc : s0.currentProcess = some c' := hc'
      rw [hc0] at hcc
      exact Option.noConfusion hcc
  | some c =>
    have hc1 : (admitPhase s0).currentProcess = some c := hc0
    obtain ⟨hcidx, hcrem, hcterm, hcstart⟩ := inv1.hcur c hc1
    have hclen : c < (admitPhase s0).procs.length := lt_of_lt_of_le hcidx inv1.hidx
    have hre : srtfReappend (admitPhase s0) =
        { admitPhase s0 with
            procs := (admitPhase s0).procs.set c
              { pget (admitPhase s0) c with state := PState.READY },
            readyQueue := (admitPhase s0).readyQueue ++ [c] } := by
      unfold srtfReappend
      rw [hc1]
      dsimp only
      rw [if_pos hcrem, hc1]
    have hstep : srtfStep s0 =
        srtfSelect (recordPhase (srtfReappend (admitPhase s0))) := rfl
    rw [hstep, hre]
    have pre2 : PreExec ps0 { admitPhase s0 with
        procs := (admitPhase s0).procs.set c
          { pget (admitPhase s0) c with state := PState.READY },
        readyQueue := (admitPhase s0).readyQueue ++ [c] } :=
      PreExec_reappend_aux ps0 (admitPhase s0) inv1 c hc1 _
        (Or.inl rfl) rfl rfl rfl rfl rfl rfl
    have pre3 := PreExec_recordPhase ps0 _ pre2
    have hpgc : pget (recordPhase { admitPhase s0 with
        procs := (admitPhase s0).procs.set c
          { pget (admitPhase s0) c with state := PState.READY },
        readyQueue := (admitPhase s0).readyQueue ++ [c] }) c =
        { pget (admitPhase s0) c with state := PState.READY } :=
      pget_set_at (admitPhase s0) c _ hclen
    refine SimInv_srtfSelectPre ps0 hv _ pre3 ?_ ?_
    · intro c' hc'
      have hcc : s0.currentProcess = some c' := hc'
      rw [hc0] at hcc
      have hcc2 : c' = c := (Option.some.inj hcc).symm
      subst hcc2
      refine ⟨hcidx, ?_, ?_⟩
      · rw [hpgc]
        intro h
        exact PState.noConfusion h
      · rw [hpgc]
        exact hcstart
    · show (admitPhase s0).readyQueue ++ [c] ≠ []
      simp

/-- Preemptive priority selection/execution on a nonempty-queue
selection-point state. -/
theorem SimInv_prioSelectPreP (ps0 : List Process) (hv : validInput ps0) (s : SimState)
    (pre : PreExec ps0 s) (hne : s.readyQueue ≠ []) :
    SimInv ps0 true (prioSelect true s) := by
  obtain ⟨i, rest, hq⟩ : ∃ i rest,
      sortQueue (fun j => (pget s j).priority) s.readyQueue = i :: rest := by
    cases hqq : sortQueue (fun j => (pget s j).priority) s.readyQueue with
    | nil => exact absurd ((sortQueue_eq_nil_iff _ _).mp hqq) hne
    | cons a l => exact ⟨a, l, rfl⟩
  have hiq : i ∈ s.readyQueue := by
    refine (mem_sortQueue (fun j => (pget s j).priority) _ i).mp ?_
    rw [hq]
    simp
  obtain ⟨hiidx, histate⟩ := (pre.hqmemF i).mp hiq
  have hperm : List.Perm s.readyQueue (i :: rest) := by
    have hp := sortQueue_perm (fun j => (pget s j).priority) s.readyQueue
    rw [hq] at hp
    exact hp.symm
  have hsel : prioSelect true s = runUnit s i rest := by
    unfold prioSelect
    rw [if_neg hne, hq]
    rfl
  rw [hsel]
  exact SimInv_runUnit ps0 hv s pre i rest hperm hiidx histate

/-- One preemptive priority loop iteration preserves the invariant. -/
theorem SimInv_prioStepP (ps0 : List Process) (hv : validInput ps0) (s0 : SimState)
    (inv : SimInv ps0 true s0) (hcond : prioCond true s0 = true) :
    SimInv ps0 true (priorityStep true s0) := by
  have inv1 : SimInv ps0 true (admitPhase s0) := SimInv_admitPhase ps0 true s0 inv
  have hstep : priorityStep true s0 =
      prioSelect true (recordPhase (prioReappend (admitPhase s0))) := rfl
  rw [hstep]
  cases hc0 : s0.currentProcess with
  | none =>
    have hc1 : (admitPhase s0).currentProcess = none := hc0
    have hre : prioReappend (admitPhase s0) = admitPhase s0 := by
      unfold prioReappend
      rw [hc1]
    rw [hre]
    by_cases hne : (recordPhase (admitPhase s0)).readyQueue = []
    · have hmore : s0.completed.length < s0.procs.length := by
        unfold prioCond at hcond
        rw [hc0] at hcond
        simp only [Option.isSome_none, Bool.and_false, Bool.or_false] at hcond
        unfold moreToRun at hcond
        exact of_decide_eq_true hcond
      have hsel : prioSelect true (recordPhase (admitPhase s0)) =
          { idleAdvance (recordPhase (admitPhase s0)) with currentProcess := none } := by
        unfold prioSelect
        rw [if_pos hne]
        rfl
      rw [hsel]
      refine SimInv_idleNone ps0 true _ (SimInv_recordPhase ps0 true _ inv1) ?_ hc1
      show (admitPhase s0).completed.length < (admitPhase s0).procs.length
      rw [admitPhase_completed, admitPhase_procs_length]
      exact hmore
    · exact SimInv_prioSelectPreP ps0 hv _
        (PreExec_recordPhase ps0 _ (PreExec_of_none ps0 _ inv1 hc1)) hne
  | some c =>
    have hc1 : (admitPhase s0).currentProcess = some c := hc0
    have hre : prioReappend (admitPhase s0) =
        { admitPhase s0 with readyQueue := (admitPhase s0).readyQueue ++ [c] } := by
      unfold prioReappend
      rw [hc1]
      dsimp only
      rw [hc1]
    rw [hre]
    have pre2 : PreExec ps0
        { admitPhase s0 with readyQueue := (admitPhase s0).readyQueue ++ [c] } :=
      PreExec_reappend_aux ps0 (admitPhase s0) inv1 c hc1 _
        (Or.inr rfl) rfl rfl rfl rfl rfl rfl
    refine SimInv_prioSelectPreP ps0 hv _ (PreExec_recordPhase ps0 _ pre2) ?_
    show (admitPhase s0).readyQueue ++ [c] ≠ []
    simp

/-- The fuel-bounded while-driver preserves the invariant whenever the
one-step body does under the loop condition. -/
theorem SimInv_simLoop (ps0 : List Process) (pm : Bool) (step : SimState → SimState)
    (cond : SimState → Bool)
    (hstep : ∀ s, SimInv ps0 pm s → cond s = true → SimInv ps0 pm (step s)) :
    ∀ (n : Nat) (s : SimState), SimInv ps0 pm s → SimInv ps0 pm (simLoop step cond n s) := by
  intro n
  induction n with
  | zero =>
    intro s h
    exact h
  | succ k ih =>
    intro s h
    unfold simLoop
    by_cases hc : cond s = true
    · rw [if_pos hc]
      exact ih _ (hstep s h hc)
    · rw [if_neg hc]
      exact h

/-- The state produced by `run_simulation` on a valid input satisfies the
loop invariant of its policy. -/
theorem SimInv_run (pol : Policy) (quantum fuel : Nat) (ps0 : List Process)
    (hv : validInput ps0) :
    SimInv ps0 pol.preemptiveRem (run_simulation pol quantum fuel ps0) := by
  cases pol with
  | fcfs =>
    exact SimInv_simLoop ps0 false fcfsStep moreToRun
      (fun s h hc => SimInv_fcfsStep ps0 hv s h hc) fuel _ (SimInv_init ps0 false hv)
  | sjf =>
    exact SimInv_simLoop ps0 false sjfStep moreToRun
      (fun s h hc => SimInv_sjfStep ps0 hv s h hc) fuel _ (SimInv_init ps0 false hv)
  | srtf =>
    exact SimInv_simLoop ps0 true srtfStep srtfCond
      (fun s h hc => SimInv_srtfStep ps0 hv s h hc) fuel _ (SimInv_init ps0 true hv)
  | rr =>
    exact SimInv_simLoop ps0 true (rrStep quantum) moreToRun
      (fun s h hc => SimInv_rrStep ps0 hv quantum s h hc) fuel _ (SimInv_init ps0 true hv)
  | priority =>
    exact SimInv_simLoop ps0 false (priorityStep false) (prioCond false)
      (fun s h hc => SimInv_prioStepNP ps0 hv s h hc) fuel _ (SimInv_init ps0 false hv)
  | priority_preemptive =>
    exact SimInv_simLoop ps0 true (priorityStep true) (prioCond true)
      (fun s h hc => SimInv_prioStepP ps0 hv s h hc) fuel _ (SimInv_init ps0 true hv)

/-! ## Claim theorems -/

/-- C1 (amended): on a run of any policy in which every process completed,
every process ends in state TERMINATED with `completion_time` assigned
exactly once; but `remaining_time` ends at 0 only under the policies that
execute by decrementing it (SRTF, Round Robin, preemptive priority) — the
non-preemptive policies never touch it, so it stays equal to `burst_time`. -/
theorem C1_terminated_completion_once (pol : Policy) (quantum fuel : Nat)
    (ps0 : List Process) (hv : validInput ps0)
    (hall : (run_simulation pol quantum fuel ps0).completed.length =
      (run_simulation pol quantum fuel ps0).procs.length) :
    ∀ i, i < ps0.length →
      (pget (run_simulation pol quantum fuel ps0) i).state = PState.TERMINATED ∧
      (pget (run_simulation pol quantum fuel ps0) i).completionWrites = 1 ∧
      (pol.preemptiveRem = true →
        (pget (run_simulation pol quantum fuel ps0) i).remaining_time = 0) ∧
      (pol.preemptiveRem = false →
        (pget (run_simulation pol quantum fuel ps0) i).remaining_time =
          (pget (run_simulation pol quantum fuel ps0) i).burst_time) := by
  intro i hi
  have inv := SimInv_run pol quantum fuel ps0 hv
  have hlen := inv.hlen
  have hilen : i < (run_simulation pol quantum fuel ps0).procs.length := by omega
  have hmem : i ∈ (run_simulation pol quantum fuel ps0).completed :=
    mem_of_nodup_length_ge _ _ inv.hcnd (fun x hx => ((inv.hcmem x).mp hx).1)
      (by omega) i hilen
  obtain ⟨t, hct, hle, hw⟩ := inv.hdone i hmem
  have hterm := ((inv.hcmem i).mp hmem).2
  have hr := inv.hrem i hilen
  refine ⟨hterm, hw, ?_, ?_⟩
  · intro hpm
    rw [hpm, if_pos rfl] at hr
    exact hr.1 hterm
  · intro hpm
    rw [hpm, if_neg (by simp)] at hr
    exact hr

/-- C1 witness: SRTF on `psC3` completes; the theorem instantiated at
process index 0. -/
theorem C1_witness :
    validInput psC3 ∧
    (run_simulation Policy.srtf 2 10 psC3).completed.length =
      (run_simulation Policy.srtf 2 10 psC3).procs.length ∧
    0 < psC3.length ∧
    ((pget (run_simulation Policy.srtf 2 10 psC3) 0).state = PState.TERMINATED ∧
     (pget (run_simulation Policy.srtf 2 10 psC3) 0).completionWrites = 1 ∧
     (Policy.srtf.preemptiveRem = true →
       (pget (run_simulation Policy.srtf 2 10 psC3) 0).remaining_time = 0) ∧
     (Policy.srtf.preemptiveRem = false →
       (pget (run_simulation Policy.srtf 2 10 psC3) 0).remaining_time =
         (pget (run_simulation Policy.srtf 2 10 psC3) 0).burst_time)) :=
  ⟨by decide, by decide, by decide,
   C1_terminated_completion_once Policy.srtf 2 10 psC3 (by decide) (by decide) 0 (by decide)⟩

/-- C1 counterexample to the claim as written: a completed FCFS run whose
only process ends TERMINATED with `remaining_time` still 5 (its burst),
not 0. -/
theorem C1_counterexample :
    (run_simulation Policy.fcfs 2 6 psC1).completed.length =
      (run_simulation Policy.fcfs 2 6 psC1).procs.length ∧
    (pget (run_simulation Policy.fcfs 2 6 psC1) 0).state = PState.TERMINATED ∧
    (pget (run_simulation Policy.fcfs 2 6 psC1) 0).remaining_time = 5 ∧
    (pget (run_simulation Policy.fcfs 2 6 psC1) 0).remaining_time ≠ 0 := by decide

/-- C2 (amended): key ties are broken by ready-queue (FIFO) position, not by
lowest process id: the head the stable sort pops is the leftmost queue
member of minimal key — every queue member before it has a strictly smaller
position only by virtue of a strictly larger key. -/
theorem C2_tiebreak_queue_order (s : SimState) (i : Nat) (rest : List Nat)
    (hq : sortQueue (fun j => (pget s j).burst_time) s.readyQueue = i :: rest) :
    ∃ pre suf, s.readyQueue = pre ++ i :: suf ∧
      (∀ k ∈ pre, (pget s i).burst_time < (pget s k).burst_time) ∧
      (∀ k ∈ suf, (pget s i).burst_time ≤ (pget s k).burst_time) := by
  have h1 : (sortQueue (fun j => (pget s j).burst_time) s.readyQueue).head? = some i := by
    rw [hq]
    rfl
  rw [sortQueue_head?_firstMin] at h1
  exact firstMin_spec _ _ i h1

/-- C2 witness: the theorem instantiated at the SJF state reached on `psC2`
after one iteration and the next admission (queue `[1, 2]`, tied bursts). -/
theorem C2_witness :
    sortQueue
        (fun j => (pget (recordPhase (admitPhase (simulate_sjf 1 (initState psC2)))) j).burst_time)
        (recordPhase (admitPhase (simulate_sjf 1 (initState psC2)))).readyQueue = 1 :: [2] ∧
    (∃ pre suf,
      (recordPhase (admitPhase (simulate_sjf 1 (initState psC2)))).readyQueue = pre ++ 1 :: suf ∧
      (∀ k ∈ pre,
        (pget (recordPhase (admitPhase (simulate_sjf 1 (initState psC2)))) 1).burst_time <
        (pget (recordPhase (admitPhase (simulate_sjf 1 (initState psC2)))) k).burst_time) ∧
      (∀ k ∈ suf,
        (pget (recordPhase (admitPhase (simulate_sjf 1 (initState psC2)))) 1).burst_time ≤
        (pget (recordPhase (admitPhase (simulate_sjf 1 (initState psC2)))) k).burst_time)) :=
  ⟨by decide,
   C2_tiebreak_queue_order (recordPhase (admitPhase (simulate_sjf 1 (initState psC2)))) 1 [2]
     (by decide)⟩

/-- C2 counterexample to the claim as written: on `psC2` under SJF, at the
second selection the queue holds index 1 (id 2) and index 2 (id 1) with
equal burst 4; the sort selects index 1, id 2 — not the lowest id 1 — and
the Gantt chart indeed runs id 2 before id 1. -/
theorem C2_counterexample :
    (recordPhase (admitPhase (simulate_sjf 1 (initState psC2)))).readyQueue = [1, 2] ∧
    (pget (recordPhase (admitPhase (simulate_sjf 1 (initState psC2)))) 1).burst_time =
      (pget (recordPhase (admitPhase (simulate_sjf 1 (initState psC2)))) 2).burst_time ∧
    (pget (recordPhase (admitPhase (simulate_sjf 1 (initState psC2)))) 1).process_id = 2 ∧
    (pget (recordPhase (admitPhase (simulate_sjf 1 (initState psC2)))) 2).process_id = 1 ∧
    (sortQueue
        (fun j => (pget (recordPhase (admitPhase (simulate_sjf 1 (initState psC2)))) j).burst_time)
        (recordPhase (admitPhase (simulate_sjf 1 (initState psC2)))).readyQueue).headD 0 = 1 ∧
    (simulate_sjf 2 (initState psC2)).ganttData.map (fun sl => sl.2.1) = [3, 2] := by decide

/-- C3 (amended): with the running process `c` re-appended at the tail of
the ready queue, SRTF keeps `c` on the CPU iff every other queued process
has strictly larger `remaining_time`; a tie therefore preempts `c` (the
tied process stands earlier in the queue and the sort is stable). -/
theorem C3_srtf_tie_preempts (s : SimState) (c : Nat) (q : List Nat)
    (hq : s.readyQueue = q ++ [c]) (hcq : c ∉ q) :
    ((sortQueue (fun j => (pget s j).remaining_time) s.readyQueue).head? = some c ↔
      ∀ j ∈ q, (pget s c).remaining_time < (pget s j).remaining_time) := by
  rw [sortQueue_head?_firstMin, hq]
  exact firstMin_last _ q c hcq

/-- C3 witness: the theorem instantiated at the SRTF decision point of
`psC3` after one iteration (queue `[1, 0]`, running process 0 at the
tail). -/
theorem C3_witness :
    (sortQueue
        (fun j => (pget (recordPhase (srtfReappend (admitPhase (simulate_srtf 1 (initState psC3))))) j).remaining_time)
        (recordPhase (srtfReappend (admitPhase (simulate_srtf 1 (initState psC3))))).readyQueue).head? = some 0 ↔
      ∀ j ∈ [1],
        (pget (recordPhase (srtfReappend (admitPhase (simulate_srtf 1 (initState psC3))))) 0).remaining_time <
        (pget (recordPhase (srtfReappend (admitPhase (simulate_srtf 1 (initState psC3))))) j).remaining_time :=
  C3_srtf_tie_preempts (recordPhase (srtfReappend (admitPhase (simulate_srtf 1 (initState psC3))))) 0 [1]
    (by decide) (by decide)

/-- C3 counterexample to the claim as written: on `psC3` the running
process (index 0) and the queued process (index 1) are tied at
`remaining_time = 2` at the second decision point, yet the CPU switches to
index 1 — a preemption on a tie. -/
theorem C3_counterexample :
    (simulate_srtf 1 (initState psC3)).currentProcess = some 0 ∧
    (recordPhase (srtfReappend (admitPhase (simulate_srtf 1 (initState psC3))))).readyQueue = [1, 0] ∧
    (pget (recordPhase (srtfReappend (admitPhase (simulate_srtf 1 (initState psC3))))) 0).remaining_time =
      (pget (recordPhase (srtfReappend (admitPhase (simulate_srtf 1 (initState psC3))))) 1).remaining_time ∧
    (simulate_srtf 2 (initState psC3)).currentProcess = some 1 := by decide

/-- C4: on a run of any policy in which every process completed, the sum of
the recorded Gantt slice durations plus the idle clock advances equals the
maximum `completion_time` over the completed processes (conservation of
time). -/
theorem C4_time_conservation (pol : Policy) (quantum fuel : Nat)
    (ps0 : List Process) (hv : validInput ps0) (hne : ps0 ≠ [])
    (hall : (run_simulation pol quantum fuel ps0).completed.length =
      (run_simulation pol quantum fuel ps0).procs.length) :
    sliceDurSum (run_simulation pol quantum fuel ps0).ganttData +
      (run_simulation pol quantum fuel ps0).idleCount =
    listMax ((completedProcs (run_simulation pol quantum fuel ps0)).map
      (fun p => p.completion_time.getD 0)) := by
  have inv := SimInv_run pol quantum fuel ps0 hv
  have hlen := inv.hlen
  have hpos : 0 < (run_simulation pol quantum fuel ps0).procs.length := by
    rw [hlen]
    cases ps0 with
    | nil => exact absurd rfl hne
    | cons a l => simp
  obtain ⟨iw, hiw, hciw⟩ := inv.hlast hpos (le_of_eq hall.symm)
  have hT : listMax ((completedProcs (run_simulation pol quantum fuel ps0)).map
      (fun p => p.completion_time.getD 0)) =
      (run_simulation pol quantum fuel ps0).currentTime := by
    refine listMax_eq _ _ ?_ ?_
    · unfold completedProcs
      rw [List.map_map]
      refine List.mem_map.mpr ⟨iw, hiw, ?_⟩
      show ((pget (run_simulation pol quantum fuel ps0) iw).completion_time).getD 0 = _
      rw [hciw]
      rfl
    · intro x hx
      unfold completedProcs at hx
      rw [List.map_map] at hx
      obtain ⟨j, hj, hxj⟩ := List.mem_map.mp hx
      obtain ⟨t, h1, h2, _⟩ := inv.hdone j hj
      rw [← hxj]
      show ((pget (run_simulation pol quantum fuel ps0) j).completion_time).getD 0 ≤ _
      rw [h1]
      exact h2
  rw [hT]
  exact inv.hclock

/-- C4 witness: the conservation equation on the completed FCFS run of
`psC1` (5 + 0 = 5). -/
theorem C4_witness :
    validInput psC1 ∧ psC1 ≠ [] ∧
    (run_simulation Policy.fcfs 2 6 psC1).completed.length =
      (run_simulation Policy.fcfs 2 6 psC1).procs.length ∧
    sliceDurSum (run_simulation Policy.fcfs 2 6 psC1).ganttData +
      (run_simulation Policy.fcfs 2 6 psC1).idleCount =
    listMax ((completedProcs (run_simulation Policy.fcfs 2 6 psC1)).map
      (fun p => p.completion_time.getD 0)) :=
  ⟨by decide, by decide, by decide,
   C4_time_conservation Policy.fcfs 2 6 psC1 (by decide) (by decide) (by decide)⟩

/-- C5: for every process of every policy, either it was never selected
(`start_time`, `response_time` unwritten, no Gantt slice) or `start_time`
was written exactly once (ghost `startWrites = 1`), `response_time` equals
`start_time - arrival_time`, and `start_time` is the start of the process's
first recorded slice — i.e. both were fixed at the first selection and
never reassigned across preemptions and re-selections. -/
theorem C5_start_response_once (pol : Policy) (quantum fuel : Nat)
    (ps0 : List Process) (hv : validInput ps0) (i : Nat) (hi : i < ps0.length) :
    ((pget (run_simulation pol quantum fuel ps0) i).start_time = none ∧
     (pget (run_simulation pol quantum fuel ps0) i).startWrites = 0 ∧
     (pget (run_simulation pol quantum fuel ps0) i).response_time = none ∧
     slicesOf (run_simulation pol quantum fuel ps0) i = []) ∨
    (∃ t, (pget (run_simulation pol quantum fuel ps0) i).start_time = some t ∧
      (pget (run_simulation pol quantum fuel ps0) i).startWrites = 1 ∧
      (pget (run_simulation pol quantum fuel ps0) i).response_time =
        some ((t : Int) - (((pget (run_simulation pol quantum fuel ps0) i).arrival_time : Int))) ∧
      ∃ d rest, slicesOf (run_simulation pol quantum fuel ps0) i =
        (t, (pget (run_simulation pol quantum fuel ps0) i).process_id, d) :: rest) := by
  have inv := SimInv_run pol quantum fuel ps0 hv
  have hlen := inv.hlen
  exact inv.hstart i (by omega)

/-- C5 witness: the theorem instantiated for process 0 of the SRTF run on
`psC3`, which is preempted and re-selected yet keeps one start write. -/
theorem C5_witness :
    validInput psC3 ∧ 0 < psC3.length ∧
    (((pget (run_simulation Policy.srtf 2 10 psC3) 0).start_time = none ∧
      (pget (run_simulation Policy.srtf 2 10 psC3) 0).startWrites = 0 ∧
      (pget (run_simulation Policy.srtf 2 10 psC3) 0).response_time = none ∧
      slicesOf (run_simulation Policy.srtf 2 10 psC3) 0 = []) ∨
     (∃ t, (pget (run_simulation Policy.srtf 2 10 psC3) 0).start_time = some t ∧
       (pget (run_simulation Policy.srtf 2 10 psC3) 0).startWrites = 1 ∧
       (pget (run_simulation Policy.srtf 2 10 psC3) 0).response_time =
         some ((t : Int) - (((pget (run_simulation Policy.srtf 2 10 psC3) 0).arrival_time : Int))) ∧
       ∃ d rest, slicesOf (run_simulation Policy.srtf 2 10 psC3) 0 =
         (t, (pget (run_simulation Policy.srtf 2 10 psC3) 0).process_id, d) :: rest)) :=
  ⟨by decide, by decide,
   C5_start_response_once Policy.srtf 2 10 psC3 (by decide) 0 (by decide)⟩

/-- C7: `show_results` returns no metrics ("no data") exactly on an empty
completed set, and otherwise reports CPU utilization
`min ((total burst / max completion) * 100) 100`, with the ratio replaced
by 0 when the maximum completion time is 0. -/
theorem C7_metrics_guard (completed : List Process) (ganttLen : Nat) :
    (completed.isEmpty = true → show_results completed ganttLen = none) ∧
    (completed.isEmpty = false →
      (show_results completed ganttLen).map (fun m => m.cpu_utilization) =
        some (min
          (if 0 < listMax (completed.map (fun p => p.completion_time.getD 0)) then
            (((completed.map (fun p => p.burst_time)).sum : ℚ) /
              (listMax (completed.map (fun p => p.completion_time.getD 0)) : ℚ)) * 100
           else 0) 100)) := by
  constructor
  · intro h
    unfold show_results
    rw [if_pos h]
  · intro h
    unfold show_results
    rw [if_neg (by rw [h]; simp)]
    rfl

/-- The average-waiting-time report of `show_results` on a nonempty
completed set is the mean of the recorded waiting times. -/
theorem show_results_avg_waiting (completed : List Process) (g : Nat)
    (h : completed.isEmpty = false) :
    (show_results completed g).map (fun m => m.avg_waiting_time) =
      some (meanQ (completed.map (fun p => (p.waiting_time : ℚ)))) := by
  unfold show_results
  rw [if_neg (by rw [h]; simp)]
  rfl

/-- The recorded waiting times of the SJF run on the demo set, in
completion order P1, P2, P4, P3. -/
theorem sjf_demo_waitings :
    (completedProcs (run_simulation Policy.sjf 2 10 psC8)).map
      (fun p => (p.waiting_time : ℚ)) = [(0 : ℚ), 7, 9, 15] := by
  have hw : (completedProcs (run_simulation Policy.sjf 2 10 psC8)).map
      (fun p => p.waiting_time) = [(0 : Int), 7, 9, 15] := by decide
  have hcomp : (completedProcs (run_simulation Policy.sjf 2 10 psC8)).map
      (fun p => (p.waiting_time : ℚ)) =
      ((completedProcs (run_simulation Policy.sjf 2 10 psC8)).map
        (fun p => p.waiting_time)).map (fun z : Int => (z : ℚ)) := by
    rw [List.map_map]
    rfl
  rw [hcomp, hw]
  norm_num

/-- C8 (amended): SJF on the spec's demo set runs the processes in the
order P1, P2, P4, P3 — but the average waiting time is 31/4 = 7.75, not
6.0. -/
theorem C8_sjf_demo_amended :
    (run_simulation Policy.sjf 2 10 psC8).ganttData.map (fun sl => sl.2.1) = [1, 2, 4, 3] ∧
    (show_results (completedProcs (run_simulation Policy.sjf 2 10 psC8))
        (run_simulation Policy.sjf 2 10 psC8).ganttData.length).map
      (fun m => m.avg_waiting_time) = some ((31 : ℚ) / 4) := by
  constructor
  · decide
  · rw [show_results_avg_waiting _ _ (by decide), sjf_demo_waitings]
    unfold meanQ
    norm_num

/-- C8 counterexample to the claim as written: the same run's average
waiting time is 31/4, which is not 6. -/
theorem C8_counterexample :
    (show_results (completedProcs (run_simulation Policy.sjf 2 10 psC8))
        (run_simulation Policy.sjf 2 10 psC8).ganttData.length).map
      (fun m => m.avg_waiting_time) ≠ some ((6 : ℚ)) := by
  rw [show_results_avg_waiting _ _ (by decide), sjf_demo_waitings]
  unfold meanQ
  norm_num

/-- C9: Round Robin with quantum 3 on the spec's demo set preempts P1 at
time 3, before P1's completion at time 19, and the slice durations
attributed to P1 sum to exactly 10. -/
theorem C9_rr_demo :
    (3, 1) ∈ (run_simulation Policy.rr 3 20 psC9).preemptions ∧
    (pget (run_simulation Policy.rr 3 20 psC9) 0).completion_time = some 19 ∧
    3 < 19 ∧
    sliceDurSum (slicesOf (run_simulation Policy.rr 3 20 psC9) 0) = 10 := by decide

/-- C10: in the preemptive policies the current process is re-appended to
the ready queue before the iteration's ready-queue-length sample is
recorded, so the sample counts the running process and equals the number
of admitted, non-terminated processes (`readyCount`), the one on the CPU
included — under both the SRTF re-queue and the preemptive-priority
re-queue. -/
theorem C10_sample_includes_running (ps0 : List Process) (hv : validInput ps0)
    (s0 : SimState) (inv : SimInv ps0 true s0) (c : Nat)
    (hc : s0.currentProcess = some c) :
    (c ∈ (srtfReappend (admitPhase s0)).readyQueue ∧
     (recordPhase (srtfReappend (admitPhase s0))).readyQueueData =
       s0.readyQueueData ++ [(srtfReappend (admitPhase s0)).readyQueue.length] ∧
     (srtfReappend (admitPhase s0)).readyQueue.length =
       readyCount (srtfReappend (admitPhase s0))) ∧
    (c ∈ (prioReappend (admitPhase s0)).readyQueue ∧
     (recordPhase (prioReappend (admitPhase s0))).readyQueueData =
       s0.readyQueueData ++ [(prioReappend (admitPhase s0)).readyQueue.length] ∧
     (prioReappend (admitPhase s0)).readyQueue.length =
       readyCount (prioReappend (admitPhase s0))) := by
  have inv1 : SimInv ps0 true (admitPhase s0) := SimInv_admitPhase ps0 true s0 inv
  have hc1 : (admitPhase s0).currentProcess = some c := hc
  obtain ⟨hcidx, hcrem, hcterm, hcstart⟩ := inv1.hcur c hc1
  have hreS : srtfReappend (admitPhase s0) =
      { admitPhase s0 with
          procs := (admitPhase s0).procs.set c
            { pget (admitPhase s0) c with state := PState.READY },
          readyQueue := (admitPhase s0).readyQueue ++ [c] } := by
    unfold srtfReappend
    rw [hc1]
    dsimp only
    rw [if_pos hcrem, hc1]
  have hreP : prioReappend (admitPhase s0) =
      { admitPhase s0 with readyQueue := (admitPhase s0).readyQueue ++ [c] } := by
    unfold prioReappend
    rw [hc1]
    dsimp only
    rw [hc1]
  have preS : PreExec ps0 (srtfReappend (admitPhase s0)) := by
    rw [hreS]
    exact PreExec_reappend_aux ps0 (admitPhase s0) inv1 c hc1 _
      (Or.inl rfl) rfl rfl rfl rfl rfl rfl
  have preP : PreExec ps0 (prioReappend (admitPhase s0)) := by
    rw [hreP]
    exact PreExec_reappend_aux ps0 (admitPhase s0) inv1 c hc1 _
      (Or.inr rfl) rfl rfl rfl rfl rfl rfl
  have hlenEq : ∀ u : SimState, PreExec ps0 u → u.readyQueue.length = readyCount u := by
    intro u pre
    unfold readyCount
    refine length_eq_filter_range u.readyQueue u.procs.length
      (fun j => j < u.processIndex ∧ (pget u j).state ≠ PState.TERMINATED) pre.hqnd ?_
    intro j
    rw [pre.hqmemF j]
    constructor
    · rintro ⟨h1, h2⟩
      exact ⟨lt_of_lt_of_le h1 pre.hidx, h1, h2⟩
    · rintro ⟨_, h1, h2⟩
      exact ⟨h1, h2⟩
  refine ⟨⟨?_, ?_, hlenEq _ preS⟩, ?_, ?_, hlenEq _ preP⟩
  · rw [hreS]
    simp
  · rw [hreS]
    rfl
  · rw [hreP]
    simp
  · rw [hreP]
    rfl

/-- C10 witness: the theorem instantiated after one SRTF iteration on
`psC3` (running process 0; both re-queue shapes sample length 2 =
`readyCount`). -/
theorem C10_witness :
    validInput psC3 ∧
    (simulate_srtf 1 (initState psC3)).currentProcess = some 0 ∧
    ((0 ∈ (srtfReappend (admitPhase (simulate_srtf 1 (initState psC3)))).readyQueue ∧
      (recordPhase (srtfReappend (admitPhase (simulate_srtf 1 (initState psC3))))).readyQueueData =
        (simulate_srtf 1 (initState psC3)).readyQueueData ++
          [(srtfReappend (admitPhase (simulate_srtf 1 (initState psC3)))).readyQueue.length] ∧
      (srtfReappend (admitPhase (simulate_srtf 1 (initState psC3)))).readyQueue.length =
        readyCount (srtfReappend (admitPhase (simulate_srtf 1 (initState psC3))))) ∧
     (0 ∈ (prioReappend (admitPhase (simulate_srtf 1 (initState psC3)))).readyQueue ∧
      (recordPhase (prioReappend (admitPhase (simulate_srtf 1 (initState psC3))))).readyQueueData =
        (simulate_srtf 1 (initState psC3)).readyQueueData ++
          [(prioReappend (admitPhase (simulate_srtf 1 (initState psC3)))).readyQueue.length] ∧
      (prioReappend (admitPhase (simulate_srtf 1 (initState psC3)))).readyQueue.length =
        readyCount (prioReappend (admitPhase (simulate_srtf 1 (initState psC3)))))) :=
  ⟨by decide, by decide,
   C10_sample_includes_running psC3 (by decide) (simulate_srtf 1 (initState psC3))
     (SimInv_simLoop psC3 true srtfStep srtfCond
       (fun s h hc => SimInv_srtfStep psC3 (by decide) s h hc) 1 (initState psC3)
       (SimInv_init psC3 true (by decide)))
     0 (by decide)⟩

/-- Arrival times are monotone in the arena index: the engine never writes
`arrival_time` and the input list is arrival-sorted. -/
theorem arrival_mono (ps0 : List Process) (hv : validInput ps0) (s : SimState)
    (hlen : s.procs.length = ps0.length)
    (harr : ∀ i, (pget s i).arrival_time = (ps0.getD i default).arrival_time)
    (a b : Nat) (hab : a ≤ b) (hb : b < s.procs.length) :
    (pget s a).arrival_time ≤ (pget s b).arrival_time := by
  rw [harr a, harr b]
  rcases Nat.eq_or_lt_of_le hab with heq | hlt
  · rw [heq]
  · have hb0 : b < ps0.length := by omega
    have ha0 : a < ps0.length := by omega
    have hp := List.pairwise_iff_getElem.mp hv.2.1 a b ha0 hb0 hlt
    rw [List.getD_eq_getElem ps0 default ha0, List.getD_eq_getElem ps0 default hb0]
    exact hp

/-- C6: when Round Robin preempts at quantum expiry (remaining time still
positive), the new ready queue is the old waiters, then the indices
admitted during the slice, then the preempted process at the tail; the
admitted segment holds exactly the not-yet-admitted processes that have
arrived by the slice's end, each arrived strictly after the slice began,
and is enqueued in arrival order. -/
theorem C6_rr_midslice_order (ps0 : List Process) (hv : validInput ps0) (quantum : Nat)
    (s0 : SimState) (inv : SimInv ps0 true s0) (i : Nat) (rest : List Nat)
    (hcons : (recordPhase (admitPhase s0)).readyQueue = i :: rest)
    (hpre : 0 < (pget (admitPhase (rrExec quantum (recordPhase (admitPhase s0)) i rest)) i).remaining_time) :
    (rrStep quantum s0).readyQueue =
      rest ++ List.range' (recordPhase (admitPhase s0)).processIndex
        (admitCount (rrExec quantum (recordPhase (admitPhase s0)) i rest)) ++ [i] ∧
    (∀ j, j < (recordPhase (admitPhase s0)).procs.length →
      (j ∈ List.range' (recordPhase (admitPhase s0)).processIndex
          (admitCount (rrExec quantum (recordPhase (admitPhase s0)) i rest)) ↔
        ((recordPhase (admitPhase s0)).processIndex ≤ j ∧
         (pget (recordPhase (admitPhase s0)) j).arrival_time ≤
           (recordPhase (admitPhase s0)).currentTime +
             min quantum (pget (recordPhase (admitPhase s0)) i).remaining_time))) ∧
    (∀ j ∈ List.range' (recordPhase (admitPhase s0)).processIndex
        (admitCount (rrExec quantum (recordPhase (admitPhase s0)) i rest)),
      (recordPhase (admitPhase s0)).currentTime <
        (pget (recordPhase (admitPhase s0)) j).arrival_time) ∧
    List.Pairwise (fun a b =>
        (pget (recordPhase (admitPhase s0)) a).arrival_time ≤
        (pget (recordPhase (admitPhase s0)) b).arrival_time)
      (List.range' (recordPhase (admitPhase s0)).processIndex
        (admitCount (rrExec quantum (recordPhase (admitPhase s0)) i rest))) := by
  have invA : SimInv ps0 true (recordPhase (admitPhase s0)) :=
    SimInv_recordPhase ps0 true _ (SimInv_admitPhase ps0 true s0 inv)
  have hiq : i ∈ (recordPhase (admitPhase s0)).readyQueue := by
    rw [hcons]
    simp
  obtain ⟨hiidx, histate, hicur⟩ := (invA.hqmem i).mp hiq
  have hElen : (rrExec quantum (recordPhase (admitPhase s0)) i rest).procs.length =
      (recordPhase (admitPhase s0)).procs.length := by
    show ((recordPhase (admitPhase s0)).procs.set i _).length = _
    exact List.length_set _ _ _
  have hEidx : (rrExec quantum (recordPhase (admitPhase s0)) i rest).processIndex =
      (recordPhase (admitPhase s0)).processIndex := rfl
  have hEt : (rrExec quantum (recordPhase (admitPhase s0)) i rest).currentTime =
      (recordPhase (admitPhase s0)).currentTime +
        min quantum (pget (recordPhase (admitPhase s0)) i).remaining_time := rfl
  have hpgE : ∀ j, j ≠ i →
      pget (rrExec quantum (recordPhase (admitPhase s0)) i rest) j =
      pget (recordPhase (admitPhase s0)) j := by
    intro j hj
    exact pget_set_other (recordPhase (admitPhase s0)) i _ j hj
  have hcntle : (recordPhase (admitPhase s0)).processIndex +
      admitCount (rrExec quantum (recordPhase (admitPhase s0)) i rest) ≤
      (recordPhase (admitPhase s0)).procs.length := by
    have h := admitCount_add_le (rrExec quantum (recordPhase (admitPhase s0)) i rest)
      (by rw [hEidx, hElen]; exact invA.hidx)
    rw [hEidx, hElen] at h
    exact h
  have hmono : ∀ a b, a ≤ b → b < (recordPhase (admitPhase s0)).procs.length →
      (pget (recordPhase (admitPhase s0)) a).arrival_time ≤
      (pget (recordPhase (admitPhase s0)) b).arrival_time :=
    fun a b hab hb => arrival_mono ps0 hv _ invA.hlen invA.harr a b hab hb
  refine ⟨?_, ?_, ?_, ?_⟩
  · have hstep : rrStep quantum s0 =
        { admitPhase (rrExec quantum (recordPhase (admitPhase s0)) i rest) with
            procs := (admitPhase (rrExec quantum (recordPhase (admitPhase s0)) i rest)).procs.set i
              { pget (admitPhase (rrExec quantum (recordPhase (admitPhase s0)) i rest)) i with
                  state := PState.READY },
            readyQueue :=
              (admitPhase (rrExec quantum (recordPhase (admitPhase s0)) i rest)).readyQueue ++ [i],
            preemptions :=
              (admitPhase (rrExec quantum (recordPhase (admitPhase s0)) i rest)).preemptions ++
                [((admitPhase (rrExec quantum (recordPhase (admitPhase s0)) i rest)).currentTime,
                  (pget (admitPhase (rrExec quantum (recordPhase (admitPhase s0)) i rest)) i).process_id)] } := by
      show rrSelect quantum (recordPhase (admitPhase s0)) = _
      unfold rrSelect
      rw [if_neg (by rw [hcons]; simp), hcons]
      simp only [List.headD_cons, List.tail_cons]
      rw [if_neg (by omega)]
    rw [hstep]
    show (admitPhase (rrExec quantum (recordPhase (admitPhase s0)) i rest)).readyQueue ++ [i] = _
    rw [admitPhase_readyQueue]
    rfl
  · intro j hjlen
    rw [List.mem_range'_1]
    constructor
    · rintro ⟨h1, h2⟩
      refine ⟨h1, ?_⟩
      have hji : j ≠ i := by omega
      have harrj := admitPhase_admitted_arrival
        (rrExec quantum (recordPhase (admitPhase s0)) i rest) j
        (by rw [hEidx]; exact h1) (by rw [hEidx]; exact h2)
      rw [hpgE j hji, hEt] at harrj
      exact harrj
    · rintro ⟨h1, h2⟩
      refine ⟨h1, ?_⟩
      by_contra hnot
      have hge : (recordPhase (admitPhase s0)).processIndex +
          admitCount (rrExec quantum (recordPhase (admitPhase s0)) i rest) ≤ j := by omega
      have hstoplt : (rrExec quantum (recordPhase (admitPhase s0)) i rest).processIndex +
          admitCount (rrExec quantum (recordPhase (admitPhase s0)) i rest) <
          (rrExec quantum (recordPhase (admitPhase s0)) i rest).procs.length := by
        rw [hEidx, hElen]
        omega
      have hstop := admitPhase_stop (rrExec quantum (recordPhase (admitPhase s0)) i rest) hstoplt
      rw [hEidx] at hstop
      have hne2 : (recordPhase (admitPhase s0)).processIndex +
          admitCount (rrExec quantum (recordPhase (admitPhase s0)) i rest) ≠ i := by omega
      rw [hpgE _ hne2, hEt] at hstop
      have hm := hmono ((recordPhase (admitPhase s0)).processIndex +
          admitCount (rrExec quantum (recordPhase (admitPhase s0)) i rest)) j hge hjlen
      omega
  · intro j hj
    rw [List.mem_range'_1] at hj
    obtain ⟨h1, h2⟩ := hj
    have hjlen : j < (recordPhase (admitPhase s0)).procs.length := lt_of_lt_of_le h2 hcntle
    have hidxlt : (recordPhase (admitPhase s0)).processIndex <
        (recordPhase (admitPhase s0)).procs.length := lt_of_le_of_lt h1 hjlen
    have hidx0 : (recordPhase (admitPhase s0)).processIndex =
        s0.processIndex + admitCount s0 := admitPhase_processIndex s0
    have hlen0 : (recordPhase (admitPhase s0)).procs.length = s0.procs.length :=
      admitPhase_procs_length s0
    have hstop0 := admitPhase_stop s0 (by omega)
    have hpgA : pget (recordPhase (admitPhase s0)) (s0.processIndex + admitCount s0) =
        pget s0 (s0.processIndex + admitCount s0) :=
      admitPhase_pget_out s0 _ (Or.inr (le_refl _))
    have hm := hmono (s0.processIndex + admitCount s0) j (by omega) hjlen
    have htA : (recordPhase (admitPhase s0)).currentTime = s0.currentTime := rfl
    rw [htA]
    rw [hpgA] at hm
    omega
  · have hpw : List.Pairwise (· < ·)
        (List.range' (recordPhase (admitPhase s0)).processIndex
          (admitCount (rrExec quantum (recordPhase (admitPhase s0)) i rest))) :=
      List.pairwise_lt_range' _ _
    refine hpw.imp_of_mem ?_
    intro a b ha hb hab
    rw [List.mem_range'_1] at hb
    exact hmono a b (le_of_lt hab) (lt_of_lt_of_le hb.2 hcntle)

/-- C6 witness: the first Round Robin iteration on the demo set `psC9`
(quantum 3): P1's slice runs time 0–3, P2 and P3 arrive during it and are
enqueued before P1 re-enters the tail. -/
theorem C6_witness :
    validInput psC9 ∧
    (recordPhase (admitPhase (initState psC9))).readyQueue = 0 :: [] ∧
    0 < (pget (admitPhase (rrExec 3 (recordPhase (admitPhase (initState psC9))) 0 [])) 0).remaining_time ∧
    ((rrStep 3 (initState psC9)).readyQueue =
      [] ++ List.range' (recordPhase (admitPhase (initState psC9))).processIndex
        (admitCount (rrExec 3 (recordPhase (admitPhase (initState psC9))) 0 [])) ++ [0] ∧
    (∀ j, j < (recordPhase (admitPhase (initState psC9))).procs.length →
      (j ∈ List.range' (recordPhase (admitPhase (initState psC9))).processIndex
          (admitCount (rrExec 3 (recordPhase (admitPhase (initState psC9))) 0 [])) ↔
        ((recordPhase (admitPhase (initState psC9))).processIndex ≤ j ∧
         (pget (recordPhase (admitPhase (initState psC9))) j).arrival_time ≤
           (recordPhase (admitPhase (initState psC9))).currentTime +
             min 3 (pget (recordPhase (admitPhase (initState psC9))) 0).remaining_time))) ∧
    (∀ j ∈ List.range' (recordPhase (admitPhase (initState psC9))).processIndex
        (admitCount (rrExec 3 (recordPhase (admitPhase (initState psC9))) 0 [])),
      (recordPhase (admitPhase (initState psC9))).currentTime <
        (pget (recordPhase (admitPhase (initState psC9))) j).arrival_time) ∧
    List.Pairwise (fun a b =>
        (pget (recordPhase (admitPhase (initState psC9))) a).arrival_time ≤
        (pget (recordPhase (admitPhase (initState psC9))) b).arrival_time)
      (List.range' (recordPhase (admitPhase (initState psC9))).processIndex
        (admitCount (rrExec 3 (recordPhase (admitPhase (initState psC9))) 0 [])))) :=
  ⟨by decide, by decide, by decide,
   C6_rr_midslice_order psC9 (by decide) 3 (initState psC9)
     (SimInv_init psC9 true (by decide)) 0 [] (by decide) (by decide)⟩
